import Mathlib

/-!
URDF model compilation (`URDFDocument.cpp`).

A shallow embedding of the model-compiler pipeline of
`src/model_io/urdf/src/URDFDocument.cpp`:
`processJoints`, root selection and `documentHasBeenParsed`, `isFakeLink`,
`removeFakeLinks`, `processSensors`,
`addSensorFramesAsAdditionalFramesToModel` and `addVisualPropertiesToModel`.

Conventions of the embedding.

* The index types `LinkIndex`, `JointIndex` and `FrameIndex` are signed
  integers and are written `Int`; the invalid index is `-1`.
* A `std::unordered_map` is the list of its entries in iteration order, a
  `std::unordered_set<std::string>` is a list of names used through
  membership only.
* The rigid transform type is a parameter `T` with a composition, an inverse
  and an identity; nothing else is assumed about it.
* A mass is a rational number (every finite `double` is one); the code only
  compares it with `0.0`.
* `reportError` / `reportWarning` calls that are visible in the source file
  are appended to an explicit log. Messages printed inside the `Model` class
  are not part of the log: there a failure is visible in the return value.
-/

namespace iDynTree

/-! ## Indices and names -/

/-- Modelled from the spec: the invalid link index (indices are dense and
zero-based, so a negative value is never a link). -/
abbrev LINK_INVALID_INDEX : Int := -1

/-- Modelled from the spec: the invalid joint index. -/
abbrev JOINT_INVALID_INDEX : Int := -1

/-- Modelled from the spec: the invalid frame index, the value
`getFrameIndex` returns for an unknown name. -/
abbrev FRAME_INVALID_INDEX : Int := -1

/-- Modelled from the spec: the name returned for an invalid link index. -/
abbrev LINK_INVALID_NAME : String := ""

/-- Modelled from the spec: the name returned for an invalid joint index. -/
abbrev JOINT_INVALID_NAME : String := ""

/-! ## Reports (the global error side channel) -/

inductive ReportKind where
  | error
  | warning
deriving DecidableEq, Repr

/-- One call of `reportError` or `reportWarning`: class name, method name and
message, as passed in the source. -/
structure Report where
  kind : ReportKind
  className : String
  methodName : String
  message : String
deriving DecidableEq, Repr

def reportError (className methodName message : String) : Report :=
  ⟨ReportKind.error, className, methodName, message⟩

def reportWarning (className methodName message : String) : Report :=
  ⟨ReportKind.warning, className, methodName, message⟩

/-! ## Links, joints, frames -/

/-- Modelled from the spec: the inertial data of a link; only the mass is
inspected by the pipeline, the rest is carried along unchanged. -/
structure SpatialInertia where
  mass : Rat
  centerOfMass : List Rat
  rotationalInertia : List Rat
deriving DecidableEq, Repr

/-- Modelled from the spec: a link carries mass/inertia (its name is kept by
the model). -/
structure Link where
  inertia : SpatialInertia
deriving DecidableEq, Repr

def SpatialInertia.getMass (i : SpatialInertia) : Rat := i.mass

def Link.getInertia (l : Link) : SpatialInertia := l.inertia

/-- Modelled from the spec: a motion axis (direction and origin), plain
data. -/
structure Axis where
  direction : List Rat
  origin : List Rat
deriving DecidableEq, Repr

/-- Modelled from the spec: the closed set of joint variants
(revolute, prismatic, fixed, others); another variant carries its number
of degrees of freedom. -/
inductive JointVariant where
  | revolute
  | prismatic
  | fixed
  | other (nrOfDOFs : Nat)
deriving DecidableEq, Repr

/-- Modelled from the spec: a joint is a type tag, two attached link
indices, the rest transform between the two attached links and, for the
motion-bearing variants, the axis as last set by `setAxis` (the axis
together with the child and parent index it was given for). -/
structure IJoint (T : Type) where
  variant : JointVariant
  link1 : Int
  link2 : Int
  link1_X_link2 : T
  axis : Option (Axis × Int × Int)
deriving DecidableEq, Repr

namespace IJoint

variable {T : Type}

def getFirstAttachedLink (j : IJoint T) : Int := j.link1

def getSecondAttachedLink (j : IJoint T) : Int := j.link2

def setAttachedLinks (j : IJoint T) (l1 l2 : Int) : IJoint T :=
  { j with link1 := l1, link2 := l2 }

/-- Modelled from the spec: zero degrees of freedom for a fixed joint, one
for a revolute or a prismatic joint. -/
def getNrOfDOFs (j : IJoint T) : Nat :=
  match j.variant with
  | JointVariant.revolute => 1
  | JointVariant.prismatic => 1
  | JointVariant.fixed => 0
  | JointVariant.other n => n

/-- Modelled from the spec: the rest transform of the joint oriented from
link `a` to link `b`: the stored transform when `a` is the first attached
link, its inverse otherwise. -/
def getRestTransform [Inv T] (j : IJoint T) (a _b : Int) : T :=
  if a = j.link1 then j.link1_X_link2 else (j.link1_X_link2)⁻¹

def setAxis (j : IJoint T) (axis : Axis) (child parent : Int) : IJoint T :=
  { j with axis := some (axis, child, parent) }

/-- The polymorphic clone: a copy of the value. -/
def clone (j : IJoint T) : IJoint T := j

end IJoint

/-- An entry of the neighbour relation: the link at the other end and the
joint in between. -/
structure Neighbor where
  neighborLink : Int
  neighborJoint : Int
deriving DecidableEq, Repr

/-- Modelled from the spec: a named additional frame bound to one link by a
fixed transform. -/
structure AdditionalFrame (T : Type) where
  name : String
  link : Int
  link_H_frame : T
deriving DecidableEq, Repr

/-! ## Shapes -/

structure Vector4 where
  r : Rat
  g : Rat
  b : Rat
  a : Rat
deriving DecidableEq, Repr

/-- Modelled from the spec: the geometric content of a shape, opaque to the
pipeline. -/
inductive Geometry where
  | box (x y z : Rat)
  | cylinder (length radius : Rat)
  | sphere (radius : Rat)
  | externalMesh (filename : String)
deriving DecidableEq, Repr

/-- Modelled from the spec: a shape with the three fields the pipeline
writes (name, link-relative transform, material colour). -/
structure SolidShape (T : Type) where
  name : String
  link_H_geometry : T
  material : Vector4
  geometry : Geometry
deriving DecidableEq, Repr

def SolidShape.clone {T : Type} (s : SolidShape T) : SolidShape T := s

/-- Modelled from the spec: per-link ordered collection of shapes; a link
with no entry has the empty list. -/
structure ModelSolidShapes (T : Type) where
  linkSolidShapes : Int → List (SolidShape T)

def ModelSolidShapes.empty {T : Type} : ModelSolidShapes T := ⟨fun _ => []⟩

/-- The statement `linkSolidShapes[idx].push_back(shape)`. -/
def ModelSolidShapes.push_back {T : Type} (g : ModelSolidShapes T) (idx : Int)
    (shape : SolidShape T) : ModelSolidShapes T :=
  ⟨fun i => if i = idx then g.linkSolidShapes i ++ [shape] else g.linkSolidShapes i⟩

/-! ## The model -/

/-- Modelled from the spec: the central graph. An ordered collection of
named links, an ordered collection of named joints, the additional frames,
the default base link index and the two shape containers. -/
structure Model (T : Type) where
  links : List (String × Link)
  joints : List (String × IJoint T)
  frames : List (AdditionalFrame T)
  defaultBaseLink : Int
  visualSolidShapes : ModelSolidShapes T
  collisionSolidShapes : ModelSolidShapes T

namespace Model

variable {T : Type}

/-- Modelled from the spec: the default-constructed, empty model
(`Model()`); it has no default base link. -/
def empty : Model T :=
  { links := [], joints := [], frames := [], defaultBaseLink := LINK_INVALID_INDEX,
    visualSolidShapes := ModelSolidShapes.empty,
    collisionSolidShapes := ModelSolidShapes.empty }

def getNrOfLinks (m : Model T) : Nat := m.links.length

def getNrOfJoints (m : Model T) : Nat := m.joints.length

def linkNames (m : Model T) : List String := m.links.map Prod.fst

def jointNames (m : Model T) : List String := m.joints.map Prod.fst

def frameNames (m : Model T) : List String := m.frames.map AdditionalFrame.name

/-- Position of the first occurrence of a name in a list of names, `-1`
when the name is absent. -/
def indexOfName (names : List String) (name : String) : Int :=
  if names.indexOf name < names.length then (names.indexOf name : Int) else -1

/-- Modelled from the spec: name of a link, `LINK_INVALID_NAME` for an index
that is not a link. -/
def getLinkName (m : Model T) (i : Int) : String :=
  if 0 ≤ i ∧ i < m.getNrOfLinks then m.linkNames.getD i.toNat LINK_INVALID_NAME
  else LINK_INVALID_NAME

/-- Modelled from the spec: index of the link of a given name,
`LINK_INVALID_INDEX` when the name is absent. -/
def getLinkIndex (m : Model T) (name : String) : Int :=
  indexOfName m.linkNames name

def isLinkNameUsed (m : Model T) (name : String) : Bool :=
  decide (m.getLinkIndex name ≠ LINK_INVALID_INDEX)

/-- Modelled from the spec: the link at an index (a null pointer for an
index that is not a link). -/
def getLink (m : Model T) (i : Int) : Option Link :=
  if 0 ≤ i ∧ i < m.getNrOfLinks then (m.links.map Prod.snd)[i.toNat]? else none

def getJointName (m : Model T) (i : Int) : String :=
  if 0 ≤ i ∧ i < m.getNrOfJoints then m.jointNames.getD i.toNat JOINT_INVALID_NAME
  else JOINT_INVALID_NAME

def getJointIndex (m : Model T) (name : String) : Int :=
  indexOfName m.jointNames name

def isJointNameUsed (m : Model T) (name : String) : Bool :=
  decide (m.getJointIndex name ≠ JOINT_INVALID_INDEX)

/-- Modelled from the spec: the joint at an index (a null pointer for an
index that is not a joint). -/
def getJoint (m : Model T) (i : Int) : Option (IJoint T) :=
  if 0 ≤ i ∧ i < m.getNrOfJoints then (m.joints.map Prod.snd)[i.toNat]? else none

/-- Modelled from the spec: every link is a frame (with the index of the
link), the additional frames follow; `FRAME_INVALID_INDEX` for an unknown
name. -/
def getFrameIndex (m : Model T) (name : String) : Int :=
  if m.getLinkIndex name ≠ LINK_INVALID_INDEX then m.getLinkIndex name
  else if indexOfName m.frameNames name ≠ -1 then
    (m.getNrOfLinks : Int) + indexOfName m.frameNames name
  else FRAME_INVALID_INDEX

def isFrameNameUsed (m : Model T) (name : String) : Bool :=
  decide (m.getFrameIndex name ≠ FRAME_INVALID_INDEX)

/-- Modelled from the spec: the link-to-frame transform of a frame: the
identity for the frame of a link, the stored transform for an additional
frame. -/
def getFrameTransform [One T] (m : Model T) (f : Int) : T :=
  if 0 ≤ f ∧ f < m.getNrOfLinks then 1
  else if (m.getNrOfLinks : Int) ≤ f then
    match m.frames[(f - m.getNrOfLinks).toNat]? with
    | some fr => fr.link_H_frame
    | none => 1
  else 1

/-- Modelled from the spec: the link a frame is bound to. -/
def getFrameLink (m : Model T) (f : Int) : Int :=
  if 0 ≤ f ∧ f < m.getNrOfLinks then f
  else if (m.getNrOfLinks : Int) ≤ f then
    match m.frames[(f - m.getNrOfLinks).toNat]? with
    | some fr => fr.link
    | none => LINK_INVALID_INDEX
  else LINK_INVALID_INDEX

def getDefaultBaseLink (m : Model T) : Int := m.defaultBaseLink

/-- Modelled from the spec: the default base link is set only to a valid
link index; the result tells whether it was (failing to resolve the base
is an error of the elimination pass). -/
def setDefaultBaseLink (m : Model T) (i : Int) : Bool × Model T :=
  if i < 0 ∨ (m.getNrOfLinks : Int) ≤ i then (false, m)
  else (true, { m with defaultBaseLink := i })

/-- Modelled from the spec: append a link under a name. Names are unique
among links and frames: a used name is refused (`LINK_INVALID_INDEX`).
The first link of a model without default base becomes the default
base. -/
def addLink (m : Model T) (name : String) (link : Link) : Int × Model T :=
  if m.isFrameNameUsed name then (LINK_INVALID_INDEX, m)
  else
    let m1 : Model T := { m with links := m.links ++ [(name, link)] }
    let newLinkIndex : Int := (m1.links.length : Int) - 1
    if newLinkIndex = 0 ∧ m1.getDefaultBaseLink = LINK_INVALID_INDEX then
      (newLinkIndex, (m1.setDefaultBaseLink newLinkIndex).2)
    else (newLinkIndex, m1)

/-- Modelled from the spec: insert a copy of a joint under its declared
name at the end of the joint collection. The invariant that both endpoints
of every joint are valid link indices is kept by refusing
(`JOINT_INVALID_INDEX`, model unchanged) a used joint name, an endpoint
that is not a link (the unknown link reference) and a joint from a link to
itself. -/
def addJoint (m : Model T) (jointName : String) (joint : IJoint T) : Int × Model T :=
  if m.isJointNameUsed jointName then (JOINT_INVALID_INDEX, m)
  else
    let firstLink := joint.getFirstAttachedLink
    let secondLink := joint.getSecondAttachedLink
    if firstLink < 0 ∨ (m.getNrOfLinks : Int) ≤ firstLink ∨
        secondLink < 0 ∨ (m.getNrOfLinks : Int) ≤ secondLink then (JOINT_INVALID_INDEX, m)
    else if firstLink = secondLink then (JOINT_INVALID_INDEX, m)
    else
      let m1 : Model T := { m with joints := m.joints ++ [(jointName, joint.clone)] }
      ((m1.joints.length : Int) - 1, m1)

/-- Modelled from the spec: bind a new named frame to a link by a fixed
transform; refused (`false`, model unchanged) when the link name is unknown
or the frame name is already the name of a link or of a frame. -/
def addAdditionalFrameToLink (m : Model T) (linkName frameName : String) (link_H_frame : T) :
    Bool × Model T :=
  let linkIndex := m.getLinkIndex linkName
  if linkIndex = LINK_INVALID_INDEX then (false, m)
  else if m.isFrameNameUsed frameName then (false, m)
  else (true, { m with frames := m.frames ++ [⟨frameName, linkIndex, link_H_frame⟩] })

/-- The neighbour entries contributed by the joints of a list, the first
of which has index `k`. -/
def neighborsFrom (link : Int) : Nat → List (String × IJoint T) → List Neighbor
  | _, [] => []
  | k, (_, j) :: js =>
    (if j.link1 = link then [⟨j.link2, (k : Int)⟩] else []) ++
    (if j.link2 = link then [⟨j.link1, (k : Int)⟩] else []) ++
    neighborsFrom link (k + 1) js

/-- Modelled from the spec: the neighbour relation is derived from the
joints: for a link, the joints incident to it and the link at the other
end, in joint order. -/
def neighbors (m : Model T) (link : Int) : List Neighbor :=
  neighborsFrom link 0 m.joints

def getNrOfNeighbors (m : Model T) (link : Int) : Nat := (m.neighbors link).length

def getNeighbor (m : Model T) (link : Int) (neighborIndex : Nat) : Neighbor :=
  (m.neighbors link).getD neighborIndex ⟨LINK_INVALID_INDEX, JOINT_INVALID_INDEX⟩

end Model

/-! ## Pending declarations (the buffers filled by the document walker) -/

/-- A pending joint (`JointElement::JointInfo`). -/
structure JointInfo (T : Type) where
  joint : IJoint T
  parentLinkName : String
  childLinkName : String
  axis : Axis
deriving DecidableEq, Repr

/-- A material (`MaterialElement::MaterialInfo`): a name and a colour pointer
that may be empty. It is the material reference of a pending visual, with
its optional inline colour, and the value of an entry of the materials
table. -/
structure MaterialInfo where
  m_name : String
  m_rgba : Option Vector4
deriving DecidableEq, Repr

/-- The colour `*m_rgba` read through the colour pointer of a material. For
a material without colour the source reads through an empty pointer, which
is undefined; the embedding then gives the colour with all components 0,
and the statements on a colour read through the pointer say that the
material has one. -/
def MaterialInfo.derefRgba (material : MaterialInfo) : Vector4 :=
  match material.m_rgba with
  | some rgba => rgba
  | none => ⟨0, 0, 0, 0⟩

/-- A pending visual (`VisualElement::VisualInfo`). -/
structure VisualInfo (T : Type) where
  m_origin : T
  m_solidShape : SolidShape T
  m_material : Option MaterialInfo
  m_name : String
deriving DecidableEq, Repr

/-! ## Sensors -/

/-- Modelled from the spec: the sensor kinds, in the order of the
enumeration that the frame publication loop walks through
(`SIX_AXIS_FORCE_TORQUE` first, `NR_OF_SENSOR_TYPES` after the last). -/
inductive SensorType where
  | SIX_AXIS_FORCE_TORQUE
  | ACCELEROMETER
  | GYROSCOPE
  | THREE_AXIS_ANGULAR_ACCELEROMETER
  | THREE_AXIS_FORCE_TORQUE_CONTACT
deriving DecidableEq, Repr

/-- Modelled from the spec: every kind of the enumeration, in order. -/
def allSensorTypes : List SensorType :=
  [SensorType.SIX_AXIS_FORCE_TORQUE, SensorType.ACCELEROMETER, SensorType.GYROSCOPE,
   SensorType.THREE_AXIS_ANGULAR_ACCELEROMETER, SensorType.THREE_AXIS_FORCE_TORQUE_CONTACT]

/-- Modelled from the spec: the link-attached kinds are all kinds but the
six-axis force/torque sensor (which is attached to a joint). -/
def isLinkSensor : SensorType → Bool
  | SensorType.SIX_AXIS_FORCE_TORQUE => false
  | _ => true

/-- The kinds of link sensor. -/
inductive LinkSensorType where
  | ACCELEROMETER
  | GYROSCOPE
  | THREE_AXIS_ANGULAR_ACCELEROMETER
  | THREE_AXIS_FORCE_TORQUE_CONTACT
deriving DecidableEq, Repr

def LinkSensorType.toSensorType : LinkSensorType → SensorType
  | LinkSensorType.ACCELEROMETER => SensorType.ACCELEROMETER
  | LinkSensorType.GYROSCOPE => SensorType.GYROSCOPE
  | LinkSensorType.THREE_AXIS_ANGULAR_ACCELEROMETER => SensorType.THREE_AXIS_ANGULAR_ACCELEROMETER
  | LinkSensorType.THREE_AXIS_FORCE_TORQUE_CONTACT => SensorType.THREE_AXIS_FORCE_TORQUE_CONTACT

/-- Modelled from the spec: a sensor bound to final link indices and
carrying its mounting transform. A six-axis force/torque sensor is attached
to two links and knows its transform with respect to each; a link sensor is
attached to its parent link. -/
inductive Sensor (T : Type) where
  | sixAxisForceTorque (name : String) (firstLinkIndex secondLinkIndex : Int)
      (firstLinkName secondLinkName : String) (link1_H_sensor link2_H_sensor : T)
  | linkSensor (type : LinkSensorType) (name : String) (parentLinkIndex : Int)
      (link_H_sensor : T)
deriving DecidableEq, Repr

namespace Sensor

variable {T : Type}

def getSensorType : Sensor T → SensorType
  | sixAxisForceTorque _ _ _ _ _ _ _ => SensorType.SIX_AXIS_FORCE_TORQUE
  | linkSensor type _ _ _ => type.toSensorType

def getName : Sensor T → String
  | sixAxisForceTorque name _ _ _ _ _ _ => name
  | linkSensor _ name _ _ => name

end Sensor

/-- Modelled from the spec: the sensors in insertion order; the partition by
kind is the sublist of the sensors of a kind, so `getSensor(type, i)` is
the `i`-th element of `getSensors type`. -/
structure SensorsList (T : Type) where
  sensors : List (Sensor T)
deriving DecidableEq, Repr

namespace SensorsList

variable {T : Type}

/-- The default-constructed list (`SensorsList()`). -/
def empty : SensorsList T := ⟨[]⟩

/-- The list takes a copy of the sensor. -/
def addSensor (l : SensorsList T) (s : Sensor T) : SensorsList T := ⟨l.sensors ++ [s]⟩

def getSensors (l : SensorsList T) (type : SensorType) : List (Sensor T) :=
  l.sensors.filter (fun s => decide (s.getSensorType = type))

def getNrOfSensors (l : SensorsList T) (type : SensorType) : Nat := (l.getSensors type).length

end SensorsList

/-- Modelled from the spec: a deferred sensor factory; given the finalized
model it produces a sensor or nothing (the null pointer). -/
structure SensorHelper (T : Type) where
  generateSensor : Model T → Option (Sensor T)

/-! ## `processJoints` -/

/-- The variables a loop of `processJoints` updates: the model, the set of
child-link names, the log, and the entries already visited, each with its
joint object as the loop left it (the joint is shared with the buffer and
modified in place). -/
structure JointLoopState (T : Type) where
  model : Model T
  childLinks : List String
  visited : List (String × JointInfo T)
  log : List Report

/-- Body of the first loop of `processJoints` (ordinary joints). -/
def processJoints_joint {T : Type} (s : JointLoopState T) (pair : String × JointInfo T) :
    JointLoopState T :=
  let jointName := pair.1
  let joint := pair.2.joint
  let parentLinkName := pair.2.parentLinkName
  let childLinkName := pair.2.childLinkName
  let parentLinkIndex := s.model.getLinkIndex parentLinkName
  let childLinkIndex := s.model.getLinkIndex childLinkName
  let joint := joint.setAttachedLinks parentLinkIndex childLinkIndex
  let jl : IJoint T × List Report :=
    match joint.variant with
    | JointVariant.revolute => (joint.setAxis pair.2.axis childLinkIndex parentLinkIndex, s.log)
    | JointVariant.prismatic => (joint.setAxis pair.2.axis childLinkIndex parentLinkIndex, s.log)
    | _ => (joint, s.log ++ [reportError "URDFDocument" "processJoints" "Unrecognized joint type"])
  { model := (s.model.addJoint jointName jl.1).2,
    childLinks := s.childLinks.insert childLinkName,
    visited := s.visited ++ [(jointName, { pair.2 with joint := jl.1 })],
    log := jl.2 }

/-- Body of the second loop of `processJoints` (fixed joints). -/
def processJoints_fixed {T : Type} (s : JointLoopState T) (pair : String × JointInfo T) :
    JointLoopState T :=
  let jointName := pair.1
  let joint := pair.2.joint
  let parentLinkName := pair.2.parentLinkName
  let childLinkName := pair.2.childLinkName
  let parentLinkIndex := s.model.getLinkIndex parentLinkName
  let childLinkIndex := s.model.getLinkIndex childLinkName
  let joint := joint.setAttachedLinks parentLinkIndex childLinkIndex
  { model := (s.model.addJoint jointName joint).2,
    childLinks := s.childLinks.insert childLinkName,
    visited := s.visited ++ [(jointName, { pair.2 with joint := joint })],
    log := s.log }

/-- What `processJoints` leaves behind: the returned set of child-link
names, the model and the two mappings (all three passed by reference), and
the reports. -/
structure ProcessJointsResult (T : Type) where
  childLinks : List String
  model : Model T
  joints : List (String × JointInfo T)
  fixed_joints : List (String × JointInfo T)
  log : List Report

def processJoints {T : Type} (model : Model T) (joints fixed_joints : List (String × JointInfo T)) :
    ProcessJointsResult T :=
  let s0 : JointLoopState T := ⟨model, [], [], []⟩
  let s1 := joints.foldl processJoints_joint s0
  -- Adding all the fixed joint in the end
  let s2 := fixed_joints.foldl processJoints_fixed { s1 with visited := [] }
  { childLinks := s2.childLinks, model := s2.model, joints := s1.visited,
    fixed_joints := s2.visited, log := s2.log }

/-! ## `isFakeLink` and `removeFakeLinks` -/

/-- The classification of a link. The source dereferences the link and the
joint pointers; for an index that is not a link the embedding answers
`false`. -/
def isFakeLink {T : Type} (modelWithFakeLinks : Model T) (linkToCheck : Int) : Bool :=
  match modelWithFakeLinks.getLink linkToCheck with
  | none => false
  | some link =>
    -- First condition: base link is massless
    let mass := link.getInertia.getMass
    if mass > 0 then false
    -- Second condition: the base link has only one child
    else if modelWithFakeLinks.getNrOfNeighbors linkToCheck ≠ 1 then false
    else
      -- Third condition: the base link is attached to its child with a fixed joint
      let neigh := modelWithFakeLinks.getNeighbor linkToCheck 0
      match modelWithFakeLinks.getJoint neigh.neighborJoint with
      | none => false
      | some joint => if joint.getNrOfDOFs > 0 then false else true

/-- The variables of the classification loop of `removeFakeLinks`. -/
structure FakeLinkScan where
  linksToRemove : List String
  jointsToRemove : List String
  newDefaultBaseLink : String
deriving DecidableEq, Repr

/-- Body of the classification loop. -/
def removeFakeLinks_classify {T : Type} (originalModel : Model T) (s : FakeLinkScan)
    (linkIndex : Nat) : FakeLinkScan :=
  if isFakeLink originalModel linkIndex then
    let jointIndex := (originalModel.getNeighbor linkIndex 0).neighborJoint
    let s1 : FakeLinkScan :=
      { s with
        linksToRemove := s.linksToRemove.insert (originalModel.getLinkName linkIndex),
        jointsToRemove := s.jointsToRemove.insert (originalModel.getJointName jointIndex) }
    -- if the fake link is the default base, we also need to update the
    -- default base in the new model
    if (linkIndex : Int) = originalModel.getDefaultBaseLink then
      let newBaseIndex := (originalModel.getNeighbor linkIndex 0).neighborLink
      { s1 with newDefaultBaseLink := originalModel.getLinkName newBaseIndex }
    else s1
  else s

/-- Body of the loop that adds all links except the ones to remove. -/
def removeFakeLinks_addLink {T : Type} (originalModel : Model T) (linksToRemove : List String)
    (cleanModel : Model T) (link : Nat) : Model T :=
  let linkToAdd := originalModel.getLinkName link
  if linkToAdd ∉ linksToRemove then
    match originalModel.getLink link with
    | some l => (cleanModel.addLink linkToAdd l).2
    | none => cleanModel
  else cleanModel

/-- Body of the loop that adds all joints except the ones to remove, with
both endpoints looked up by name in the new model. -/
def removeFakeLinks_addJoint {T : Type} (originalModel : Model T) (jointsToRemove : List String)
    (cleanModel : Model T) (joint : Nat) : Model T :=
  let jointToAdd := originalModel.getJointName joint
  if jointToAdd ∉ jointsToRemove then
    match originalModel.getJoint joint with
    | some j =>
      let newJoint := j.clone
      let firstLinkName := originalModel.getLinkName newJoint.getFirstAttachedLink
      let secondLinkName := originalModel.getLinkName newJoint.getSecondAttachedLink
      let firstLinkNewIndex := cleanModel.getLinkIndex firstLinkName
      let secondLinkNewIndex := cleanModel.getLinkIndex secondLinkName
      let newJoint := newJoint.setAttachedLinks firstLinkNewIndex secondLinkNewIndex
      (cleanModel.addJoint jointToAdd newJoint).2
    | none => cleanModel
  else cleanModel

/-- Body of the loop that adds a frame for every removed link. The
`assert` of the source (the removed link has one neighbour) has no effect
on the result. -/
def removeFakeLinks_addFrame {T : Type} [Inv T] (originalModel : Model T)
    (linksToRemove : List String) (cleanModel : Model T) (link : Nat) : Model T :=
  let fakeLinkName := originalModel.getLinkName link
  if fakeLinkName ∈ linksToRemove then
    let fakeLinkOldIndex := originalModel.getLinkIndex fakeLinkName
    let fakeLink_realLink_joint := (originalModel.getNeighbor fakeLinkOldIndex 0).neighborJoint
    let realLinkOldIndex := (originalModel.getNeighbor fakeLinkOldIndex 0).neighborLink
    let realLinkName := originalModel.getLinkName realLinkOldIndex
    match originalModel.getJoint fakeLink_realLink_joint with
    | some j =>
      -- Get the transform
      let realLink_H_fakeLink := j.getRestTransform realLinkOldIndex fakeLinkOldIndex
      -- Add the fake base as a frame
      (cleanModel.addAdditionalFrameToLink realLinkName fakeLinkName realLink_H_fakeLink).2
    | none => cleanModel
  else cleanModel

/-- The classification loop of `removeFakeLinks` over all links. -/
def removeFakeLinks_scan {T : Type} (originalModel : Model T) : FakeLinkScan :=
  (List.range originalModel.getNrOfLinks).foldl (removeFakeLinks_classify originalModel)
    ⟨[], [], originalModel.getLinkName originalModel.getDefaultBaseLink⟩

/-- The output model of `removeFakeLinks` before its default base link is
set: the three loops that add links, joints and frames. -/
def removeFakeLinks_build {T : Type} [Inv T] (originalModel : Model T) : Model T :=
  let scan := removeFakeLinks_scan originalModel
  -- Clear the output model
  let cleanModel : Model T := Model.empty
  let cleanModel := (List.range originalModel.getNrOfLinks).foldl
    (removeFakeLinks_addLink originalModel scan.linksToRemove) cleanModel
  let cleanModel := (List.range originalModel.getNrOfJoints).foldl
    (removeFakeLinks_addJoint originalModel scan.jointsToRemove) cleanModel
  (List.range originalModel.getNrOfLinks).foldl
    (removeFakeLinks_addFrame originalModel scan.linksToRemove) cleanModel

/-- The function `removeFakeLinks`: the returned flag and the output model
`cleanModel`. -/
def removeFakeLinks {T : Type} [Inv T] (originalModel : Model T) : Bool × Model T :=
  let scan := removeFakeLinks_scan originalModel
  let cleanModel := removeFakeLinks_build originalModel
  -- Set the default base link
  cleanModel.setDefaultBaseLink (cleanModel.getLinkIndex scan.newDefaultBaseLink)

/-! ## `processSensors` -/

/-- The loop of `processSensors`: the first helper that produces no sensor
cleans the list and makes the function return `false`. -/
def processSensors_loop {T : Type} (model : Model T) :
    List (SensorHelper T) → SensorsList T → Bool × SensorsList T
  | [], sensors => (true, sensors)
  | sensorHelper :: rest, sensors =>
    match sensorHelper.generateSensor model with
    | none => (false, SensorsList.empty)
    | some sensor => processSensors_loop model rest (sensors.addSensor sensor)

/-- The function `processSensors`: the returned flag and the output list. The
list passed in is overwritten before the loop. -/
def processSensors {T : Type} (model : Model T) (helpers : List (SensorHelper T))
    (_sensors : SensorsList T) : Bool × SensorsList T :=
  processSensors_loop model helpers SensorsList.empty

/-! ## `addSensorFramesAsAdditionalFramesToModel` -/

/-- The variables of `addSensorFramesAsAdditionalFramesToModel`: the flag
`ret`, the model and the log. -/
structure SensorFramesState (T : Type) where
  ret : Bool
  model : Model T
  log : List Report

def sensorFrameMessage (sensorName ending : String) : String :=
  "addSensorFramesAsAdditionalFrames is specified as an option, but it is impossible to add the frame of sensor "
    ++ sensorName ++ ending

/-- The loop over the sensors of a link-sensor kind. `Except.error` is the
early `return false` taken when a sensor of the kind is not a link
sensor. -/
def addSensorFrames_linkSensors {T : Type} :
    List (Sensor T) → SensorFramesState T → Except (SensorFramesState T) (SensorFramesState T)
  | [], s => Except.ok s
  | Sensor.linkSensor _ name parentLinkIndex link_H_sensor :: rest, s =>
    let linkToWhichTheSensorIsAttached := parentLinkIndex
    let linkToWhichTheSensorIsAttachedName := s.model.getLinkName linkToWhichTheSensorIsAttached
    if s.model.isFrameNameUsed name then
      let err := sensorFrameMessage name " as there is already a frame with that name"
      addSensorFrames_linkSensors rest
        { s with log := s.log ++ [reportWarning "" "addSensorFramesAsAdditionalFramesToModel" err] }
    else
      let r := s.model.addAdditionalFrameToLink linkToWhichTheSensorIsAttachedName name link_H_sensor
      let ok := r.1
      if !ok then
        let err := sensorFrameMessage name " for unknown reasons"
        addSensorFrames_linkSensors rest
          { ret := false, model := r.2,
            log := s.log ++ [reportError "" "addSensorFramesAsAdditionalFramesToModel" err] }
      else addSensorFrames_linkSensors rest { s with model := r.2 }
  | _ :: _, s => Except.error s

/-- Modelled from the spec: the link-to-sensor transform of a six-axis
force/torque sensor for one of its two attached links; nothing for another
link. -/
def sixAxisLinkSensorTransform {T : Type} (firstLinkIndex secondLinkIndex : Int)
    (link1_H_sensor link2_H_sensor : T) (link_index : Int) : Option T :=
  if link_index = firstLinkIndex then some link1_H_sensor
  else if link_index = secondLinkIndex then some link2_H_sensor
  else none

/-- The loop over the six-axis force/torque sensors. The sensors of that
kind are all six-axis force/torque sensors; another sensor is skipped. -/
def addSensorFrames_ftSensors {T : Type} :
    List (Sensor T) → SensorFramesState T → SensorFramesState T
  | [], s => s
  | Sensor.sixAxisForceTorque name firstLinkIndex secondLinkIndex _ secondLinkName
      link1_H_sensor link2_H_sensor :: rest, s =>
    let linkToWhichTheSensorIsAttachedName := secondLinkName
    if s.model.isFrameNameUsed name then
      let err := sensorFrameMessage name " as there is already a frame with that name"
      addSensorFrames_ftSensors rest
        { s with log := s.log ++ [reportWarning "" "addSensorFramesAsAdditionalFramesToModel" err] }
    else
      let r : Bool × Model T :=
        match sixAxisLinkSensorTransform firstLinkIndex secondLinkIndex link1_H_sensor
            link2_H_sensor secondLinkIndex with
        | some link_H_sensor =>
          s.model.addAdditionalFrameToLink linkToWhichTheSensorIsAttachedName name link_H_sensor
        | none => (false, s.model)
      let ok := r.1
      if !ok then
        let err := sensorFrameMessage name " for unknown reasons"
        addSensorFrames_ftSensors rest
          { ret := false, model := r.2,
            log := s.log ++ [reportError "" "addSensorFramesAsAdditionalFramesToModel" err] }
      else addSensorFrames_ftSensors rest { s with model := r.2 }
  | _ :: rest, s => addSensorFrames_ftSensors rest s

/-- Body of the loop over the sensor kinds. -/
def addSensorFrames_type {T : Type} (sensors : SensorsList T) (type : SensorType)
    (s : SensorFramesState T) : Except (SensorFramesState T) (SensorFramesState T) :=
  let r : Except (SensorFramesState T) (SensorFramesState T) :=
    if isLinkSensor type then addSensorFrames_linkSensors (sensors.getSensors type) s
    else Except.ok s
  match r with
  | Except.error e => Except.error e
  | Except.ok s1 =>
    -- Explictly address the case of F/T sensors
    if type = SensorType.SIX_AXIS_FORCE_TORQUE then
      Except.ok (addSensorFrames_ftSensors (sensors.getSensors type) s1)
    else Except.ok s1

/-- The loop over the sensor kinds. -/
def addSensorFrames_types {T : Type} (sensors : SensorsList T) :
    List SensorType → SensorFramesState T → Except (SensorFramesState T) (SensorFramesState T)
  | [], s => Except.ok s
  | type :: rest, s =>
    match addSensorFrames_type sensors type s with
    | Except.error e => Except.error e
    | Except.ok s1 => addSensorFrames_types sensors rest s1

/-- The function `addSensorFramesAsAdditionalFramesToModel`: the returned
flag, the model and the reports. -/
def addSensorFramesAsAdditionalFramesToModel {T : Type} (model : Model T)
    (sensors : SensorsList T) : Bool × Model T × List Report :=
  match addSensorFrames_types sensors allSensorTypes ⟨true, model, []⟩ with
  | Except.error e => (false, e.model, e.log)
  | Except.ok s => (s.ret, s.model, s.log)

/-! ## `addVisualPropertiesToModel` -/

/-- The association and the transform of a shape: the key is a link, or it
is resolved as a frame. -/
def resolveVisualFrame {T : Type} [One T] [Mul T] (model : Model T) (key : String)
    (isLink : Bool) (visual : VisualInfo T) : Except Report (T × String) :=
  if isLink then Except.ok (visual.m_origin, key)
  else
    let urdfLinkFrameIndex := model.getFrameIndex key
    if urdfLinkFrameIndex = FRAME_INVALID_INDEX then
      let message := "Expecting " ++ key ++ " to be a frame, but it was not found in the frame list"
      Except.error (reportError "URDFDocument" "addVisualPropertiesToModel" message)
    else
      Except.ok (model.getFrameTransform urdfLinkFrameIndex * visual.m_origin,
        model.getLinkName (model.getFrameLink urdfLinkFrameIndex))

/-- The material of a shape. The materials table holds a `MaterialInfo`
under each name (`unordered_map<string, MaterialInfo>`, here the list of its
entries, looked up by name); the colour of the entry found is read through
its pointer without a test (`*found->second.m_rgba`). -/
def resolveVisualMaterial {T : Type} (materialDatabase : List (String × MaterialInfo))
    (linkName : String) (visual : VisualInfo T) : Except Report (SolidShape T) :=
  let shape := visual.m_solidShape
  match visual.m_material with
  | none => Except.ok shape
  | some material =>
    match material.m_rgba with
    | some rgba => Except.ok { shape with material := rgba }
    | none =>
      -- Look in the DB for the material with the specified name
      match materialDatabase.lookup material.m_name with
      | none =>
        let message := "Material for link " ++ linkName
          ++ " has not rgba and it is not in the global material database."
        Except.error (reportError "URDFDocument" "addVisualPropertiesToModel" message)
      | some found => Except.ok { shape with material := found.derefRgba }

/-- Body of the inner loop of `addVisualPropertiesToModel`, for one pending
visual: the visual with its shape as modified in place and the container
with the clone appended, or the report of the failure that makes the
function return `false`. -/
def addVisual_shape {T : Type} [One T] [Mul T] (model : Model T)
    (materialDatabase : List (String × MaterialInfo)) (key : String) (isLink : Bool)
    (visual : VisualInfo T) (modelGeometries : ModelSolidShapes T) :
    Except Report (VisualInfo T × ModelSolidShapes T) :=
  match resolveVisualFrame model key isLink visual with
  | Except.error e => Except.error e
  | Except.ok (link_H_geometry, linkName) =>
    match resolveVisualMaterial materialDatabase linkName visual with
    | Except.error e => Except.error e
    | Except.ok shape =>
      let shape : SolidShape T :=
        { shape with name := visual.m_name, link_H_geometry := link_H_geometry }
      let idyntreeLinkIndex := model.getLinkIndex linkName
      Except.ok ({ visual with m_solidShape := shape },
        modelGeometries.push_back idyntreeLinkIndex shape.clone)

/-- What a loop of `addVisualPropertiesToModel` leaves behind: whether it
ran to its end, the entries as left (shapes are shared with the buffer),
the container and the reports. -/
structure VisualLoopResult (α : Type) (T : Type) where
  ok : Bool
  visuals : α
  modelGeometries : ModelSolidShapes T
  log : List Report

/-- The inner loop: the visuals declared under one key. -/
def addVisual_shapes {T : Type} [One T] [Mul T] (model : Model T)
    (materialDatabase : List (String × MaterialInfo)) (key : String) (isLink : Bool) :
    List (VisualInfo T) → ModelSolidShapes T → VisualLoopResult (List (VisualInfo T)) T
  | [], g => ⟨true, [], g, []⟩
  | visual :: rest, g =>
    match addVisual_shape model materialDatabase key isLink visual g with
    | Except.error e => ⟨false, visual :: rest, g, [e]⟩
    | Except.ok (visual1, g1) =>
      let r := addVisual_shapes model materialDatabase key isLink rest g1
      ⟨r.ok, visual1 :: r.visuals, r.modelGeometries, r.log⟩

/-- The outer loop: the keys of the pending-visual mapping. -/
def addVisual_keys {T : Type} [One T] [Mul T] (model : Model T)
    (materialDatabase : List (String × MaterialInfo)) :
    List (String × List (VisualInfo T)) → ModelSolidShapes T →
      VisualLoopResult (List (String × List (VisualInfo T))) T
  | [], g => ⟨true, [], g, []⟩
  | linkVisual :: rest, g =>
    let isLink := model.isLinkNameUsed linkVisual.1
    let r := addVisual_shapes model materialDatabase linkVisual.1 isLink linkVisual.2 g
    if r.ok then
      let r1 := addVisual_keys model materialDatabase rest r.modelGeometries
      ⟨r1.ok, (linkVisual.1, r.visuals) :: r1.visuals, r1.modelGeometries, r.log ++ r1.log⟩
    else ⟨false, (linkVisual.1, r.visuals) :: rest, r.modelGeometries, r.log⟩

/-- The function `addVisualPropertiesToModel`: `ok` is the returned flag. -/
def addVisualPropertiesToModel {T : Type} [One T] [Mul T] (model : Model T)
    (visuals : List (String × List (VisualInfo T)))
    (materialDatabase : List (String × MaterialInfo)) (modelGeometries : ModelSolidShapes T) :
    VisualLoopResult (List (String × List (VisualInfo T))) T :=
  addVisual_keys model materialDatabase visuals modelGeometries

/-! ## `URDFDocument::documentHasBeenParsed` -/

structure ModelParserOptions where
  addSensorFramesAsAdditionalFrames : Bool
deriving DecidableEq, Repr

/-- The buffers of the document. -/
structure Buffers (T : Type) where
  sensorHelpers : List (SensorHelper T)
  joints : List (String × JointInfo T)
  fixedJoints : List (String × JointInfo T)
  materials : List (String × MaterialInfo)
  visuals : List (String × List (VisualInfo T))
  collisions : List (String × List (VisualInfo T))

/-- The members of `URDFDocument`. -/
structure URDFDocument (T : Type) where
  m_model : Model T
  m_sensors : SensorsList T
  m_options : ModelParserOptions
  m_buffers : Buffers T

/-- A call of a method of the document: the returned flag, the document
afterwards and the reports of the call. -/
structure ParseResult (T : Type) where
  ret : Bool
  doc : URDFDocument T
  log : List Report

/-- Body of the loop that collects the root candidates. -/
def rootCandidates_step {T : Type} (m_model : Model T) (childLinks : List String)
    (rootCandidates : List String) (link : Nat) : List String :=
  let linkName := m_model.getLinkName link
  if linkName ∉ childLinks then rootCandidates ++ [linkName] else rootCandidates

/-- The root candidates: the names of the links that are no child link. -/
def rootCandidates {T : Type} (m_model : Model T) (childLinks : List String) : List String :=
  (List.range m_model.getNrOfLinks).foldl (rootCandidates_step m_model childLinks) []

/-- The message of the report for several root candidates. -/
def multipleRootsMessage (rootCandidates : List String) : String :=
  let ss := "Multiple (" ++ toString rootCandidates.length ++ ") root links: ("
  let ss := ss ++ rootCandidates.headD ""
  let ss := (rootCandidates.drop 1).foldl (fun acc root => acc ++ ", " ++ root) ss
  ss ++ ") found in URDF string"

/-- Last stage of `documentHasBeenParsed`: the visual and the collision
shapes, both read from the pending-visual buffer. A failure is reported and
the call still returns `true`. -/
def documentHasBeenParsed_shapes {T : Type} [One T] [Mul T] (d : URDFDocument T)
    (log : List Report) : ParseResult T :=
  -- Assign visual properties to objects
  let v := addVisualPropertiesToModel d.m_model d.m_buffers.visuals d.m_buffers.materials
    d.m_model.visualSolidShapes
  let d : URDFDocument T :=
    { d with
      m_model := { d.m_model with visualSolidShapes := v.modelGeometries },
      m_buffers := { d.m_buffers with visuals := v.visuals } }
  let log := log ++ v.log ++
    (if !v.ok then [reportError "URDFDocument" "documentHasBeenParsed"
      "Failed to add visual elements to model"] else [])
  let c := addVisualPropertiesToModel d.m_model d.m_buffers.visuals d.m_buffers.materials
    d.m_model.collisionSolidShapes
  let d : URDFDocument T :=
    { d with
      m_model := { d.m_model with collisionSolidShapes := c.modelGeometries },
      m_buffers := { d.m_buffers with visuals := c.visuals } }
  let log := log ++ c.log ++
    (if !c.ok then [reportError "URDFDocument" "documentHasBeenParsed"
      "Failed to add collision elements to model"] else [])
  ⟨true, d, log⟩

/-- Stage of `documentHasBeenParsed` after the sensors are generated: the
optional publication of the sensor frames, then the shapes. -/
def documentHasBeenParsed_frames {T : Type} [One T] [Mul T] (d : URDFDocument T)
    (log : List Report) : ParseResult T :=
  if d.m_options.addSensorFramesAsAdditionalFrames then
    let r := addSensorFramesAsAdditionalFramesToModel d.m_model d.m_sensors
    let d : URDFDocument T := { d with m_model := r.2.1 }
    if !r.1 then ⟨false, d, log ++ r.2.2⟩
    else documentHasBeenParsed_shapes d (log ++ r.2.2)
  else documentHasBeenParsed_shapes d log

/-- Stage of `documentHasBeenParsed` after the fake links are removed: the
sensors, then the rest. -/
def documentHasBeenParsed_sensors {T : Type} [One T] [Mul T] (d : URDFDocument T)
    (log : List Report) : ParseResult T :=
  let ps := processSensors d.m_model d.m_buffers.sensorHelpers d.m_sensors
  let d : URDFDocument T := { d with m_sensors := ps.2 }
  if !ps.1 then ⟨false, d, log⟩
  else documentHasBeenParsed_frames d log

/-- Stage of `documentHasBeenParsed` after the default root is set: the
removal of the fake links, then the rest. -/
def documentHasBeenParsed_clean {T : Type} [One T] [Mul T] [Inv T] (d : URDFDocument T)
    (log : List Report) : ParseResult T :=
  let r := removeFakeLinks d.m_model
  let newModel := r.2
  if !r.1 then
    ⟨false, d, log ++ [reportError "URDFDocument" "documentHasBeenParsed"
      "Failed to remove fake links from the model"]⟩
  else documentHasBeenParsed_sensors { d with m_model := newModel } log

/-- The method `URDFDocument::documentHasBeenParsed`. -/
def URDFDocument.documentHasBeenParsed {T : Type} [One T] [Mul T] [Inv T]
    (d : URDFDocument T) : ParseResult T :=
  -- Add the joints to the model
  let pj := processJoints d.m_model d.m_buffers.joints d.m_buffers.fixedJoints
  let childLinks := pj.childLinks
  let d : URDFDocument T :=
    { d with
      m_model := pj.model,
      m_buffers := { d.m_buffers with joints := pj.joints, fixedJoints := pj.fixed_joints } }
  let log := pj.log
  -- Get root
  let rootCandidates := rootCandidates d.m_model childLinks
  if rootCandidates.isEmpty then
    ⟨false, { d with m_model := Model.empty },
      log ++ [reportError "RobotElement" "exitElementScope" "No root link found in URDF string"]⟩
  else if rootCandidates.length ≥ 2 then
    ⟨false, { d with m_model := Model.empty },
      log ++ [reportError "RobotElement" "exitElementScope" (multipleRootsMessage rootCandidates)]⟩
  else
    -- set the default root in the model
    documentHasBeenParsed_clean
      { d with
        m_model := (d.m_model.setDefaultBaseLink
          (d.m_model.getLinkIndex (rootCandidates.headD ""))).2 }
      log

/-! ## Specification vocabulary -/

/-- The invariants that the operations of `Model` maintain, starting from
the empty model: link names and joint names are unique, both endpoints of
every joint are valid and distinct link indices, and a model with links
has a valid default base link. -/
structure Model.WellFormed {T : Type} (m : Model T) : Prop where
  linkNames_nodup : m.linkNames.Nodup
  jointNames_nodup : m.jointNames.Nodup
  joints_valid : ∀ p ∈ m.joints, 0 ≤ p.2.link1 ∧ p.2.link1 < (m.links.length : Int) ∧
    0 ≤ p.2.link2 ∧ p.2.link2 < (m.links.length : Int) ∧ p.2.link1 ≠ p.2.link2
  base_valid : m.links ≠ [] →
    0 ≤ m.defaultBaseLink ∧ m.defaultBaseLink < (m.links.length : Int)

/-- The child-link names of the pending joints of both mappings. -/
def pendingChildLinks {T : Type} (joints fixed_joints : List (String × JointInfo T)) :
    List String :=
  (joints ++ fixed_joints).map (fun p => p.2.childLinkName)

/-- The state of the classification loop after the links below `k`. -/
def ScanInv {T : Type} (m : Model T) (k : Nat) (s : FakeLinkScan) : Prop :=
  (∀ n, n ∈ s.linksToRemove ↔
    ∃ i : Nat, i < k ∧ isFakeLink m (i : Int) = true ∧ m.getLinkName (i : Int) = n) ∧
  (∀ n, n ∈ s.jointsToRemove ↔
    ∃ i : Nat, i < k ∧ isFakeLink m (i : Int) = true ∧
      m.getJointName (m.getNeighbor (i : Int) 0).neighborJoint = n) ∧
  s.newDefaultBaseLink =
    if m.getDefaultBaseLink < (k : Int) ∧ isFakeLink m m.getDefaultBaseLink = true then
      m.getLinkName (m.getNeighbor m.getDefaultBaseLink 0).neighborLink
    else m.getLinkName m.getDefaultBaseLink

/-- The model that holds the given links and nothing else. -/
def Model.ofLinks {T : Type} (ls : List (String × Link)) : Model T :=
  { links := ls, joints := [], frames := [],
    defaultBaseLink := if ls.isEmpty then LINK_INVALID_INDEX else 0,
    visualSolidShapes := ModelSolidShapes.empty,
    collisionSolidShapes := ModelSolidShapes.empty }

/-- A surviving joint as `removeFakeLinks` adds it to the output model:
both endpoints are looked up by name among `names`, the link names of the
output model. -/
def remapJoint {T : Type} (m : Model T) (names : List String) (p : String × IJoint T) :
    String × IJoint T :=
  (p.1, (p.2.clone.setAttachedLinks
    (Model.indexOfName names (m.getLinkName p.2.clone.getFirstAttachedLink))
    (Model.indexOfName names (m.getLinkName p.2.clone.getSecondAttachedLink))).clone)

/-- The frame that `removeFakeLinks` adds for the removed link of a given
name, when the link at the other end of its joint is among `names`, the
link names of the output model. -/
def fakeLinkFrame {T : Type} [Inv T] (m : Model T) (names : List String) (n : String) :
    Option (AdditionalFrame T) :=
  let fakeLinkOldIndex := m.getLinkIndex n
  let nb := m.getNeighbor fakeLinkOldIndex 0
  match m.getJoint nb.neighborJoint with
  | some j =>
    if Model.indexOfName names (m.getLinkName nb.neighborLink) = -1 then none
    else some ⟨n, Model.indexOfName names (m.getLinkName nb.neighborLink),
      j.getRestTransform nb.neighborLink fakeLinkOldIndex⟩
  | none => none

/-- The links that `removeFakeLinks` keeps: the links whose name is not to
remove, in the order of the input model. -/
def survivingLinks {T : Type} (m : Model T) : List (String × Link) :=
  m.links.filter (fun p => decide (p.1 ∉ (removeFakeLinks_scan m).linksToRemove))

/-- The joints that `removeFakeLinks` keeps: the joints whose name is not to
remove, in the order of the input model, with their endpoints as in the
input model. -/
def survivingJoints {T : Type} (m : Model T) : List (String × IJoint T) :=
  m.joints.filter (fun p => decide (p.1 ∉ (removeFakeLinks_scan m).jointsToRemove))

/-- The links that `removeFakeLinks` removes, in the order of the input
model. -/
def removedLinks {T : Type} (m : Model T) : List (String × Link) :=
  m.links.filter (fun p => decide (p.1 ∈ (removeFakeLinks_scan m).linksToRemove))

/-- Two links are adjacent when a joint of the model is attached to both. -/
def Model.Adjacent {T : Type} (m : Model T) (a b : Int) : Prop :=
  ∃ p ∈ m.joints, (p.2.link1 = a ∧ p.2.link2 = b) ∨ (p.2.link1 = b ∧ p.2.link2 = a)

/-- Reachability in the joint graph of a model. -/
def Model.Reachable {T : Type} (m : Model T) (a b : Int) : Prop :=
  Relation.ReflTransGen m.Adjacent a b

/-- Every link of the model is reachable from the default base link. -/
def Model.Connected {T : Type} (m : Model T) : Prop :=
  ∀ i : Int, 0 ≤ i → i < (m.links.length : Int) → m.Reachable m.getDefaultBaseLink i

/-- Whether the joint at an index is attached to a fake link. -/
def jointTouchesFakeLink {T : Type} (m : Model T) (joint : Int) : Bool :=
  match m.getJoint joint with
  | some j => isFakeLink m j.getFirstAttachedLink || isFakeLink m j.getSecondAttachedLink
  | none => false

/-- The model of a document once `processJoints` has attached the pending
joints. -/
def attachedModel {T : Type} (d : URDFDocument T) : Model T :=
  (processJoints d.m_model d.m_buffers.joints d.m_buffers.fixedJoints).model

/-- The model on which `documentHasBeenParsed` generates the sensors: the
pending joints are attached, the default base link is set to the link of
the given root name and the fake links are removed. -/
def normalizedModel {T : Type} [Inv T] (d : URDFDocument T) (root : String) : Model T :=
  (removeFakeLinks ((attachedModel d).setDefaultBaseLink
    ((attachedModel d).getLinkIndex root)).2).2

/-- Whether the material of a pending visual can be resolved: the visual
declares no material, or a material with an inline colour, or a material
the name of which is in the materials table. -/
def materialKnown {T : Type} (materialDatabase : List (String × MaterialInfo))
    (visual : VisualInfo T) : Bool :=
  match visual.m_material with
  | none => true
  | some material => material.m_rgba.isSome || (materialDatabase.lookup material.m_name).isSome

/-- Whether a key of the pending-visual mapping is the name of a link or of
a frame of the model. -/
def keyKnown {T : Type} (model : Model T) (key : String) : Bool :=
  model.isLinkNameUsed key || decide (model.getFrameIndex key ≠ FRAME_INVALID_INDEX)

/-- The effect of the publication loops on one sensor, whichever loop visits
it: a warning when its name is the name of a frame, otherwise the frame is
added (for a six-axis force/torque sensor on the link of the second link
name, with the transform for the second link index), and when that fails
the error is reported and the flag `ret` is set to false. -/
def publishSensorFrame {T : Type} (s : SensorFramesState T) (sensor : Sensor T) : SensorFramesState T :=
  if s.model.isFrameNameUsed sensor.getName then
    { s with log := s.log ++ [reportWarning "" "addSensorFramesAsAdditionalFramesToModel"
        (sensorFrameMessage sensor.getName " as there is already a frame with that name")] }
  else
    let r : Bool × Model T :=
      match sensor with
      | Sensor.linkSensor _ name parentLinkIndex link_H_sensor =>
        s.model.addAdditionalFrameToLink (s.model.getLinkName parentLinkIndex) name link_H_sensor
      | Sensor.sixAxisForceTorque name firstLinkIndex secondLinkIndex _ secondLinkName
          link1_H_sensor link2_H_sensor =>
        match sixAxisLinkSensorTransform firstLinkIndex secondLinkIndex link1_H_sensor
            link2_H_sensor secondLinkIndex with
        | some link_H_sensor => s.model.addAdditionalFrameToLink secondLinkName name link_H_sensor
        | none => (false, s.model)
    if !r.1 then
      { ret := false, model := r.2,
        log := s.log ++ [reportError "" "addSensorFramesAsAdditionalFramesToModel"
          (sensorFrameMessage sensor.getName " for unknown reasons")] }
    else { s with model := r.2 }

/-- The order in which the publication visits the sensors: kind after kind,
the sensors of a kind in the order of the list. -/
def publicationOrder {T : Type} (sensors : SensorsList T) : List SensorType → List (Sensor T)
  | [] => []
  | type :: rest => sensors.getSensors type ++ publicationOrder sensors rest

/-- Whether a joint is of a type for which `processJoints` sets the axis: a
revolute or a prismatic joint. -/
def JointVariant.hasAxis : JointVariant → Bool
  | JointVariant.revolute => true
  | JointVariant.prismatic => true
  | _ => false

/-- The joint object that `processJoints` passes to `addJoint` for a pending
entry: attached to the links of the parent and of the child name in the
model and, for a revolute or prismatic joint of the ordinary mapping, with
its axis set. -/
def pendingJointObject {T : Type} (ordinary : Bool) (model : Model T)
    (pair : String × JointInfo T) : IJoint T :=
  let parentLinkIndex := model.getLinkIndex pair.2.parentLinkName
  let childLinkIndex := model.getLinkIndex pair.2.childLinkName
  let joint := pair.2.joint.setAttachedLinks parentLinkIndex childLinkIndex
  if ordinary && pair.2.joint.variant.hasAxis then
    joint.setAxis pair.2.axis childLinkIndex parentLinkIndex
  else joint

/-- One call of `addJoint` for a pending entry. -/
def attachPendingJoint {T : Type} (ordinary : Bool) (model : Model T)
    (pair : String × JointInfo T) : Model T :=
  (model.addJoint pair.1 (pendingJointObject ordinary model pair)).2

/-- The report of a joint that is neither revolute nor prismatic. -/
def unrecognizedJointReport : Report :=
  reportError "URDFDocument" "processJoints" "Unrecognized joint type"

/-- The visual and the collision shapes of a model are both empty. -/
def Model.NoShapes {T : Type} (m : Model T) : Prop :=
  m.visualSolidShapes = ModelSolidShapes.empty ∧
  m.collisionSolidShapes = ModelSolidShapes.empty

/-- Two models with the same shapes. -/
def Model.SameShapes {T : Type} (m m' : Model T) : Prop :=
  m'.visualSolidShapes = m.visualSolidShapes ∧
  m'.collisionSolidShapes = m.collisionSolidShapes

/-- The joints of a link that `removeFakeLinks` keeps, by position in the
joint list: the joints attached to the link the other end of which is not
a fake link. -/
def keptJointsOf {T : Type} (m : Model T) (link : Int) : List Nat :=
  (List.range m.joints.length).filter (fun k =>
    match m.getJoint (k : Int) with
    | some j =>
      (decide (j.link1 = link) && !isFakeLink m j.link2) ||
        (decide (j.link2 = link) && !isFakeLink m j.link1)
    | none => false)

/-- Whether a link is left massless, with a single joint and that joint
fixed, once the fake links and their joints are removed: it is a link, its
mass is not above 0, it is not fake, and exactly one of its joints leads to
a link that is not fake, that joint having no degree of freedom. -/
def becomesFakeLink {T : Type} (m : Model T) (link : Int) : Bool :=
  match m.getLink link with
  | none => false
  | some l =>
    if l.getInertia.getMass > 0 then false
    else if isFakeLink m link then false
    else
      match keptJointsOf m link with
      | [k] =>
        (match m.getJoint (k : Int) with
        | some j => decide (j.getNrOfDOFs = 0)
        | none => false)
      | _ => false

/-! ## Example inputs -/

/-- A link of a given mass. -/
def exLink (mass : Rat) : Link := ⟨⟨mass, [], []⟩⟩

/-- A fixed joint, not yet attached. -/
def exFixed : IJoint Rat := ⟨JointVariant.fixed, -1, -1, 2, none⟩

/-- A revolute joint, not yet attached. -/
def exRevolute : IJoint Rat := ⟨JointVariant.revolute, -1, -1, 3, none⟩

def exAxis : Axis := ⟨[0, 0, 1], [0, 0, 0]⟩

/-- A model as the document walker leaves it: links only, the first link
being the default base. -/
def exModelOfLinks (ls : List (String × Link)) : Model Rat :=
  { links := ls, joints := [], frames := [], defaultBaseLink := 0,
    visualSolidShapes := ModelSolidShapes.empty, collisionSolidShapes := ModelSolidShapes.empty }

/-- Two links and no pending joint: two root candidates. -/
def exDocTwoRoots : URDFDocument Rat :=
  ⟨exModelOfLinks [("A", exLink 1), ("B", exLink 1)], SensorsList.empty, ⟨false⟩,
    ⟨[], [], [], [], [], []⟩⟩

/-- A sensor helper that produces no sensor. -/
def exNullHelper : SensorHelper Rat := ⟨fun _ => none⟩

/-- One link, no joint, and a sensor helper that fails. -/
def exDocSensorFailure : URDFDocument Rat :=
  ⟨exModelOfLinks [("A", exLink 1)], SensorsList.empty, ⟨false⟩,
    ⟨[exNullHelper], [], [], [], [], []⟩⟩

def exShape : SolidShape Rat := ⟨"", 1, ⟨0, 0, 0, 1⟩, Geometry.sphere 1⟩

/-- One link and a pending visual under a key that is neither a link nor a
frame. -/
def exDocDanglingVisual : URDFDocument Rat :=
  ⟨exModelOfLinks [("A", exLink 1)], SensorsList.empty, ⟨false⟩,
    ⟨[], [], [], [], [("nowhere", [⟨1, exShape, none, "v"⟩])], []⟩⟩

/-- Link `A` of mass 5 and link `B` of mass -1, joined by a fixed joint. -/
def exNegativeMass : Model Rat :=
  { exModelOfLinks [("A", exLink 5), ("B", exLink (-1))] with
    joints := [("j", { exFixed with link1 := 0, link2 := 1 })] }

/-- Links `A`, `B`, `C`, `D` of positive mass; `A` is isolated and `B`, `C`,
`D` form a cycle of revolute joints (`B` to `C`, `C` to `D`, `D` to `B`). -/
def exDocDisconnected : URDFDocument Rat :=
  ⟨exModelOfLinks [("A", exLink 1), ("B", exLink 1), ("C", exLink 1), ("D", exLink 1)],
    SensorsList.empty, ⟨false⟩,
    ⟨[], [("j1", ⟨exRevolute, "B", "C", exAxis⟩), ("j2", ⟨exRevolute, "C", "D", exAxis⟩),
      ("j3", ⟨exRevolute, "D", "B", exAxis⟩)], [], [], [], []⟩⟩

/-- Link `A` of mass 5 and link `B` of mass 0, joined by a fixed joint
from `A` to `B`. -/
def exTwoLinks : Model Rat :=
  { exModelOfLinks [("A", exLink 5), ("B", exLink 0)] with
    joints := [("j", { exFixed with link1 := 0, link2 := 1 })] }

/-- Link `A` of mass 5 and the massless links `B` and `C`; fixed joints
from `A` to `B` and from `B` to `C`. -/
def exChain : Model Rat :=
  { exModelOfLinks [("A", exLink 5), ("B", exLink 0), ("C", exLink 0)] with
    joints := [("j1", { exFixed with link1 := 0, link2 := 1 }),
               ("j2", { exFixed with link1 := 1, link2 := 2 })] }

/-- Link `A` of mass 5 and the massless link `B`; a pending fixed joint
with parent `B` and child `A`. -/
def exDocFakeRoot : URDFDocument Rat :=
  ⟨exModelOfLinks [("A", exLink 5), ("B", exLink 0)], SensorsList.empty, ⟨false⟩,
    ⟨[], [], [("j", ⟨exFixed, "B", "A", exAxis⟩)], [], [], []⟩⟩

/-- Link `A` of mass 5 and the massless link `B`; a pending fixed joint
with parent `A` and child `B`. -/
def exDocRealRoot : URDFDocument Rat :=
  ⟨exModelOfLinks [("A", exLink 5), ("B", exLink 0)], SensorsList.empty, ⟨false⟩,
    ⟨[], [], [("j", ⟨exFixed, "A", "B", exAxis⟩)], [], [], []⟩⟩

/-- A sensor helper that produces an accelerometer `acc0` on link 0. -/
def exAccHelper : SensorHelper Rat :=
  ⟨fun _ => some (Sensor.linkSensor LinkSensorType.ACCELEROMETER "acc0" 0 1)⟩

/-- The two-link model `exTwoLinks` with the massless link `B` as default
base. -/
def exFakeBase : Model Rat := { exTwoLinks with defaultBaseLink := 1 }

/-- A model with the single link `A`. -/
def exDanglingJointModel : Model Rat := exModelOfLinks [("A", exLink 1)]

/-- A pending revolute joint from the link `A` to a link `Z` that the model
does not have. -/
def exDanglingJoint : String × JointInfo Rat := ("j", ⟨exRevolute, "A", "Z", exAxis⟩)

/-- The two links `A` and `B` with the additional frame `f` on link `B`,
of link-to-frame transform 3. -/
def exFrameModel : Model Rat :=
  { exModelOfLinks [("A", exLink 1), ("B", exLink 1)] with frames := [⟨"f", 1, 3⟩] }

/-- A materials table with the single entry `red`. -/
def exMaterials : List (String × MaterialInfo) := [("red", ⟨"red", some ⟨1, 0, 0, 1⟩⟩)]

/-- A pending visual `v` of local origin 2, with a given material
reference. -/
def exVisual (material : Option MaterialInfo) : VisualInfo Rat := ⟨2, exShape, material, "v"⟩

/-- The massless links `A` and `B`, joined by a fixed joint from `A` to
`B`. -/
def exTwoMassless : Model Rat :=
  { exModelOfLinks [("A", exLink 0), ("B", exLink 0)] with
    joints := [("j", { exFixed with link1 := 0, link2 := 1 })] }

/-- Sensors on `exTwoLinks`: a gyroscope `g` on link `A` and an accelerometer
`bad` the parent link index of which is no link. -/
def exSensorsOneBad : SensorsList Rat :=
  ⟨[Sensor.linkSensor LinkSensorType.GYROSCOPE "g" 0 2,
    Sensor.linkSensor LinkSensorType.ACCELEROMETER "bad" 7 1]⟩

/-- The links `A`, `B`, `C` of mass 1 and no joint. -/
def exThreeLinks : Model Rat :=
  exModelOfLinks [("A", exLink 1), ("B", exLink 1), ("C", exLink 1)]

/-- A pending revolute joint `j1` from `A` to `B`. -/
def exPendingRevolute : String × JointInfo Rat := ("j1", ⟨exRevolute, "A", "B", exAxis⟩)

/-- A pending fixed joint `j0` from `B` to `C`. -/
def exPendingFixed : String × JointInfo Rat := ("j0", ⟨exFixed, "B", "C", exAxis⟩)

/-- One link `A`, a pending visual of material `red` under `A`, and a
pending-collision buffer with an entry under a key that is no link. -/
def exDocVisual : URDFDocument Rat :=
  ⟨exModelOfLinks [("A", exLink 1)], SensorsList.empty, ⟨false⟩,
    ⟨[], [], [], exMaterials, [("A", [exVisual (some ⟨"red", none⟩)])],
      [("nowhere", [exVisual none])]⟩⟩

/-- Links `A` and `B` without mass, joined by a pending fixed joint from `A`
to `B`, and links `C`, `D`, `E` of mass 1 in a cycle of pending revolute
joints (`C` to `D`, `D` to `E`, `E` to `C`): `A` is the only link that is
no child link, and `A` and `B` are both fake. -/
def exDocFakePair : URDFDocument Rat :=
  ⟨exModelOfLinks [("A", exLink 0), ("B", exLink 0), ("C", exLink 1), ("D", exLink 1),
      ("E", exLink 1)],
    SensorsList.empty, ⟨false⟩,
    ⟨[], [("j1", ⟨exRevolute, "C", "D", exAxis⟩), ("j2", ⟨exRevolute, "D", "E", exAxis⟩),
        ("j3", ⟨exRevolute, "E", "C", exAxis⟩)],
      [("j0", ⟨exFixed, "A", "B", exAxis⟩)], [], [], []⟩⟩

/-- A materials table with the single entry `grey`, which has no colour. -/
def exMaterialsNoColour : List (String × MaterialInfo) := [("grey", ⟨"grey", none⟩)]

/-- The massless links `H` and `F` and the links `P` and `Q` of mass 1; a
fixed joint from `H` to `F` and revolute joints from `H` to `P` and from
`H` to `Q`. Only `F` is fake. -/
def exHub : Model Rat :=
  { exModelOfLinks [("H", exLink 0), ("F", exLink 0), ("P", exLink 1), ("Q", exLink 1)] with
    joints := [("j0", { exFixed with link1 := 0, link2 := 1 }),
               ("j1", { exRevolute with link1 := 0, link2 := 2 }),
               ("j2", { exRevolute with link1 := 0, link2 := 3 })] }

/-! ## Theorems -/

variable {T : Type}

/-! ### Loops -/

theorem take_succ_getElem {α : Type} (l : List α) (k : Nat) (hk : k < l.length) :
    l.take (k + 1) = l.take k ++ [l[k]] := by
  rw [List.take_succ, List.getElem?_eq_getElem hk]; rfl

theorem foldl_range_induction {β : Type} (P : Nat → β → Prop) (f : β → Nat → β) (b : β) (n : Nat)
    (h0 : P 0 b) (hs : ∀ k s, k < n → P k s → P (k + 1) (f s k)) :
    P n ((List.range n).foldl f b) := by
  have key : ∀ m, m ≤ n → P m ((List.range m).foldl f b) := by
    intro m
    induction m with
    | zero => intro _; simpa using h0
    | succ k ih =>
      intro hk
      rw [List.range_succ, List.foldl_append]
      exact hs k _ (by omega) (ih (by omega))
  exact key n le_rfl

/-- A loop over the indices of a list whose body only reads the element at
the index is a fold over the list. -/
theorem foldl_range_eq_foldl {α β : Type} (l : List α) (f : β → Nat → β) (g : β → α → β)
    (h : ∀ b k (hk : k < l.length), f b k = g b l[k]) (b : β) :
    (List.range l.length).foldl f b = l.foldl g b := by
  have key := foldl_range_induction (fun k s => s = (l.take k).foldl g b) f b l.length (by simp)
    (by
      intro k s hk hs
      rw [take_succ_getElem l k hk, List.foldl_append, ← hs, h s k hk]
      rfl)
  simpa using key

theorem Model.getLinkName_natCast (m : Model T) (k : Nat) (hk : k < m.links.length) :
    m.getLinkName (k : Int) = (m.links[k]).1 := by
  unfold Model.getLinkName Model.getNrOfLinks Model.linkNames
  have h1 : (0 : Int) ≤ (k : Int) ∧ (k : Int) < (m.links.length : Int) := by omega
  rw [if_pos h1]
  simp [List.getD_eq_getElem?_getD, hk]

theorem Model.getLink_natCast (m : Model T) (k : Nat) (hk : k < m.links.length) :
    m.getLink (k : Int) = some (m.links[k]).2 := by
  unfold Model.getLink Model.getNrOfLinks
  have h1 : (0 : Int) ≤ (k : Int) ∧ (k : Int) < (m.links.length : Int) := by omega
  rw [if_pos h1]
  simp [hk]

theorem Model.getJointName_natCast (m : Model T) (k : Nat) (hk : k < m.joints.length) :
    m.getJointName (k : Int) = (m.joints[k]).1 := by
  unfold Model.getJointName Model.getNrOfJoints Model.jointNames
  have h1 : (0 : Int) ≤ (k : Int) ∧ (k : Int) < (m.joints.length : Int) := by omega
  rw [if_pos h1]
  simp [List.getD_eq_getElem?_getD, hk]

theorem Model.getJoint_natCast (m : Model T) (k : Nat) (hk : k < m.joints.length) :
    m.getJoint (k : Int) = some (m.joints[k]).2 := by
  unfold Model.getJoint Model.getNrOfJoints
  have h1 : (0 : Int) ≤ (k : Int) ∧ (k : Int) < (m.joints.length : Int) := by omega
  rw [if_pos h1]
  simp [hk]

/-- A link pointer is non-null exactly at a valid index. -/
theorem Model.getLink_eq_some (m : Model T) (i : Int) (l : Link) (h : m.getLink i = some l) :
    ∃ k : Nat, k < m.links.length ∧ i = (k : Int) ∧ (m.links[k]?).map Prod.snd = some l := by
  unfold Model.getLink Model.getNrOfLinks at h
  by_cases hv : 0 ≤ i ∧ i < (m.links.length : Int)
  · rw [if_pos hv] at h
    obtain ⟨hv1, hv2⟩ := hv
    refine ⟨i.toNat, by omega, by omega, ?_⟩
    simpa using h
  · rw [if_neg hv] at h
    exact absurd h (by simp)

/-! ### The neighbour relation -/

theorem mem_neighborsFrom (link : Int) (js : List (String × IJoint T)) (k : Nat)
    (nb : Neighbor) (h : nb ∈ Model.neighborsFrom link k js) :
    ∃ i, ∃ hi : i < js.length, nb.neighborJoint = ((k + i : Nat) : Int) ∧
      (((js[i]).2.link1 = link ∧ nb.neighborLink = (js[i]).2.link2) ∨
       ((js[i]).2.link2 = link ∧ nb.neighborLink = (js[i]).2.link1)) := by
  induction js generalizing k with
  | nil => simp [Model.neighborsFrom] at h
  | cons p js ih =>
    obtain ⟨n, j⟩ := p
    simp only [Model.neighborsFrom, List.mem_append] at h
    rcases h with (h | h) | h
    · split_ifs at h with h1
      · simp only [List.mem_singleton] at h
        refine ⟨0, by simp, ?_, ?_⟩
        · simp [h]
        · left; simp [h, h1]
      · simp at h
    · split_ifs at h with h1
      · simp only [List.mem_singleton] at h
        refine ⟨0, by simp, ?_, ?_⟩
        · simp [h]
        · right; simp [h, h1]
      · simp at h
    · obtain ⟨i, hi, h1, h2⟩ := ih (k + 1) h
      refine ⟨i + 1, by simpa using hi, ?_, ?_⟩
      · rw [h1]; congr 1; omega
      · simpa using h2

theorem neighborsFrom_mem_of_link1 (link : Int) (js : List (String × IJoint T)) (k i : Nat)
    (hi : i < js.length) (h : (js[i]).2.link1 = link) :
    (⟨(js[i]).2.link2, ((k + i : Nat) : Int)⟩ : Neighbor) ∈ Model.neighborsFrom link k js := by
  induction js generalizing k i with
  | nil => simp at hi
  | cons p js ih =>
    obtain ⟨n, j⟩ := p
    simp only [Model.neighborsFrom, List.mem_append]
    cases i with
    | zero =>
      simp only [List.getElem_cons_zero] at h
      left; left
      simp [h]
    | succ i =>
      right
      simp only [List.getElem_cons_succ] at h ⊢
      have := ih (k + 1) i (by simpa using hi) h
      have e : k + 1 + i = k + (i + 1) := by omega
      rw [e] at this
      exact this

theorem neighborsFrom_mem_of_link2 (link : Int) (js : List (String × IJoint T)) (k i : Nat)
    (hi : i < js.length) (h : (js[i]).2.link2 = link) :
    (⟨(js[i]).2.link1, ((k + i : Nat) : Int)⟩ : Neighbor) ∈ Model.neighborsFrom link k js := by
  induction js generalizing k i with
  | nil => simp at hi
  | cons p js ih =>
    obtain ⟨n, j⟩ := p
    simp only [Model.neighborsFrom, List.mem_append]
    cases i with
    | zero =>
      simp only [List.getElem_cons_zero] at h
      left; right
      simp [h]
    | succ i =>
      right
      simp only [List.getElem_cons_succ] at h ⊢
      have := ih (k + 1) i (by simpa using hi) h
      have e : k + 1 + i = k + (i + 1) := by omega
      rw [e] at this
      exact this

/-- The single neighbour of a link of degree one. -/
theorem Model.getNeighbor_zero_mem (m : Model T) (link : Int)
    (h : m.getNrOfNeighbors link = 1) : m.neighbors link = [m.getNeighbor link 0] := by
  unfold Model.getNrOfNeighbors at h
  unfold Model.getNeighbor
  match hn : m.neighbors link, h with
  | [x], _ => simp

/-- The classification, spelled out. -/
theorem isFakeLink_iff (m : Model T) (i : Int) :
    isFakeLink m i = true ↔
      ∃ link, m.getLink i = some link ∧ ¬ (0 < link.getInertia.getMass) ∧
        m.getNrOfNeighbors i = 1 ∧
        ∃ j, m.getJoint (m.getNeighbor i 0).neighborJoint = some j ∧ j.getNrOfDOFs = 0 := by
  unfold isFakeLink
  cases hl : m.getLink i with
  | none => simp
  | some link =>
    simp only [Option.some.injEq, exists_eq_left']
    by_cases hm : link.getInertia.getMass > 0
    · simp [hm]
    · by_cases hn : m.getNrOfNeighbors i = 1
      · cases hj : m.getJoint (m.getNeighbor i 0).neighborJoint with
        | none => simp [hm, hn]
        | some j =>
          by_cases hd : j.getNrOfDOFs = 0
          · simp [hm, hn, hd]
          · have : j.getNrOfDOFs > 0 := Nat.pos_of_ne_zero hd
            simp [hm, hn, hd, this]
      · simp [hm, hn]

/-! ### `processJoints` and the root candidates -/

theorem rootCandidates_eq_filter (m : Model T) (childLinks : List String) :
    rootCandidates m childLinks = m.linkNames.filter (fun n => decide (n ∉ childLinks)) := by
  unfold rootCandidates
  have h := foldl_range_induction
    (fun k rc => rc = (m.linkNames.take k).filter (fun n => decide (n ∉ childLinks)))
    (rootCandidates_step m childLinks) [] m.getNrOfLinks (by simp) (by
      intro k s hk hs
      have hk' : k < m.links.length := hk
      have hk2 : k < m.linkNames.length := by simpa [Model.linkNames] using hk'
      rw [take_succ_getElem _ _ hk2, List.filter_append, ← hs]
      unfold rootCandidates_step
      simp only [Model.getLinkName_natCast m k hk']
      have : m.linkNames[k] = (m.links[k]).1 := by simp [Model.linkNames]
      rw [this]
      by_cases hc : (m.links[k]).1 ∈ childLinks <;> simp [hc])
  rw [h]
  have : m.getNrOfLinks = m.linkNames.length := by simp [Model.getNrOfLinks, Model.linkNames]
  rw [this, List.take_length]

theorem Model.addJoint_links (m : Model T) (n : String) (j : IJoint T) :
    (m.addJoint n j).2.links = m.links := by
  unfold Model.addJoint
  dsimp only
  split_ifs <;> rfl

theorem foldl_processJoints_joint (l : List (String × JointInfo T)) (s : JointLoopState T) :
    (l.foldl processJoints_joint s).model.links = s.model.links ∧
    ∀ n, n ∈ (l.foldl processJoints_joint s).childLinks ↔
      n ∈ s.childLinks ∨ n ∈ l.map (fun p => p.2.childLinkName) := by
  induction l generalizing s with
  | nil => simp
  | cons p l ih =>
    rw [List.foldl_cons]
    obtain ⟨h1, h2⟩ := ih (processJoints_joint s p)
    refine ⟨?_, ?_⟩
    · rw [h1]; simp [processJoints_joint, Model.addJoint_links]
    · intro n
      rw [h2]
      simp only [processJoints_joint, List.mem_insert_iff, List.map_cons, List.mem_cons]
      tauto

theorem foldl_processJoints_fixed (l : List (String × JointInfo T)) (s : JointLoopState T) :
    (l.foldl processJoints_fixed s).model.links = s.model.links ∧
    ∀ n, n ∈ (l.foldl processJoints_fixed s).childLinks ↔
      n ∈ s.childLinks ∨ n ∈ l.map (fun p => p.2.childLinkName) := by
  induction l generalizing s with
  | nil => simp
  | cons p l ih =>
    rw [List.foldl_cons]
    obtain ⟨h1, h2⟩ := ih (processJoints_fixed s p)
    refine ⟨?_, ?_⟩
    · rw [h1]; simp [processJoints_fixed, Model.addJoint_links]
    · intro n
      rw [h2]
      simp only [processJoints_fixed, List.mem_insert_iff, List.map_cons, List.mem_cons]
      tauto

theorem processJoints_links (m : Model T) (js fs : List (String × JointInfo T)) :
    (processJoints m js fs).model.links = m.links := by
  unfold processJoints
  simp only
  rw [(foldl_processJoints_fixed fs _).1]
  exact (foldl_processJoints_joint js _).1

theorem mem_processJoints_childLinks (m : Model T) (js fs : List (String × JointInfo T))
    (n : String) :
    n ∈ (processJoints m js fs).childLinks ↔ n ∈ pendingChildLinks js fs := by
  unfold processJoints pendingChildLinks
  simp only
  rw [(foldl_processJoints_fixed fs _).2, (foldl_processJoints_joint js _).2]
  simp

/-- The root candidates found by `documentHasBeenParsed`. -/
theorem rootCandidates_processJoints (m : Model T) (js fs : List (String × JointInfo T)) :
    rootCandidates (processJoints m js fs).model (processJoints m js fs).childLinks =
      m.linkNames.filter (fun n => decide (n ∉ pendingChildLinks js fs)) := by
  rw [rootCandidates_eq_filter]
  have : (processJoints m js fs).model.linkNames = m.linkNames := by
    simp [Model.linkNames, processJoints_links]
  rw [this]
  apply List.filter_congr
  intro n _
  simp [mem_processJoints_childLinks]

/-! ### The classification loop of `removeFakeLinks` -/

/-- A fake link is a link: its index is valid. -/
theorem isFakeLink_valid (m : Model T) (i : Int) (h : isFakeLink m i = true) :
    0 ≤ i ∧ i < (m.links.length : Int) := by
  obtain ⟨link, hl, -⟩ := (isFakeLink_iff m i).mp h
  obtain ⟨k, hk, rfl, -⟩ := m.getLink_eq_some i link hl
  omega

/-- The joint of the single neighbour of a fake link, as a position in the
joint list. -/
theorem isFakeLink_joint (m : Model T) (i : Int) (h : isFakeLink m i = true) :
    ∃ k, ∃ hk : k < m.joints.length, (m.getNeighbor i 0).neighborJoint = (k : Int) ∧
      (m.joints[k]).2.getNrOfDOFs = 0 ∧
      (((m.joints[k]).2.link1 = i ∧ (m.getNeighbor i 0).neighborLink = (m.joints[k]).2.link2) ∨
       ((m.joints[k]).2.link2 = i ∧ (m.getNeighbor i 0).neighborLink = (m.joints[k]).2.link1)) := by
  obtain ⟨link, -, -, hn, j, hj, hd⟩ := (isFakeLink_iff m i).mp h
  have hmem : m.getNeighbor i 0 ∈ m.neighbors i := by
    rw [m.getNeighbor_zero_mem i hn]; simp
  obtain ⟨k, hk, h1, h2⟩ := mem_neighborsFrom i m.joints 0 _ hmem
  simp only [Nat.zero_add] at h1
  refine ⟨k, hk, h1, ?_, h2⟩
  rw [h1, m.getJoint_natCast k hk] at hj
  simp only [Option.some.injEq] at hj
  rw [hj]; exact hd

/-- A joint incident to a fake link is the joint of its single neighbour. -/
theorem isFakeLink_incident (m : Model T) (i : Int) (h : isFakeLink m i = true)
    (k : Nat) (hk : k < m.joints.length)
    (hinc : (m.joints[k]).2.link1 = i ∨ (m.joints[k]).2.link2 = i) :
    (m.getNeighbor i 0).neighborJoint = (k : Int) := by
  obtain ⟨link, -, -, hn, -⟩ := (isFakeLink_iff m i).mp h
  have hl := m.getNeighbor_zero_mem i hn
  rcases hinc with h1 | h2
  · have := neighborsFrom_mem_of_link1 i m.joints 0 k hk h1
    unfold Model.neighbors at hl
    rw [hl] at this
    simp only [List.mem_singleton, Nat.zero_add] at this
    rw [← this]
  · have := neighborsFrom_mem_of_link2 i m.joints 0 k hk h2
    unfold Model.neighbors at hl
    rw [hl] at this
    simp only [List.mem_singleton, Nat.zero_add] at this
    rw [← this]

theorem scanInv_step (m : Model T) (k : Nat) (s : FakeLinkScan) (h : ScanInv m k s) :
    ScanInv m (k + 1) (removeFakeLinks_classify m s k) := by
  obtain ⟨h1, h2, h3⟩ := h
  unfold removeFakeLinks_classify
  by_cases hf : isFakeLink m (k : Int) = true
  · rw [if_pos hf]
    have hsplit : ∀ (P : Nat → Prop), (∃ i : Nat, i < k + 1 ∧ P i) ↔ (P k ∨ ∃ i : Nat, i < k ∧ P i) := by
      intro P
      constructor
      · rintro ⟨i, hi, hp⟩
        by_cases e : i = k
        · left; rw [← e]; exact hp
        · right; exact ⟨i, by omega, hp⟩
      · rintro (hp | ⟨i, hi, hp⟩)
        · exact ⟨k, by omega, hp⟩
        · exact ⟨i, by omega, hp⟩
    refine ⟨?_, ?_, ?_⟩
    · intro n
      rw [hsplit]
      by_cases hb : (k : Int) = m.getDefaultBaseLink
      · simp only [hb, if_true] 
        simp only [List.mem_insert_iff, h1 n, ← hb, hf, true_and]
        constructor
        · rintro (e | e)
          · left; exact e.symm
          · right; exact e
        · rintro (e | e)
          · left; exact e.symm
          · right; exact e
      · simp only [hb, if_false]
        simp only [List.mem_insert_iff, h1 n, hf, true_and]
        constructor
        · rintro (e | e)
          · left; exact e.symm
          · right; exact e
        · rintro (e | e)
          · left; exact e.symm
          · right; exact e
    · intro n
      rw [hsplit]
      by_cases hb : (k : Int) = m.getDefaultBaseLink
      · simp only [hb, if_true]
        simp only [List.mem_insert_iff, h2 n, ← hb, hf, true_and]
        constructor
        · rintro (e | e)
          · left; exact e.symm
          · right; exact e
        · rintro (e | e)
          · left; exact e.symm
          · right; exact e
      · simp only [hb, if_false]
        simp only [List.mem_insert_iff, h2 n, hf, true_and]
        constructor
        · rintro (e | e)
          · left; exact e.symm
          · right; exact e
        · rintro (e | e)
          · left; exact e.symm
          · right; exact e
    · by_cases hb : (k : Int) = m.getDefaultBaseLink
      · simp only [hb, if_true]
        rw [← hb]
        have : (k : Int) < ((k + 1 : Nat) : Int) := by omega
        simp [this, hf]
      · simp only [hb, if_false]
        rw [h3]
        have : (m.getDefaultBaseLink < ((k + 1 : Nat) : Int)) ↔ (m.getDefaultBaseLink < (k : Int)) := by
          constructor
          · intro h; push_cast at h; omega
          · intro h; push_cast; omega
        simp only [this]
  · rw [if_neg hf]
    refine ⟨?_, ?_, ?_⟩
    · intro n
      rw [h1 n]
      constructor
      · rintro ⟨i, hi, hp⟩; exact ⟨i, by omega, hp⟩
      · rintro ⟨i, hi, hp, hq⟩
        have : i ≠ k := by rintro rfl; exact hf hp
        exact ⟨i, by omega, hp, hq⟩
    · intro n
      rw [h2 n]
      constructor
      · rintro ⟨i, hi, hp⟩; exact ⟨i, by omega, hp⟩
      · rintro ⟨i, hi, hp, hq⟩
        have : i ≠ k := by rintro rfl; exact hf hp
        exact ⟨i, by omega, hp, hq⟩
    · rw [h3]
      by_cases hb : isFakeLink m m.getDefaultBaseLink = true
      · have hne : m.getDefaultBaseLink ≠ (k : Int) := by
          intro e; rw [e] at hb; exact hf hb
        have : (m.getDefaultBaseLink < ((k + 1 : Nat) : Int)) ↔ (m.getDefaultBaseLink < (k : Int)) := by
          constructor
          · intro h; push_cast at h; omega
          · intro h; push_cast; omega
        simp only [this]
      · simp [hb]

theorem scanInv_scan (m : Model T) : ScanInv m m.links.length (removeFakeLinks_scan m) := by
  unfold removeFakeLinks_scan
  apply foldl_range_induction (ScanInv m)
  · refine ⟨?_, ?_, ?_⟩
    · intro n; simp
    · intro n; simp
    · have : ¬ (m.getDefaultBaseLink < ((0 : Nat) : Int) ∧ isFakeLink m m.getDefaultBaseLink = true) := by
        rintro ⟨h1, h2⟩
        have := isFakeLink_valid m _ h2
        omega
      simp only [if_neg this]
  · intro k s _ hs
    exact scanInv_step m k s hs

/-- The links to remove are the names of the fake links. -/
theorem mem_linksToRemove (m : Model T) (n : String) :
    n ∈ (removeFakeLinks_scan m).linksToRemove ↔
      ∃ i : Int, isFakeLink m i = true ∧ m.getLinkName i = n := by
  rw [(scanInv_scan m).1 n]
  constructor
  · rintro ⟨i, -, h1, h2⟩; exact ⟨i, h1, h2⟩
  · rintro ⟨i, h1, h2⟩
    have := isFakeLink_valid m i h1
    refine ⟨i.toNat, by omega, ?_, ?_⟩
    · rw [Int.toNat_of_nonneg this.1]; exact h1
    · rw [Int.toNat_of_nonneg this.1]; exact h2

/-- The joints to remove are the names of the joints of the fake links. -/
theorem mem_jointsToRemove (m : Model T) (n : String) :
    n ∈ (removeFakeLinks_scan m).jointsToRemove ↔
      ∃ i : Int, isFakeLink m i = true ∧
        m.getJointName (m.getNeighbor i 0).neighborJoint = n := by
  rw [(scanInv_scan m).2.1 n]
  constructor
  · rintro ⟨i, -, h1, h2⟩; exact ⟨i, h1, h2⟩
  · rintro ⟨i, h1, h2⟩
    have := isFakeLink_valid m i h1
    refine ⟨i.toNat, by omega, ?_, ?_⟩
    · rw [Int.toNat_of_nonneg this.1]; exact h1
    · rw [Int.toNat_of_nonneg this.1]; exact h2

/-- The name under which the new default base link is looked up. -/
theorem newDefaultBaseLink_eq (m : Model T) :
    (removeFakeLinks_scan m).newDefaultBaseLink =
      if isFakeLink m m.getDefaultBaseLink = true then
        m.getLinkName (m.getNeighbor m.getDefaultBaseLink 0).neighborLink
      else m.getLinkName m.getDefaultBaseLink := by
  rw [(scanInv_scan m).2.2]
  by_cases hb : isFakeLink m m.getDefaultBaseLink = true
  · have := isFakeLink_valid m _ hb
    simp [hb, this.2]
  · simp [hb]

/-! ### Names and indices -/

theorem indexOfName_eq_neg_one (names : List String) (n : String) :
    Model.indexOfName names n = -1 ↔ n ∉ names := by
  unfold Model.indexOfName
  constructor
  · intro h hm
    rw [if_pos (List.indexOf_lt_length.mpr hm)] at h
    omega
  · intro h
    rw [if_neg]
    intro hlt
    exact h (List.indexOf_lt_length.mp hlt)

theorem indexOfName_mem (names : List String) (n : String) (h : n ∈ names) :
    ∃ k, ∃ hk : k < names.length, Model.indexOfName names n = (k : Int) ∧ names[k] = n := by
  have hlt := List.indexOf_lt_length.mpr h
  refine ⟨names.indexOf n, hlt, ?_, ?_⟩
  · unfold Model.indexOfName; rw [if_pos hlt]
  · exact List.getElem_indexOf hlt

theorem indexOfName_getElem (names : List String) (hn : names.Nodup) (k : Nat)
    (hk : k < names.length) : Model.indexOfName names names[k] = (k : Int) := by
  unfold Model.indexOfName
  rw [List.indexOf_getElem hn k hk, if_pos hk]

theorem indexOfName_range (names : List String) (n : String) :
    Model.indexOfName names n = -1 ∨ (0 ≤ Model.indexOfName names n ∧ Model.indexOfName names n < (names.length : Int)) := by
  unfold Model.indexOfName
  split_ifs with h
  · right; omega
  · left; rfl

theorem Model.getLinkName_getLinkIndex (m : Model T) (n : String) (h : n ∈ m.linkNames) :
    m.getLinkName (m.getLinkIndex n) = n := by
  obtain ⟨k, hk, h1, h2⟩ := indexOfName_mem m.linkNames n h
  unfold Model.getLinkIndex
  rw [h1, m.getLinkName_natCast k (by simpa [Model.linkNames] using hk)]
  simpa [Model.linkNames] using h2

theorem Model.getLinkIndex_getLinkName (m : Model T) (hn : m.linkNames.Nodup) (i : Int)
    (h0 : 0 ≤ i) (h1 : i < (m.links.length : Int)) : m.getLinkIndex (m.getLinkName i) = i := by
  have hk : i.toNat < m.links.length := by omega
  have e : i = (i.toNat : Int) := by omega
  rw [e, m.getLinkName_natCast _ hk]
  unfold Model.getLinkIndex
  have hk' : i.toNat < m.linkNames.length := by simpa [Model.linkNames] using hk
  have : (m.links[i.toNat]).1 = m.linkNames[i.toNat] := by simp [Model.linkNames]
  rw [this, indexOfName_getElem _ hn _ hk']

theorem Model.getLinkName_mem (m : Model T) (i : Int)
    (h0 : 0 ≤ i) (h1 : i < (m.links.length : Int)) : m.getLinkName i ∈ m.linkNames := by
  have hk : i.toNat < m.links.length := by omega
  have e : i = (i.toNat : Int) := by omega
  rw [e, m.getLinkName_natCast _ hk]
  unfold Model.linkNames
  exact List.mem_map_of_mem _ (List.getElem_mem _)

/-- With unique link names, the name of a link is to remove exactly when
the link is fake. -/
theorem getLinkName_mem_linksToRemove (m : Model T) (hn : m.linkNames.Nodup) (i : Int)
    (h0 : 0 ≤ i) (h1 : i < (m.links.length : Int)) :
    m.getLinkName i ∈ (removeFakeLinks_scan m).linksToRemove ↔ isFakeLink m i = true := by
  rw [mem_linksToRemove]
  constructor
  · rintro ⟨i', hf, he⟩
    have hv := isFakeLink_valid m i' hf
    have := congrArg m.getLinkIndex he
    rw [m.getLinkIndex_getLinkName hn i' hv.1 hv.2, m.getLinkIndex_getLinkName hn i h0 h1] at this
    rw [← this]; exact hf
  · intro hf; exact ⟨i, hf, rfl⟩

theorem Model.addLink_ofLinks (pre : List (String × Link)) (n : String) (l : Link)
    (h : n ∉ pre.map Prod.fst) :
    ((Model.ofLinks pre : Model T).addLink n l).2 = Model.ofLinks (pre ++ [(n, l)]) := by
  have h1 : (Model.ofLinks pre : Model T).isFrameNameUsed n = false := by
    unfold Model.isFrameNameUsed Model.getFrameIndex Model.getLinkIndex
    have e1 : Model.indexOfName (Model.ofLinks pre : Model T).linkNames n = -1 :=
      (indexOfName_eq_neg_one _ _).mpr (by simpa [Model.linkNames, Model.ofLinks] using h)
    have e2 : Model.indexOfName (Model.ofLinks pre : Model T).frameNames n = -1 :=
      (indexOfName_eq_neg_one _ _).mpr (by simp [Model.frameNames, Model.ofLinks])
    simp [e1, e2]
  unfold Model.addLink
  rw [h1]
  cases pre with
  | nil => simp [Model.ofLinks, Model.getDefaultBaseLink, Model.setDefaultBaseLink, Model.getNrOfLinks]
  | cons p pre =>
    have : ¬ (((pre.length + 1 + 1 : Nat) : Int) - 1 = 0) := by omega
    simp [Model.ofLinks, Model.getDefaultBaseLink, this]

theorem foldl_addLink (keep : String × Link → Bool) (rest pre : List (String × Link))
    (hn : (pre.map Prod.fst ++ rest.map Prod.fst).Nodup) :
    rest.foldl (fun (cm : Model T) p => if keep p then (cm.addLink p.1 p.2).2 else cm)
      (Model.ofLinks pre) = Model.ofLinks (pre ++ rest.filter keep) := by
  induction rest generalizing pre with
  | nil => simp
  | cons p rest ih =>
    rw [List.foldl_cons]
    have hp : p.1 ∉ pre.map Prod.fst := by
      intro hm
      rw [List.nodup_append] at hn
      exact hn.2.2 hm (by simp)
    by_cases hk : keep p = true
    · rw [if_pos hk, Model.addLink_ofLinks pre p.1 p.2 hp, ih (pre ++ [p])]
      · simp [List.filter_cons, hk]
      · simpa using hn
    · rw [if_neg hk, ih pre]
      · simp [List.filter_cons, hk]
      · rw [List.nodup_append] at hn ⊢
        refine ⟨hn.1, ?_, ?_⟩
        · exact (List.nodup_cons.mp (by simpa using hn.2.1)).2
        · intro a ha hb
          exact hn.2.2 ha (by simp [List.mem_map] at hb ⊢; right; exact hb)

/-- The loop that adds the links produces the links whose name is not to
remove, in order. -/
theorem addLink_loop (m : Model T) (hn : m.linkNames.Nodup) (rem : List String) :
    (List.range m.getNrOfLinks).foldl (removeFakeLinks_addLink m rem) Model.empty =
      Model.ofLinks (m.links.filter (fun p => decide (p.1 ∉ rem))) := by
  have h := foldl_range_eq_foldl m.links (removeFakeLinks_addLink m rem)
    (fun (cm : Model T) p => if decide (p.1 ∉ rem) then (cm.addLink p.1 p.2).2 else cm)
    (by
      intro cm k hk
      unfold removeFakeLinks_addLink
      simp only [m.getLinkName_natCast k hk, m.getLink_natCast k hk]
      by_cases hr : (m.links[k]).1 ∈ rem <;> simp [hr]) Model.empty
  have e : (Model.empty : Model T) = Model.ofLinks [] := rfl
  unfold Model.getNrOfLinks
  rw [h, e]
  have := foldl_addLink (T := T) (fun p => decide (p.1 ∉ rem)) m.links []
    (by simpa [Model.linkNames] using hn)
  simpa using this

/-! ### The loops that build the output model of `removeFakeLinks` -/

theorem Model.addJoint_eq (cm : Model T) (n : String) (j : IJoint T)
    (hname : n ∉ cm.jointNames)
    (hv : 0 ≤ j.link1 ∧ j.link1 < (cm.links.length : Int) ∧ 0 ≤ j.link2 ∧
      j.link2 < (cm.links.length : Int) ∧ j.link1 ≠ j.link2) :
    (cm.addJoint n j).2 = { cm with joints := cm.joints ++ [(n, j.clone)] } := by
  have h1 : cm.isJointNameUsed n = false := by
    unfold Model.isJointNameUsed Model.getJointIndex
    rw [(indexOfName_eq_neg_one _ _).mpr hname]
    simp
  obtain ⟨a, b, c, d, e⟩ := hv
  unfold Model.addJoint
  rw [h1]
  have h2 : ¬ (j.getFirstAttachedLink < 0 ∨ (cm.getNrOfLinks : Int) ≤ j.getFirstAttachedLink ∨
      j.getSecondAttachedLink < 0 ∨ (cm.getNrOfLinks : Int) ≤ j.getSecondAttachedLink) := by
    unfold IJoint.getFirstAttachedLink IJoint.getSecondAttachedLink Model.getNrOfLinks
    omega
  have h3 : ¬ (j.getFirstAttachedLink = j.getSecondAttachedLink) := e
  simp only [Bool.false_eq_true, if_false, if_neg h2, if_neg h3]

theorem foldl_addJoint (m : Model T) (keep : String × IJoint T → Bool)
    (rest : List (String × IJoint T)) (cm : Model T)
    (hn : (cm.jointNames ++ rest.map Prod.fst).Nodup)
    (hv : ∀ p ∈ rest, keep p = true →
      0 ≤ (remapJoint m cm.linkNames p).2.link1 ∧
      (remapJoint m cm.linkNames p).2.link1 < (cm.links.length : Int) ∧
      0 ≤ (remapJoint m cm.linkNames p).2.link2 ∧
      (remapJoint m cm.linkNames p).2.link2 < (cm.links.length : Int) ∧
      (remapJoint m cm.linkNames p).2.link1 ≠ (remapJoint m cm.linkNames p).2.link2) :
    rest.foldl (fun (cm : Model T) p =>
        if keep p then
          (cm.addJoint p.1 (p.2.clone.setAttachedLinks
            (cm.getLinkIndex (m.getLinkName p.2.clone.getFirstAttachedLink))
            (cm.getLinkIndex (m.getLinkName p.2.clone.getSecondAttachedLink)))).2
        else cm) cm =
      { cm with joints := cm.joints ++ (rest.filter keep).map (remapJoint m cm.linkNames) } := by
  induction rest generalizing cm with
  | nil => simp
  | cons p rest ih =>
    rw [List.foldl_cons]
    have hp : p.1 ∉ cm.jointNames := by
      intro hm
      rw [List.nodup_append] at hn
      exact hn.2.2 hm (by simp)
    by_cases hk : keep p = true
    · rw [if_pos hk]
      have hvp := hv p (by simp) hk
      have e1 : (cm.addJoint p.1 (p.2.clone.setAttachedLinks
            (cm.getLinkIndex (m.getLinkName p.2.clone.getFirstAttachedLink))
            (cm.getLinkIndex (m.getLinkName p.2.clone.getSecondAttachedLink)))).2 =
          { cm with joints := cm.joints ++ [remapJoint m cm.linkNames p] } := by
        exact Model.addJoint_eq cm p.1 _ hp hvp
      rw [e1, ih]
      · simp [List.filter_cons, hk, Model.linkNames]
      · simpa [Model.jointNames, remapJoint] using hn
      · intro q hq hkq
        exact hv q (by simp [hq]) hkq
    · rw [if_neg hk, ih cm]
      · simp [List.filter_cons, hk]
      · rw [List.nodup_append] at hn ⊢
        refine ⟨hn.1, ?_, ?_⟩
        · exact (List.nodup_cons.mp (by simpa using hn.2.1)).2
        · intro a ha hb
          exact hn.2.2 ha (by simp [List.mem_map] at hb ⊢; right; exact hb)
      · intro q hq hkq
        exact hv q (by simp [hq]) hkq

theorem Model.addAdditionalFrameToLink_eq (cm : Model T) (ln fn : String) (t : T)
    (h1 : fn ∉ cm.linkNames) (h2 : fn ∉ cm.frameNames) :
    (cm.addAdditionalFrameToLink ln fn t).2 =
      if Model.indexOfName cm.linkNames ln = -1 then cm
      else { cm with frames := cm.frames ++ [⟨fn, Model.indexOfName cm.linkNames ln, t⟩] } := by
  have hu : cm.isFrameNameUsed fn = false := by
    unfold Model.isFrameNameUsed Model.getFrameIndex Model.getLinkIndex
    rw [(indexOfName_eq_neg_one _ _).mpr h1, (indexOfName_eq_neg_one _ _).mpr h2]
    simp
  unfold Model.addAdditionalFrameToLink
  simp only [hu, Model.getLinkIndex]
  split_ifs <;> simp_all

theorem foldl_addFrame [Inv T] (m : Model T) (rem : List String)
    (rest : List (String × Link)) (cm : Model T)
    (hn : (rest.map Prod.fst).Nodup)
    (hv : ∀ p ∈ rest, p.1 ∈ rem → p.1 ∉ cm.linkNames ∧ p.1 ∉ cm.frameNames) :
    rest.foldl (fun (cm : Model T) p =>
        if p.1 ∈ rem then
          match m.getJoint (m.getNeighbor (m.getLinkIndex p.1) 0).neighborJoint with
          | some j =>
            (cm.addAdditionalFrameToLink
              (m.getLinkName (m.getNeighbor (m.getLinkIndex p.1) 0).neighborLink) p.1
              (j.getRestTransform (m.getNeighbor (m.getLinkIndex p.1) 0).neighborLink
                (m.getLinkIndex p.1))).2
          | none => cm
        else cm) cm =
      { cm with
        frames := (cm.frames ++ (rest.filter (fun p => decide (p.1 ∈ rem))).filterMap
          (fun p => fakeLinkFrame m cm.linkNames p.1)) } := by
  induction rest generalizing cm with
  | nil => simp
  | cons p rest ih =>
    rw [List.foldl_cons]
    have hnr : (rest.map Prod.fst).Nodup := (List.nodup_cons.mp (by simpa using hn)).2
    have hpr : p.1 ∉ rest.map Prod.fst := (List.nodup_cons.mp (by simpa using hn)).1
    by_cases hk : p.1 ∈ rem
    · rw [if_pos hk]
      obtain ⟨hv1, hv2⟩ := hv p (by simp) hk
      cases hj : m.getJoint (m.getNeighbor (m.getLinkIndex p.1) 0).neighborJoint with
      | none =>
        simp only []
        rw [ih cm hnr (fun q hq hkq => hv q (by simp [hq]) hkq)]
        simp [List.filter_cons, hk, fakeLinkFrame, hj]
      | some j =>
        simp only []
        rw [Model.addAdditionalFrameToLink_eq cm _ _ _ hv1 hv2]
        by_cases hi : Model.indexOfName cm.linkNames
            (m.getLinkName (m.getNeighbor (m.getLinkIndex p.1) 0).neighborLink) = -1
        · rw [if_pos hi, ih cm hnr (fun q hq hkq => hv q (by simp [hq]) hkq)]
          simp [List.filter_cons, hk, fakeLinkFrame, hj, hi]
        · have hff : fakeLinkFrame m cm.linkNames p.1 = some
              ⟨p.1, Model.indexOfName cm.linkNames
                (m.getLinkName (m.getNeighbor (m.getLinkIndex p.1) 0).neighborLink),
                j.getRestTransform (m.getNeighbor (m.getLinkIndex p.1) 0).neighborLink
                  (m.getLinkIndex p.1)⟩ := by
            simp [fakeLinkFrame, hj, hi]
          rw [if_neg hi, ih _ hnr]
          · have hl : ∀ fs, ({ cm with frames := fs } : Model T).linkNames = cm.linkNames :=
              fun _ => rfl
            simp only [hl, List.filter_cons, hk, decide_True, if_true, List.filterMap_cons, hff,
              List.append_assoc, List.singleton_append]
          · intro q hq hkq
            obtain ⟨a, b⟩ := hv q (by simp [hq]) hkq
            refine ⟨a, ?_⟩
            simp only [Model.frameNames, List.map_append, List.map_cons, List.map_nil,
              List.mem_append, List.mem_singleton, not_or]
            refine ⟨b, ?_⟩
            intro e
            apply hpr
            rw [← e]
            exact List.mem_map_of_mem _ hq
    · rw [if_neg hk, ih cm hnr (fun q hq hkq => hv q (by simp [hq]) hkq)]
      simp [List.filter_cons, hk]

theorem mem_survivingLinks_names (m : Model T) (n : String) :
    n ∈ (survivingLinks m).map Prod.fst ↔
      n ∈ m.linkNames ∧ n ∉ (removeFakeLinks_scan m).linksToRemove := by
  unfold survivingLinks Model.linkNames
  simp only [List.mem_map, List.mem_filter, decide_eq_true_eq]
  constructor
  · rintro ⟨p, ⟨hp, hr⟩, rfl⟩
    exact ⟨⟨p, hp, rfl⟩, hr⟩
  · rintro ⟨⟨p, hp, rfl⟩, hr⟩
    exact ⟨p, ⟨hp, hr⟩, rfl⟩

theorem survivingLinks_nodup (m : Model T) (hn : m.linkNames.Nodup) :
    ((survivingLinks m).map Prod.fst).Nodup := by
  unfold survivingLinks
  exact List.Nodup.sublist (List.Sublist.map _ (List.filter_sublist _)) hn

/-- A link that is not fake keeps its name in the output model. -/
theorem getLinkName_mem_survivingLinks (m : Model T) (hn : m.linkNames.Nodup) (i : Int)
    (h0 : 0 ≤ i) (h1 : i < (m.links.length : Int)) (hf : ¬ isFakeLink m i = true) :
    m.getLinkName i ∈ (survivingLinks m).map Prod.fst := by
  rw [mem_survivingLinks_names]
  exact ⟨m.getLinkName_mem i h0 h1, fun h => hf ((getLinkName_mem_linksToRemove m hn i h0 h1).mp h)⟩

/-- A joint whose name is not to remove has no fake endpoint. -/
theorem kept_joint_not_fake (m : Model T) (k : Nat) (hk : k < m.joints.length)
    (hkeep : (m.joints[k]).1 ∉ (removeFakeLinks_scan m).jointsToRemove) :
    ¬ isFakeLink m (m.joints[k]).2.link1 = true ∧ ¬ isFakeLink m (m.joints[k]).2.link2 = true := by
  constructor
  · intro hf
    apply hkeep
    rw [mem_jointsToRemove]
    refine ⟨_, hf, ?_⟩
    rw [isFakeLink_incident m _ hf k hk (Or.inl rfl), m.getJointName_natCast k hk]
  · intro hf
    apply hkeep
    rw [mem_jointsToRemove]
    refine ⟨_, hf, ?_⟩
    rw [isFakeLink_incident m _ hf k hk (Or.inr rfl), m.getJointName_natCast k hk]

/-- Both endpoints of a surviving joint are found in the output model, at
two different indices. -/
theorem remapJoint_valid (m : Model T) (wf : m.WellFormed) (p : String × IJoint T)
    (hp : p ∈ m.joints) (hkeep : p.1 ∉ (removeFakeLinks_scan m).jointsToRemove) :
    0 ≤ (remapJoint m ((survivingLinks m).map Prod.fst) p).2.link1 ∧
    (remapJoint m ((survivingLinks m).map Prod.fst) p).2.link1 < ((survivingLinks m).length : Int) ∧
    0 ≤ (remapJoint m ((survivingLinks m).map Prod.fst) p).2.link2 ∧
    (remapJoint m ((survivingLinks m).map Prod.fst) p).2.link2 < ((survivingLinks m).length : Int) ∧
    (remapJoint m ((survivingLinks m).map Prod.fst) p).2.link1 ≠
      (remapJoint m ((survivingLinks m).map Prod.fst) p).2.link2 := by
  obtain ⟨k, hk, rfl⟩ := List.getElem_of_mem hp
  obtain ⟨v1, v2, v3, v4, v5⟩ := wf.joints_valid _ hp
  obtain ⟨f1, f2⟩ := kept_joint_not_fake m k hk hkeep
  have m1 := getLinkName_mem_survivingLinks m wf.linkNames_nodup _ v1 v2 f1
  have m2 := getLinkName_mem_survivingLinks m wf.linkNames_nodup _ v3 v4 f2
  obtain ⟨a, ha, ea, ga⟩ := indexOfName_mem _ _ m1
  obtain ⟨b, hb, eb, gb⟩ := indexOfName_mem _ _ m2
  have e1 : (remapJoint m ((survivingLinks m).map Prod.fst) m.joints[k]).2.link1 = (a : Int) := ea
  have e2 : (remapJoint m ((survivingLinks m).map Prod.fst) m.joints[k]).2.link2 = (b : Int) := eb
  rw [e1, e2]
  simp only [List.length_map] at ha hb
  refine ⟨by omega, by omega, by omega, by omega, ?_⟩
  intro hab
  have hab' : a = b := by omega
  subst hab'
  have : m.getLinkName (m.joints[k]).2.link1 = m.getLinkName (m.joints[k]).2.link2 := by
    rw [← ga, ← gb]
  have := congrArg m.getLinkIndex this
  rw [m.getLinkIndex_getLinkName wf.linkNames_nodup _ v1 v2,
    m.getLinkIndex_getLinkName wf.linkNames_nodup _ v3 v4] at this
  exact v5 this

/-- The output model of `removeFakeLinks`, before the default base link is
set: the surviving links, the surviving joints with their endpoints
renumbered, and one frame for every removed link whose neighbour
survives. -/
theorem removeFakeLinks_build_eq [Inv T] (m : Model T) (wf : m.WellFormed) :
    removeFakeLinks_build m =
      { (Model.ofLinks (survivingLinks m) : Model T) with
        joints := (survivingJoints m).map (remapJoint m ((survivingLinks m).map Prod.fst)),
        frames := (removedLinks m).filterMap
          (fun p => fakeLinkFrame m ((survivingLinks m).map Prod.fst) p.1) } := by
  unfold removeFakeLinks_build
  simp only []
  rw [addLink_loop m wf.linkNames_nodup]
  have hJ := foldl_range_eq_foldl m.joints
    (removeFakeLinks_addJoint m (removeFakeLinks_scan m).jointsToRemove)
    (fun (cm : Model T) p =>
        if decide (p.1 ∉ (removeFakeLinks_scan m).jointsToRemove) then
          (cm.addJoint p.1 (p.2.clone.setAttachedLinks
            (cm.getLinkIndex (m.getLinkName p.2.clone.getFirstAttachedLink))
            (cm.getLinkIndex (m.getLinkName p.2.clone.getSecondAttachedLink)))).2
        else cm)
    (by
      intro cm k hk
      unfold removeFakeLinks_addJoint
      simp only [m.getJointName_natCast k hk, m.getJoint_natCast k hk]
      by_cases hr : (m.joints[k]).1 ∈ (removeFakeLinks_scan m).jointsToRemove <;> simp [hr])
  have hF := foldl_range_eq_foldl m.links
    (removeFakeLinks_addFrame m (removeFakeLinks_scan m).linksToRemove)
    (fun (cm : Model T) p =>
        if p.1 ∈ (removeFakeLinks_scan m).linksToRemove then
          match m.getJoint (m.getNeighbor (m.getLinkIndex p.1) 0).neighborJoint with
          | some j =>
            (cm.addAdditionalFrameToLink
              (m.getLinkName (m.getNeighbor (m.getLinkIndex p.1) 0).neighborLink) p.1
              (j.getRestTransform (m.getNeighbor (m.getLinkIndex p.1) 0).neighborLink
                (m.getLinkIndex p.1))).2
          | none => cm
        else cm)
    (by
      intro cm k hk
      unfold removeFakeLinks_addFrame
      simp only [m.getLinkName_natCast k hk])
  unfold Model.getNrOfJoints Model.getNrOfLinks
  rw [hJ, hF]
  have e0 : m.links.filter (fun p => decide (p.1 ∉ (removeFakeLinks_scan m).linksToRemove)) =
      survivingLinks m := rfl
  rw [e0]
  rw [foldl_addJoint m _ m.joints (Model.ofLinks (survivingLinks m))
    (by simpa [Model.jointNames, Model.ofLinks] using wf.jointNames_nodup)
    (by
      intro p hp hk
      have := remapJoint_valid m wf p hp (by simpa using hk)
      simpa [Model.ofLinks, Model.linkNames] using this)]
  refine Eq.trans (foldl_addFrame m (removeFakeLinks_scan m).linksToRemove m.links _
    (by simpa [Model.linkNames] using wf.linkNames_nodup)
    (by
      intro p hp hr
      constructor
      · show p.1 ∉ (survivingLinks m).map Prod.fst
        rw [mem_survivingLinks_names]
        exact fun h => h.2 hr
      · simp [Model.frameNames, Model.ofLinks])) ?_
  rfl

/-! ### The output model of `removeFakeLinks` -/

/-- Counting the kept elements before a position, by element or by index. -/
theorem length_filter_take (names : List String) (P : String → Bool) (keepIdx : Nat → Bool)
    (hP : ∀ k (hk : k < names.length), P names[k] = keepIdx k) (i : Nat) (hi : i ≤ names.length) :
    ((names.take i).filter P).length = ((List.range i).filter keepIdx).length := by
  induction i with
  | zero => simp
  | succ i ih =>
    have hlt : i < names.length := by omega
    rw [take_succ_getElem names i hlt, List.range_succ, List.filter_append, List.filter_append,
      List.length_append, List.length_append, ih (by omega)]
    congr 1
    simp only [List.filter_cons, List.filter_nil, hP i hlt]
    split_ifs <;> rfl

/-- Filtering a list without duplicates: every kept element occurs once, at
the position given by the number of kept elements before it, and nothing
else occurs. -/
theorem filter_reindex (names : List String) (hn : names.Nodup) (P : String → Bool)
    (keepIdx : Nat → Bool) (hP : ∀ k (hk : k < names.length), P names[k] = keepIdx k) :
    (∀ i (hi : i < names.length), keepIdx i = true →
      (names.filter P).count names[i] = 1 ∧
      Model.indexOfName (names.filter P) names[i] =
        (((List.range i).filter keepIdx).length : Int)) ∧
    (∀ n ∈ names.filter P, ∃ i, ∃ hi : i < names.length, keepIdx i = true ∧ names[i] = n) := by
  constructor
  · intro i hi hk
    have hPi : P names[i] = true := by rw [hP i hi]; exact hk
    have hmem : names[i] ∈ names.filter P := List.mem_filter.mpr ⟨List.getElem_mem _, hPi⟩
    refine ⟨List.count_eq_one_of_mem (hn.filter _) hmem, ?_⟩
    have hsplit : names = names.take i ++ names[i] :: names.drop (i + 1) := by
      conv_lhs => rw [← List.take_append_drop i names]
      rw [List.drop_eq_getElem_cons hi]
    have hnot : names[i] ∉ (names.take i).filter P := by
      intro hm
      have hm' := (List.mem_filter.mp hm).1
      obtain ⟨k, hk', he⟩ := List.getElem_of_mem hm'
      rw [List.getElem_take] at he
      have hklt : k < i := by
        have := hk'
        simp only [List.length_take] at this
        omega
      have := (List.Nodup.getElem_inj_iff hn).mp he
      omega
    have hf : names.filter P =
        (names.take i).filter P ++ names[i] :: (names.drop (i + 1)).filter P := by
      conv_lhs => rw [hsplit]
      rw [List.filter_append, List.filter_cons, if_pos hPi]
    unfold Model.indexOfName
    rw [if_pos (List.indexOf_lt_length.mpr hmem)]
    congr 1
    conv_lhs => rw [hf]
    rw [List.indexOf_append_of_not_mem hnot, List.indexOf_cons_self,
      length_filter_take names P keepIdx hP i (by omega)]
    simp
  · intro n hm
    obtain ⟨h1, h2⟩ := List.mem_filter.mp hm
    obtain ⟨i, hi, he⟩ := List.getElem_of_mem h1
    refine ⟨i, hi, ?_, he⟩
    rw [← hP i hi, he]; exact h2


theorem Model.setDefaultBaseLink_graph (m : Model T) (i : Int) :
    (m.setDefaultBaseLink i).2.links = m.links ∧ (m.setDefaultBaseLink i).2.joints = m.joints ∧
    (m.setDefaultBaseLink i).2.frames = m.frames := by
  unfold Model.setDefaultBaseLink
  split_ifs <;> exact ⟨rfl, rfl, rfl⟩

/-- The links, joints and frames of the output model of `removeFakeLinks`. -/
theorem removeFakeLinks_output [Inv T] (m : Model T) (wf : m.WellFormed) :
    (removeFakeLinks m).2.links = survivingLinks m ∧
    (removeFakeLinks m).2.joints =
      (survivingJoints m).map (remapJoint m ((survivingLinks m).map Prod.fst)) ∧
    (removeFakeLinks m).2.frames = (removedLinks m).filterMap
      (fun p => fakeLinkFrame m ((survivingLinks m).map Prod.fst) p.1) := by
  unfold removeFakeLinks
  simp only []
  obtain ⟨h1, h2, h3⟩ := (removeFakeLinks_build m).setDefaultBaseLink_graph
    ((removeFakeLinks_build m).getLinkIndex (removeFakeLinks_scan m).newDefaultBaseLink)
  rw [h1, h2, h3, removeFakeLinks_build_eq m wf]
  exact ⟨rfl, rfl, rfl⟩

theorem survivingLinks_names (m : Model T) :
    (survivingLinks m).map Prod.fst =
      m.linkNames.filter (fun n => decide (n ∉ (removeFakeLinks_scan m).linksToRemove)) := by
  unfold survivingLinks Model.linkNames
  rw [List.filter_map]
  rfl

theorem survivingJoints_names (m : Model T) :
    (survivingJoints m).map Prod.fst =
      m.jointNames.filter (fun n => decide (n ∉ (removeFakeLinks_scan m).jointsToRemove)) := by
  unfold survivingJoints Model.jointNames
  rw [List.filter_map]
  rfl

theorem remapJoint_names (m : Model T) (names : List String) (l : List (String × IJoint T)) :
    (l.map (remapJoint m names)).map Prod.fst = l.map Prod.fst := by
  rw [List.map_map]
  rfl

/-- With unique joint names, the name of a joint is to remove exactly when
the joint is attached to a fake link. -/
theorem jointName_mem_jointsToRemove (m : Model T) (hn : m.jointNames.Nodup) (k : Nat)
    (hk : k < m.joints.length) :
    (m.joints[k]).1 ∈ (removeFakeLinks_scan m).jointsToRemove ↔
      jointTouchesFakeLink m (k : Int) = true := by
  have ht : jointTouchesFakeLink m (k : Int) =
      (isFakeLink m (m.joints[k]).2.link1 || isFakeLink m (m.joints[k]).2.link2) := by
    unfold jointTouchesFakeLink
    rw [m.getJoint_natCast k hk]
    rfl
  rw [ht]
  constructor
  · intro hm
    obtain ⟨i, hf, he⟩ := (mem_jointsToRemove m _).mp hm
    obtain ⟨k', hk', h1, -, h3⟩ := isFakeLink_joint m i hf
    rw [h1, m.getJointName_natCast k' hk'] at he
    have hkk : k' = k := by
      have hb1 : k' < m.jointNames.length := by simpa [Model.jointNames] using hk'
      have hb2 : k < m.jointNames.length := by simpa [Model.jointNames] using hk
      have e1 : m.jointNames[k'] = m.jointNames[k] := by
        simpa [Model.jointNames] using he
      exact (List.Nodup.getElem_inj_iff hn).mp e1
    subst hkk
    rcases h3 with ⟨h3, -⟩ | ⟨h3, -⟩
    · rw [h3, hf]; rfl
    · rw [h3, hf]; simp
  · intro h
    by_contra hkeep
    obtain ⟨f1, f2⟩ := kept_joint_not_fake m k hk hkeep
    simp only [Bool.or_eq_true] at h
    rcases h with h | h
    · exact f1 h
    · exact f2 h

/-- The single neighbour of a fake link is a link of the model. -/
theorem isFakeLink_neighbor_valid (m : Model T) (wf : m.WellFormed) (i : Int)
    (hf : isFakeLink m i = true) :
    0 ≤ (m.getNeighbor i 0).neighborLink ∧
    (m.getNeighbor i 0).neighborLink < (m.links.length : Int) := by
  obtain ⟨k, hk, -, -, h3⟩ := isFakeLink_joint m i hf
  obtain ⟨v1, v2, v3, v4, -⟩ := wf.joints_valid _ (List.getElem_mem hk)
  rcases h3 with ⟨-, h3⟩ | ⟨-, h3⟩
  · rw [h3]; exact ⟨v3, v4⟩
  · rw [h3]; exact ⟨v1, v2⟩

/-- The frame added for a fake link whose single neighbour survives. -/
theorem fakeLinkFrame_of_fake [Inv T] (m : Model T) (wf : m.WellFormed) (i : Int)
    (hf : isFakeLink m i = true)
    (hnb : isFakeLink m (m.getNeighbor i 0).neighborLink = false) :
    ∃ j, m.getJoint (m.getNeighbor i 0).neighborJoint = some j ∧
      fakeLinkFrame m ((survivingLinks m).map Prod.fst) (m.getLinkName i) =
        some ⟨m.getLinkName i,
          Model.indexOfName ((survivingLinks m).map Prod.fst)
            (m.getLinkName (m.getNeighbor i 0).neighborLink),
          j.getRestTransform (m.getNeighbor i 0).neighborLink i⟩ := by
  obtain ⟨h0, h1⟩ := isFakeLink_valid m i hf
  obtain ⟨k, hk, hj, -, -⟩ := isFakeLink_joint m i hf
  obtain ⟨n0, n1⟩ := isFakeLink_neighbor_valid m wf i hf
  refine ⟨(m.joints[k]).2, by rw [hj, m.getJoint_natCast k hk], ?_⟩
  have hm := getLinkName_mem_survivingLinks m wf.linkNames_nodup _ n0 n1 (by simp [hnb])
  have hne : ¬ Model.indexOfName ((survivingLinks m).map Prod.fst)
      (m.getLinkName (m.getNeighbor i 0).neighborLink) = -1 := by
    rw [indexOfName_eq_neg_one]; exact fun h => h hm
  unfold fakeLinkFrame
  simp only [m.getLinkIndex_getLinkName wf.linkNames_nodup i h0 h1]
  rw [hj, m.getJoint_natCast k hk]
  simp only [if_neg hne]

/-- Every joint contributes at most one entry to the neighbours of a link:
the joints of the entries are pairwise different. -/
theorem neighborsFrom_nodup (link : Int) (js : List (String × IJoint T)) (k : Nat)
    (hv : ∀ p ∈ js, p.2.link1 ≠ p.2.link2) :
    ((Model.neighborsFrom link k js).map Neighbor.neighborJoint).Nodup := by
  induction js generalizing k with
  | nil => simp [Model.neighborsFrom]
  | cons p js ih =>
    obtain ⟨n, j⟩ := p
    have hj : j.link1 ≠ j.link2 := hv (n, j) (by simp)
    have ht := ih (k + 1) (fun p hp => hv p (by simp [hp]))
    have hge : ∀ x ∈ (Model.neighborsFrom link (k + 1) js).map Neighbor.neighborJoint,
        x ≠ (k : Int) := by
      intro x hx
      obtain ⟨nb, hnb, rfl⟩ := List.mem_map.mp hx
      obtain ⟨i, -, h1, -⟩ := mem_neighborsFrom link js (k + 1) nb hnb
      rw [h1]; push_cast; omega
    simp only [Model.neighborsFrom, List.map_append]
    by_cases h1 : j.link1 = link
    · have h2 : ¬ j.link2 = link := fun h => hj (h1.trans h.symm)
      simp only [h1, h2, if_true, if_false, List.map_cons, List.map_nil, List.append_nil,
        List.singleton_append, List.nodup_cons]
      exact ⟨fun hx => hge _ hx rfl, ht⟩
    · by_cases h2 : j.link2 = link
      · simp only [h1, h2, if_true, if_false, List.map_cons, List.map_nil, List.nil_append,
          List.singleton_append, List.nodup_cons]
        exact ⟨fun hx => hge _ hx rfl, ht⟩
      · simp only [h1, h2, if_false, List.map_nil, List.nil_append]
        exact ht

/-- In a list of length other than one whose images under `f` are pairwise
different, every element has a companion with another image. -/
theorem exists_other_of_length_ne_one {α β : Type} (f : α → β) (l : List α)
    (hn : (l.map f).Nodup) (x : α) (hx : x ∈ l) (hl : l.length ≠ 1) :
    ∃ y ∈ l, f y ≠ f x := by
  match l, hn, hx, hl with
  | [a], _, _, hl => exact absurd rfl hl
  | a :: b :: rest, hn, _, _ =>
    have hab : f a ≠ f b := by
      intro h
      simp only [List.map_cons, List.nodup_cons, List.mem_cons, not_or] at hn
      exact hn.1.1 h
    by_cases h : f a = f x
    · exact ⟨b, by simp, fun hb => hab (h.trans hb.symm)⟩
    · exact ⟨a, by simp, h⟩

/-- A link that is not fake although it has no positive mass and is attached
to a fixed joint is attached to a second joint. -/
theorem exists_second_joint (m : Model T) (wf : m.WellFormed) (i : Int) (link : Link)
    (hl : m.getLink i = some link) (hmass : ¬ (0 < link.getInertia.getMass))
    (hnf : isFakeLink m i = false) (k : Nat) (hk : k < m.joints.length)
    (hinc : (m.joints[k]).2.link1 = i ∨ (m.joints[k]).2.link2 = i)
    (hd : (m.joints[k]).2.getNrOfDOFs = 0) :
    ∃ k2, ∃ hk2 : k2 < m.joints.length, k2 ≠ k ∧
      ((m.joints[k2]).2.link1 = i ∨ (m.joints[k2]).2.link2 = i) := by
  have hmem : ∃ o, (⟨o, (k : Int)⟩ : Neighbor) ∈ m.neighbors i := by
    rcases hinc with h | h
    · exact ⟨_, by simpa using neighborsFrom_mem_of_link1 i m.joints 0 k hk h⟩
    · exact ⟨_, by simpa using neighborsFrom_mem_of_link2 i m.joints 0 k hk h⟩
  obtain ⟨o, ho⟩ := hmem
  have hlen : (m.neighbors i).length ≠ 1 := by
    intro h1
    have hone := m.getNeighbor_zero_mem i h1
    rw [hone] at ho
    simp only [List.mem_singleton] at ho
    have hf : isFakeLink m i = true := by
      rw [isFakeLink_iff]
      refine ⟨link, hl, hmass, h1, (m.joints[k]).2, ?_, hd⟩
      rw [← ho]
      exact m.getJoint_natCast k hk
    rw [hf] at hnf
    exact absurd hnf (by simp)
  obtain ⟨y, hy, hne⟩ := exists_other_of_length_ne_one Neighbor.neighborJoint (m.neighbors i)
    (neighborsFrom_nodup i m.joints 0 (fun p hp => (wf.joints_valid p hp).2.2.2.2)) _ ho hlen
  obtain ⟨k2, hk2, h1, h2⟩ := mem_neighborsFrom i m.joints 0 y hy
  refine ⟨k2, hk2, ?_, ?_⟩
  · intro e
    apply hne
    rw [h1, e]; simp
  · rcases h2 with ⟨h2, -⟩ | ⟨h2, -⟩
    · exact Or.inl h2
    · exact Or.inr h2

/-- A surviving link of the output model, traced back to the input model. -/
theorem survivingLinks_getElem (m : Model T) (wf : m.WellFormed) (a : Nat)
    (ha : a < (survivingLinks m).length) :
    ∃ i : Nat, ∃ hi : i < m.links.length, (survivingLinks m)[a] = m.links[i] ∧
      isFakeLink m (i : Int) = false := by
  have hmem : (survivingLinks m)[a] ∈ survivingLinks m := List.getElem_mem _
  unfold survivingLinks at hmem
  rw [List.mem_filter] at hmem
  obtain ⟨h1, h2⟩ := hmem
  obtain ⟨i, hi, he⟩ := List.getElem_of_mem h1
  refine ⟨i, hi, he.symm, ?_⟩
  simp only [decide_eq_true_eq] at h2
  have hn : m.getLinkName (i : Int) ∉ (removeFakeLinks_scan m).linksToRemove := by
    rw [m.getLinkName_natCast i hi, he]; exact h2
  have := getLinkName_mem_linksToRemove m wf.linkNames_nodup (i : Int) (by omega) (by omega)
  cases hf : isFakeLink m (i : Int) with
  | false => rfl
  | true => exact absurd (this.mpr hf) hn

/-- A surviving joint, traced back to the input model. -/
theorem survivingJoints_getElem (m : Model T) (b : Nat) (hb : b < (survivingJoints m).length) :
    ∃ k : Nat, ∃ hk : k < m.joints.length, (survivingJoints m)[b] = m.joints[k] ∧
      (m.joints[k]).1 ∉ (removeFakeLinks_scan m).jointsToRemove := by
  have hmem : (survivingJoints m)[b] ∈ survivingJoints m := List.getElem_mem _
  unfold survivingJoints at hmem
  rw [List.mem_filter] at hmem
  obtain ⟨h1, h2⟩ := hmem
  obtain ⟨k, hk, he⟩ := List.getElem_of_mem h1
  refine ⟨k, hk, he.symm, ?_⟩
  simp only [decide_eq_true_eq] at h2
  rw [he]; exact h2

/-- The new index of a link that is not fake is the position of its name
among the surviving links; it determines the link. -/
theorem newIndex_eq_iff (m : Model T) (wf : m.WellFormed) (a : Nat)
    (ha : a < (survivingLinks m).length) (i : Nat) (hi : i < m.links.length)
    (he : (survivingLinks m)[a] = m.links[i]) (e : Int) (h0 : 0 ≤ e)
    (h1 : e < (m.links.length : Int)) (hf : isFakeLink m e = false) :
    Model.indexOfName ((survivingLinks m).map Prod.fst) (m.getLinkName e) = (a : Int) ↔
      e = (i : Int) := by
  have hb1 : a < ((survivingLinks m).map Prod.fst).length := by simpa using ha
  have hnames : ((survivingLinks m).map Prod.fst)[a] = m.getLinkName (i : Int) := by
    rw [m.getLinkName_natCast i hi, ← he]; simp
  constructor
  · intro hidx
    have hm := getLinkName_mem_survivingLinks m wf.linkNames_nodup e h0 h1 (by simp [hf])
    obtain ⟨a', ha', e1, e2⟩ := indexOfName_mem _ _ hm
    rw [e1] at hidx
    have haa : a' = a := by omega
    subst haa
    rw [hnames] at e2
    have := congrArg m.getLinkIndex e2
    rw [m.getLinkIndex_getLinkName wf.linkNames_nodup _ (by omega) (by omega),
      m.getLinkIndex_getLinkName wf.linkNames_nodup _ h0 h1] at this
    exact this.symm
  · intro hei
    rw [hei, ← hnames]
    exact indexOfName_getElem _ (survivingLinks_nodup m wf.linkNames_nodup) a (by simpa using ha)

/-! ### Invariants of the stages of `documentHasBeenParsed` -/

/-- `addJoint` keeps the invariants of the model. -/
theorem Model.addJoint_wellFormed (m : Model T) (wf : m.WellFormed) (n : String) (j : IJoint T) :
    (m.addJoint n j).2.WellFormed := by
  unfold Model.addJoint
  by_cases h1 : m.isJointNameUsed n = true
  · rw [if_pos h1]; exact wf
  · rw [if_neg h1]
    simp only []
    by_cases h2 : j.getFirstAttachedLink < 0 ∨ (m.getNrOfLinks : Int) ≤ j.getFirstAttachedLink ∨
        j.getSecondAttachedLink < 0 ∨ (m.getNrOfLinks : Int) ≤ j.getSecondAttachedLink
    · rw [if_pos h2]; exact wf
    · rw [if_neg h2]
      by_cases h3 : j.getFirstAttachedLink = j.getSecondAttachedLink
      · rw [if_pos h3]; exact wf
      · rw [if_neg h3]
        have hname : n ∉ m.jointNames := by
          intro hm
          apply h1
          unfold Model.isJointNameUsed Model.getJointIndex
          have := (indexOfName_eq_neg_one m.jointNames n).not.mpr (by simpa using hm)
          simpa using this
        simp only [IJoint.getFirstAttachedLink, IJoint.getSecondAttachedLink,
          Model.getNrOfLinks] at h2 h3
        refine ⟨wf.linkNames_nodup, ?_, ?_, wf.base_valid⟩
        · show (List.map Prod.fst (m.joints ++ [(n, j.clone)])).Nodup
          rw [List.map_append, List.nodup_append]
          refine ⟨wf.jointNames_nodup, by simp, ?_⟩
          intro x hx hx'
          simp only [List.map_cons, List.map_nil, List.mem_singleton] at hx'
          subst hx'
          exact hname hx
        · intro p hp
          simp only [List.mem_append, List.mem_singleton] at hp
          rcases hp with hp | hp
          · exact wf.joints_valid p hp
          · subst hp
            simp only [IJoint.clone]
            refine ⟨by omega, by omega, by omega, by omega, h3⟩

theorem foldl_processJoints_joint_wellFormed (l : List (String × JointInfo T))
    (s : JointLoopState T) (wf : s.model.WellFormed) :
    (l.foldl processJoints_joint s).model.WellFormed := by
  induction l generalizing s with
  | nil => exact wf
  | cons p l ih =>
    rw [List.foldl_cons]
    apply ih
    unfold processJoints_joint
    exact Model.addJoint_wellFormed _ wf _ _

theorem foldl_processJoints_fixed_wellFormed (l : List (String × JointInfo T))
    (s : JointLoopState T) (wf : s.model.WellFormed) :
    (l.foldl processJoints_fixed s).model.WellFormed := by
  induction l generalizing s with
  | nil => exact wf
  | cons p l ih =>
    rw [List.foldl_cons]
    apply ih
    unfold processJoints_fixed
    exact Model.addJoint_wellFormed _ wf _ _

/-- `processJoints` keeps the invariants of the model. -/
theorem processJoints_wellFormed (m : Model T) (wf : m.WellFormed)
    (js fs : List (String × JointInfo T)) : (processJoints m js fs).model.WellFormed := by
  unfold processJoints
  simp only
  apply foldl_processJoints_fixed_wellFormed
  exact foldl_processJoints_joint_wellFormed js _ wf

/-- Setting the default base link to a link of the model. -/
theorem Model.setDefaultBaseLink_of_valid (m : Model T) (i : Int) (h0 : 0 ≤ i)
    (h1 : i < (m.links.length : Int)) :
    m.setDefaultBaseLink i = (true, { m with defaultBaseLink := i }) := by
  unfold Model.setDefaultBaseLink Model.getNrOfLinks
  rw [if_neg (by omega)]

theorem Model.wellFormed_setBase (m : Model T) (wf : m.WellFormed) (i : Int) (h0 : 0 ≤ i)
    (h1 : i < (m.links.length : Int)) :
    ({ m with defaultBaseLink := i } : Model T).WellFormed :=
  ⟨wf.linkNames_nodup, wf.jointNames_nodup, wf.joints_valid, fun _ => ⟨h0, h1⟩⟩

/-- The loop of `processSensors` succeeds when every helper produces a
sensor. -/
theorem processSensors_loop_true (model : Model T) (helpers : List (SensorHelper T))
    (hs : ∀ h ∈ helpers, (h.generateSensor model).isSome = true) (sensors : SensorsList T) :
    (processSensors_loop model helpers sensors).1 = true := by
  induction helpers generalizing sensors with
  | nil => rfl
  | cons h rest ih =>
    unfold processSensors_loop
    have := hs h (by simp)
    cases hg : h.generateSensor model with
    | none => rw [hg] at this; exact absurd this (by simp)
    | some sensor =>
      simp only []
      exact ih (fun h' hh => hs h' (by simp [hh])) _

theorem Model.addAdditionalFrameToLink_graph (m : Model T) (ln fn : String) (t : T) :
    (m.addAdditionalFrameToLink ln fn t).2.links = m.links ∧
    (m.addAdditionalFrameToLink ln fn t).2.defaultBaseLink = m.defaultBaseLink := by
  unfold Model.addAdditionalFrameToLink
  simp only []
  split_ifs <;> exact ⟨rfl, rfl⟩

theorem addSensorFrames_linkSensors_graph (l : List (Sensor T)) (s : SensorFramesState T) :
    ∀ r, (addSensorFrames_linkSensors l s = Except.ok r ∨
        addSensorFrames_linkSensors l s = Except.error r) →
      r.model.links = s.model.links ∧ r.model.defaultBaseLink = s.model.defaultBaseLink := by
  induction l generalizing s with
  | nil =>
    intro r hr
    simp only [addSensorFrames_linkSensors] at hr
    rcases hr with hr | hr
    · simp only [Except.ok.injEq] at hr; subst hr; exact ⟨rfl, rfl⟩
    · exact absurd hr (by simp)
  | cons x rest ih =>
    intro r hr
    cases x with
    | sixAxisForceTorque name l1 l2 n1 n2 t1 t2 =>
      simp only [addSensorFrames_linkSensors] at hr
      rcases hr with hr | hr
      · exact absurd hr (by simp)
      · simp only [Except.error.injEq] at hr; subst hr; exact ⟨rfl, rfl⟩
    | linkSensor type name parent t =>
      simp only [addSensorFrames_linkSensors] at hr
      obtain ⟨g1, g2⟩ := Model.addAdditionalFrameToLink_graph s.model
        (s.model.getLinkName parent) name t
      split_ifs at hr with c1 c2
      · have := ih _ r hr
        exact this
      · obtain ⟨e1, e2⟩ := ih _ r hr
        exact ⟨e1.trans g1, e2.trans g2⟩
      · obtain ⟨e1, e2⟩ := ih _ r hr
        exact ⟨e1.trans g1, e2.trans g2⟩

theorem addSensorFrames_ftSensors_graph (l : List (Sensor T)) (s : SensorFramesState T) :
    (addSensorFrames_ftSensors l s).model.links = s.model.links ∧
    (addSensorFrames_ftSensors l s).model.defaultBaseLink = s.model.defaultBaseLink := by
  induction l generalizing s with
  | nil => exact ⟨rfl, rfl⟩
  | cons x rest ih =>
    cases x with
    | linkSensor type name parent t =>
      simp only [addSensorFrames_ftSensors]
      exact ih s
    | sixAxisForceTorque name l1 l2 n1 n2 t1 t2 =>
      simp only [addSensorFrames_ftSensors]
      have hr : ∀ r : Bool × Model T,
          r = (match sixAxisLinkSensorTransform l1 l2 t1 t2 l2 with
            | some link_H_sensor => s.model.addAdditionalFrameToLink n2 name link_H_sensor
            | none => (false, s.model)) →
          r.2.links = s.model.links ∧ r.2.defaultBaseLink = s.model.defaultBaseLink := by
        intro r hr
        cases hx : sixAxisLinkSensorTransform l1 l2 t1 t2 l2 with
        | none => rw [hx] at hr; subst hr; exact ⟨rfl, rfl⟩
        | some x =>
          rw [hx] at hr; subst hr
          exact Model.addAdditionalFrameToLink_graph s.model n2 name x
      obtain ⟨g1, g2⟩ := hr _ rfl
      split_ifs with c1 c2
      · have := ih { s with log := s.log ++ [reportWarning ""
          "addSensorFramesAsAdditionalFramesToModel"
          (sensorFrameMessage name " as there is already a frame with that name")] }
        exact this
      · obtain ⟨e1, e2⟩ := ih
          { ret := false,
            model := (match sixAxisLinkSensorTransform l1 l2 t1 t2 l2 with
              | some link_H_sensor => s.model.addAdditionalFrameToLink n2 name link_H_sensor
              | none => (false, s.model)).2,
            log := s.log ++ [reportError "" "addSensorFramesAsAdditionalFramesToModel"
              (sensorFrameMessage name " for unknown reasons")] }
        exact ⟨e1.trans g1, e2.trans g2⟩
      · obtain ⟨e1, e2⟩ := ih
          { s with model := (match sixAxisLinkSensorTransform l1 l2 t1 t2 l2 with
              | some link_H_sensor => s.model.addAdditionalFrameToLink n2 name link_H_sensor
              | none => (false, s.model)).2 }
        exact ⟨e1.trans g1, e2.trans g2⟩

theorem addSensorFrames_types_graph (sensors : SensorsList T) (types : List SensorType)
    (s : SensorFramesState T) :
    ∀ r, (addSensorFrames_types sensors types s = Except.ok r ∨
        addSensorFrames_types sensors types s = Except.error r) →
      r.model.links = s.model.links ∧ r.model.defaultBaseLink = s.model.defaultBaseLink := by
  induction types generalizing s with
  | nil =>
    intro r hr
    simp only [addSensorFrames_types] at hr
    rcases hr with hr | hr
    · simp only [Except.ok.injEq] at hr; subst hr; exact ⟨rfl, rfl⟩
    · exact absurd hr (by simp)
  | cons type rest ih =>
    intro r hr
    have hstep : ∀ r1, (addSensorFrames_type sensors type s = Except.ok r1 ∨
        addSensorFrames_type sensors type s = Except.error r1) →
        r1.model.links = s.model.links ∧ r1.model.defaultBaseLink = s.model.defaultBaseLink := by
      intro r1 h1
      unfold addSensorFrames_type at h1
      by_cases hl : isLinkSensor type = true
      · simp only [hl, if_true] at h1
        cases hx : addSensorFrames_linkSensors (sensors.getSensors type) s with
        | error e =>
          rw [hx] at h1
          simp only [Except.error.injEq, false_or, reduceCtorEq] at h1
          subst h1
          exact addSensorFrames_linkSensors_graph _ s _ (Or.inr hx)
        | ok s1 =>
          rw [hx] at h1
          obtain ⟨a1, a2⟩ := addSensorFrames_linkSensors_graph _ s _ (Or.inl hx)
          simp only [] at h1
          split_ifs at h1
          · simp only [Except.ok.injEq, or_false, reduceCtorEq] at h1
            subst h1
            obtain ⟨b1, b2⟩ := addSensorFrames_ftSensors_graph (sensors.getSensors type) s1
            exact ⟨b1.trans a1, b2.trans a2⟩
          · simp only [Except.ok.injEq, or_false, reduceCtorEq] at h1
            subst h1
            exact ⟨a1, a2⟩
      · simp only [hl, Bool.false_eq_true, if_false] at h1
        split_ifs at h1
        · simp only [Except.ok.injEq, or_false, reduceCtorEq] at h1
          subst h1
          exact addSensorFrames_ftSensors_graph (sensors.getSensors type) s
        · simp only [Except.ok.injEq, or_false, reduceCtorEq] at h1
          subst h1
          exact ⟨rfl, rfl⟩
    simp only [addSensorFrames_types] at hr
    cases hx : addSensorFrames_type sensors type s with
    | error e =>
      rw [hx] at hr
      simp only [Except.error.injEq, false_or, reduceCtorEq] at hr
      subst hr
      exact hstep _ (Or.inr hx)
    | ok s1 =>
      rw [hx] at hr
      obtain ⟨a1, a2⟩ := hstep _ (Or.inl hx)
      obtain ⟨b1, b2⟩ := ih s1 r hr
      exact ⟨b1.trans a1, b2.trans a2⟩

/-- The publication of the sensor frames changes neither the links nor the
default base link. -/
theorem addSensorFrames_graph (model : Model T) (sensors : SensorsList T) :
    (addSensorFramesAsAdditionalFramesToModel model sensors).2.1.links = model.links ∧
    (addSensorFramesAsAdditionalFramesToModel model sensors).2.1.defaultBaseLink =
      model.defaultBaseLink := by
  unfold addSensorFramesAsAdditionalFramesToModel
  cases hx : addSensorFrames_types sensors allSensorTypes ⟨true, model, []⟩ with
  | error e => exact addSensorFrames_types_graph sensors _ _ _ (Or.inr hx)
  | ok s => exact addSensorFrames_types_graph sensors _ _ _ (Or.inl hx)

theorem Model.getLinkName_congr (m m' : Model T) (h : m'.links = m.links) (i : Int) :
    m'.getLinkName i = m.getLinkName i := by
  unfold Model.getLinkName Model.getNrOfLinks Model.linkNames
  rw [h]

/-- When the name computed for the new default base link is the name of a
surviving link, `removeFakeLinks` succeeds and the default base link of
its output has that name. -/
theorem removeFakeLinks_base [Inv T] (m : Model T) (wf : m.WellFormed)
    (h : (removeFakeLinks_scan m).newDefaultBaseLink ∈ (survivingLinks m).map Prod.fst) :
    (removeFakeLinks m).1 = true ∧
    (removeFakeLinks m).2.getLinkName (removeFakeLinks m).2.getDefaultBaseLink =
      (removeFakeLinks_scan m).newDefaultBaseLink := by
  obtain ⟨k, hk, e1, e2⟩ := indexOfName_mem _ _ h
  have hbl : (removeFakeLinks_build m).links = survivingLinks m := by
    rw [removeFakeLinks_build_eq m wf]; rfl
  have hidx : (removeFakeLinks_build m).getLinkIndex (removeFakeLinks_scan m).newDefaultBaseLink =
      (k : Int) := by
    unfold Model.getLinkIndex Model.linkNames
    rw [hbl]; exact e1
  have hklt : k < (removeFakeLinks_build m).links.length := by
    rw [hbl]; simpa using hk
  unfold removeFakeLinks
  simp only [hidx]
  rw [Model.setDefaultBaseLink_of_valid _ (k : Int) (by omega) (by omega)]
  refine ⟨rfl, ?_⟩
  simp only [Model.getDefaultBaseLink]
  have hgn : ∀ x, ({ removeFakeLinks_build m with defaultBaseLink := (k : Int) } :
      Model T).getLinkName x = (removeFakeLinks_build m).getLinkName x := fun _ => rfl
  rw [hgn, Model.getLinkName_natCast _ k hklt]
  simp only [hbl]
  rw [← e2]
  simp

/-- The stages of `documentHasBeenParsed` after the removal of the fake
links: they succeed when the sensors are generated and the frames are
published, and then leave the links and the default base link as they
are. -/
theorem documentHasBeenParsed_sensors_ok [One T] [Mul T] (d : URDFDocument T)
    (log : List Report)
    (hs : ∀ h ∈ d.m_buffers.sensorHelpers, (h.generateSensor d.m_model).isSome = true)
    (hp : d.m_options.addSensorFramesAsAdditionalFrames = true →
      (addSensorFramesAsAdditionalFramesToModel d.m_model
        (processSensors d.m_model d.m_buffers.sensorHelpers d.m_sensors).2).1 = true) :
    (documentHasBeenParsed_sensors d log).ret = true ∧
    (documentHasBeenParsed_sensors d log).doc.m_model.links = d.m_model.links ∧
    (documentHasBeenParsed_sensors d log).doc.m_model.defaultBaseLink =
      d.m_model.defaultBaseLink := by
  have hps : (processSensors d.m_model d.m_buffers.sensorHelpers d.m_sensors).1 = true :=
    processSensors_loop_true _ _ hs _
  unfold documentHasBeenParsed_sensors
  simp only [hps, Bool.not_true, Bool.false_eq_true, if_false]
  unfold documentHasBeenParsed_frames
  by_cases ho : d.m_options.addSensorFramesAsAdditionalFrames = true
  · simp only [ho, if_true, hp ho, Bool.not_true, Bool.false_eq_true, if_false]
    obtain ⟨g1, g2⟩ := addSensorFrames_graph d.m_model
      (processSensors d.m_model d.m_buffers.sensorHelpers d.m_sensors).2
    exact ⟨rfl, g1, g2⟩
  · simp only [ho, Bool.false_eq_true, if_false]
    exact ⟨rfl, rfl, rfl⟩

/-! ### Root selection -/

/-- Without exactly one root candidate the compilation fails and the model
is reset. -/
theorem documentHasBeenParsed_of_not_one_root [One T] [Mul T] [Inv T] (d : URDFDocument T)
    (h : (d.m_model.linkNames.filter (fun n =>
        decide (n ∉ pendingChildLinks d.m_buffers.joints d.m_buffers.fixedJoints))).length ≠ 1) :
    d.documentHasBeenParsed.ret = false ∧ d.documentHasBeenParsed.doc.m_model = Model.empty := by
  unfold URDFDocument.documentHasBeenParsed
  simp only [rootCandidates_processJoints]
  by_cases h0 : (d.m_model.linkNames.filter (fun n =>
      decide (n ∉ pendingChildLinks d.m_buffers.joints d.m_buffers.fixedJoints))).isEmpty = true
  · rw [if_pos h0]
    exact ⟨rfl, rfl⟩
  · have h2 : (d.m_model.linkNames.filter (fun n =>
        decide (n ∉ pendingChildLinks d.m_buffers.joints d.m_buffers.fixedJoints))).length ≥ 2 := by
      have : (d.m_model.linkNames.filter (fun n =>
          decide (n ∉ pendingChildLinks d.m_buffers.joints d.m_buffers.fixedJoints))).length ≠ 0 := by
        intro hl
        apply h0
        rw [List.isEmpty_iff]
        exact List.length_eq_zero.mp hl
      omega
    rw [if_neg h0, if_pos h2]
    exact ⟨rfl, rfl⟩

/-- Claim C1. For every model and pending-joint mappings, if the number of
links whose name is not the child-link name of any pending joint is zero or
at least two, `documentHasBeenParsed` returns `false` and the model of the
document afterwards is the empty default-constructed model. -/
theorem documentHasBeenParsed_no_unique_root [One T] [Mul T] [Inv T] (d : URDFDocument T)
    (h : (d.m_model.linkNames.filter (fun n =>
        decide (n ∉ pendingChildLinks d.m_buffers.joints d.m_buffers.fixedJoints))).length = 0 ∨
      2 ≤ (d.m_model.linkNames.filter (fun n =>
        decide (n ∉ pendingChildLinks d.m_buffers.joints d.m_buffers.fixedJoints))).length) :
    d.documentHasBeenParsed.ret = false ∧ d.documentHasBeenParsed.doc.m_model = Model.empty :=
  documentHasBeenParsed_of_not_one_root d (by omega)

/-- Witness of claim C1: two links and no joint give two root candidates. -/
theorem documentHasBeenParsed_no_unique_root_witness :
    (2 ≤ (exDocTwoRoots.m_model.linkNames.filter (fun n =>
        decide (n ∉ pendingChildLinks exDocTwoRoots.m_buffers.joints
          exDocTwoRoots.m_buffers.fixedJoints))).length) ∧
    exDocTwoRoots.documentHasBeenParsed.ret = false ∧
    exDocTwoRoots.documentHasBeenParsed.doc.m_model = Model.empty :=
  ⟨by decide, documentHasBeenParsed_no_unique_root exDocTwoRoots (Or.inr (by decide))⟩

/-- Claim C10, counterexample. The compilation of four links `A`, `B`, `C`,
`D`, where `A` is isolated and `B`, `C`, `D` form a cycle, returns `true`
although the joints of the resulting model go from link 1 to link 2, from
link 2 to link 3 and from link 3 to link 1, a cycle, and not every link is
reachable from the default base link. -/
theorem documentHasBeenParsed_accepts_disconnected :
    exDocDisconnected.documentHasBeenParsed.ret = true ∧
    exDocDisconnected.documentHasBeenParsed.doc.m_model.joints.map
      (fun p => (p.2.link1, p.2.link2)) = [(1, 2), (2, 3), (3, 1)] ∧
    ¬ exDocDisconnected.documentHasBeenParsed.doc.m_model.Connected := by
  refine ⟨by decide, by decide, ?_⟩
  intro hc
  have hb : exDocDisconnected.documentHasBeenParsed.doc.m_model.getDefaultBaseLink = 0 := by
    decide
  have hj : exDocDisconnected.documentHasBeenParsed.doc.m_model.joints.map
      (fun p => (p.2.link1, p.2.link2)) = [(1, 2), (2, 3), (3, 1)] := by decide
  have hl : exDocDisconnected.documentHasBeenParsed.doc.m_model.links.length = 4 := by decide
  have h1 := hc 1 (by decide) (by rw [hl]; decide)
  rw [hb] at h1
  have key : ∀ b : Int, Relation.ReflTransGen
      exDocDisconnected.documentHasBeenParsed.doc.m_model.Adjacent 0 b → b = 0 := by
    intro b hr
    induction hr with
    | refl => rfl
    | tail _ hstep ih =>
      subst ih
      obtain ⟨p, hp, he⟩ := hstep
      have hm : (p.2.link1, p.2.link2) ∈
          exDocDisconnected.documentHasBeenParsed.doc.m_model.joints.map
            (fun p => (p.2.link1, p.2.link2)) := List.mem_map_of_mem _ hp
      rw [hj] at hm
      simp only [List.mem_cons, Prod.mk.injEq, List.mem_singleton, List.not_mem_nil,
        or_false] at hm
      omega
  have := key 1 h1
  omega

/-! ### Failures after root selection -/

/-- Claim C3, the code at the failing input. With one link, no joint and a
sensor helper that produces no sensor, `documentHasBeenParsed` returns
`false` and the model of the document still holds the link: it is not the
empty model. -/
theorem documentHasBeenParsed_sensor_failure_keeps_model :
    exDocSensorFailure.documentHasBeenParsed.ret = false ∧
    exDocSensorFailure.documentHasBeenParsed.doc.m_model.links = [("A", exLink 1)] ∧
    (Model.empty : Model Rat).links = [] := by
  decide

theorem shapes_ret [One T] [Mul T] (d : URDFDocument T) (log : List Report) :
    (documentHasBeenParsed_shapes d log).ret = true := rfl

theorem frames_ret_congr [One T] [Mul T] (d e : URDFDocument T) (log log' : List Report)
    (h1 : d.m_model = e.m_model) (h2 : d.m_sensors = e.m_sensors) (h3 : d.m_options = e.m_options) :
    (documentHasBeenParsed_frames d log).ret = (documentHasBeenParsed_frames e log').ret := by
  unfold documentHasBeenParsed_frames
  rw [h1, h2, h3]
  by_cases ho : e.m_options.addSensorFramesAsAdditionalFrames = true
  · rw [if_pos ho, if_pos ho]
    by_cases hr : (!(addSensorFramesAsAdditionalFramesToModel e.m_model e.m_sensors).1) = true
    · simp only [hr, if_true]
    · simp only [hr, Bool.false_eq_true, if_false, shapes_ret]
  · rw [if_neg ho, if_neg ho, shapes_ret, shapes_ret]

theorem sensors_ret_congr [One T] [Mul T] (d e : URDFDocument T) (log log' : List Report)
    (h1 : d.m_model = e.m_model) (h2 : d.m_sensors = e.m_sensors) (h3 : d.m_options = e.m_options)
    (h4 : d.m_buffers.sensorHelpers = e.m_buffers.sensorHelpers) :
    (documentHasBeenParsed_sensors d log).ret = (documentHasBeenParsed_sensors e log').ret := by
  unfold documentHasBeenParsed_sensors
  simp only [h1, h2, h4]
  split_ifs
  · rfl
  · exact frames_ret_congr _ _ _ _ rfl rfl h3

theorem clean_ret_congr [One T] [Mul T] [Inv T] (d e : URDFDocument T) (log log' : List Report)
    (h1 : d.m_model = e.m_model) (h2 : d.m_sensors = e.m_sensors) (h3 : d.m_options = e.m_options)
    (h4 : d.m_buffers.sensorHelpers = e.m_buffers.sensorHelpers) :
    (documentHasBeenParsed_clean d log).ret = (documentHasBeenParsed_clean e log').ret := by
  unfold documentHasBeenParsed_clean
  simp only [h1]
  split_ifs
  · rfl
  · exact sensors_ret_congr _ _ _ _ rfl h2 h3 h4

/-! ### The classification of a link -/

/-- Claim C5, counterexample. A link of mass -1 with a single neighbour
attached by a fixed joint is classified fake, although its mass is not
0. -/
theorem isFakeLink_negative_mass :
    ¬ (isFakeLink exNegativeMass 1 = true ↔
      ((exNegativeMass.getLink 1).map (fun l => l.getInertia.getMass) = some 0 ∧
        exNegativeMass.getNrOfNeighbors 1 = 1 ∧
        (exNegativeMass.getJoint (exNegativeMass.getNeighbor 1 0).neighborJoint).map
          IJoint.getNrOfDOFs = some 0)) := by
  decide

/-- Claim C5, amended. For every model and every valid link index,
`isFakeLink` returns `true` if and only if the mass of the link is not
greater than 0, the link has exactly one neighbour, and the joint to that
neighbour has zero degrees of freedom. -/
theorem isFakeLink_spec (m : Model T) (i : Int) (link : Link) (h : m.getLink i = some link) :
    isFakeLink m i = true ↔
      (¬ (0 < link.getInertia.getMass) ∧ m.getNrOfNeighbors i = 1 ∧
        (m.getJoint (m.getNeighbor i 0).neighborJoint).map IJoint.getNrOfDOFs = some 0) := by
  rw [isFakeLink_iff, h]
  constructor
  · rintro ⟨l, hl, h1, h2, j, hj, hd⟩
    simp only [Option.some.injEq] at hl
    subst hl
    exact ⟨h1, h2, by simp [hj, hd]⟩
  · rintro ⟨h1, h2, h3⟩
    simp only [Option.map_eq_some'] at h3
    obtain ⟨j, hj, hd⟩ := h3
    exact ⟨link, rfl, h1, h2, j, hj, hd⟩

/-- Witness of claim C5 (amended). -/
theorem isFakeLink_spec_witness :
    exNegativeMass.getLink 1 = some (exLink (-1)) ∧
    (isFakeLink exNegativeMass 1 = true ↔
      (¬ (0 < (exLink (-1)).getInertia.getMass) ∧ exNegativeMass.getNrOfNeighbors 1 = 1 ∧
        (exNegativeMass.getJoint (exNegativeMass.getNeighbor 1 0).neighborJoint).map
          IJoint.getNrOfDOFs = some 0)) :=
  ⟨by decide, isFakeLink_spec exNegativeMass 1 (exLink (-1)) (by decide)⟩

/-! ### Fake link removal -/

/-- Claim C7. For every input model with unique link names and unique
joint names (a well-formed model), the output of `removeFakeLinks` contains
the name of each link that is not fake exactly once and the name of each
joint that is not attached to a fake link exactly once, contains no other
link or joint name, and the new index of a surviving link (joint) is the
number of surviving links (joints) that precede it in the input model. -/
theorem removeFakeLinks_reindexing [Inv T] (m : Model T) (wf : m.WellFormed) :
    (∀ i : Nat, i < m.links.length → isFakeLink m (i : Int) = false →
      (removeFakeLinks m).2.linkNames.count (m.getLinkName (i : Int)) = 1 ∧
      (removeFakeLinks m).2.getLinkIndex (m.getLinkName (i : Int)) =
        (((List.range i).filter (fun k : Nat => !isFakeLink m (k : Int))).length : Int)) ∧
    (∀ n ∈ (removeFakeLinks m).2.linkNames,
      ∃ i : Nat, i < m.links.length ∧ isFakeLink m (i : Int) = false ∧
        m.getLinkName (i : Int) = n) ∧
    (∀ k : Nat, k < m.joints.length → jointTouchesFakeLink m (k : Int) = false →
      (removeFakeLinks m).2.jointNames.count (m.getJointName (k : Int)) = 1 ∧
      (removeFakeLinks m).2.getJointIndex (m.getJointName (k : Int)) =
        (((List.range k).filter (fun q : Nat => !jointTouchesFakeLink m (q : Int))).length : Int)) ∧
    (∀ n ∈ (removeFakeLinks m).2.jointNames,
      ∃ k : Nat, k < m.joints.length ∧ jointTouchesFakeLink m (k : Int) = false ∧
        m.getJointName (k : Int) = n) := by
  obtain ⟨hl, hj, -⟩ := removeFakeLinks_output m wf
  have hln : (removeFakeLinks m).2.linkNames =
      m.linkNames.filter (fun n => decide (n ∉ (removeFakeLinks_scan m).linksToRemove)) := by
    unfold Model.linkNames at *
    rw [hl]; exact survivingLinks_names m
  have hjn : (removeFakeLinks m).2.jointNames =
      m.jointNames.filter (fun n => decide (n ∉ (removeFakeLinks_scan m).jointsToRemove)) := by
    unfold Model.jointNames at *
    rw [hj, remapJoint_names]; exact survivingJoints_names m
  have hlen : m.linkNames.length = m.links.length := by simp [Model.linkNames]
  have hjlen : m.jointNames.length = m.joints.length := by simp [Model.jointNames]
  have hPl : ∀ k (hk : k < m.linkNames.length),
      (fun n => decide (n ∉ (removeFakeLinks_scan m).linksToRemove)) m.linkNames[k] =
        (fun k : Nat => !isFakeLink m (k : Int)) k := by
    intro k hk
    have hk' : k < m.links.length := by omega
    have e : m.linkNames[k] = m.getLinkName (k : Int) := by
      rw [m.getLinkName_natCast k hk']; simp [Model.linkNames]
    simp only [e]
    have := getLinkName_mem_linksToRemove m wf.linkNames_nodup (k : Int) (by omega) (by omega)
    by_cases hf : isFakeLink m (k : Int) = true
    · simp [hf, this.mpr hf]
    · have hnm : m.getLinkName (k : Int) ∉ (removeFakeLinks_scan m).linksToRemove :=
        fun h => hf (this.mp h)
      simp [hf, hnm]
  have hPj : ∀ k (hk : k < m.jointNames.length),
      (fun n => decide (n ∉ (removeFakeLinks_scan m).jointsToRemove)) m.jointNames[k] =
        (fun k : Nat => !jointTouchesFakeLink m (k : Int)) k := by
    intro k hk
    have hk' : k < m.joints.length := by omega
    have e : m.jointNames[k] = (m.joints[k]).1 := by simp [Model.jointNames]
    simp only [e]
    have := jointName_mem_jointsToRemove m wf.jointNames_nodup k hk'
    by_cases hf : jointTouchesFakeLink m (k : Int) = true
    · simp [hf, this.mpr hf]
    · have hnm : (m.joints[k]).1 ∉ (removeFakeLinks_scan m).jointsToRemove :=
        fun h => hf (this.mp h)
      simp [hf, hnm]
  obtain ⟨a1, a2⟩ := filter_reindex m.linkNames wf.linkNames_nodup
    (fun n => decide (n ∉ (removeFakeLinks_scan m).linksToRemove))
    (fun k : Nat => !isFakeLink m (k : Int)) hPl
  obtain ⟨b1, b2⟩ := filter_reindex m.jointNames wf.jointNames_nodup
    (fun n => decide (n ∉ (removeFakeLinks_scan m).jointsToRemove))
    (fun k : Nat => !jointTouchesFakeLink m (k : Int)) hPj
  refine ⟨?_, ?_, ?_, ?_⟩
  · intro i hi hf
    have hb1 : i < m.linkNames.length := by omega
    have e : m.getLinkName (i : Int) = m.linkNames[i] := by
      rw [m.getLinkName_natCast i hi]; simp [Model.linkNames]
    unfold Model.getLinkIndex
    rw [hln, e]
    exact a1 i (by omega) (by simp [hf])
  · intro n hnm
    rw [hln] at hnm
    obtain ⟨i, hi, hk, he⟩ := a2 n hnm
    refine ⟨i, by omega, by simpa using hk, ?_⟩
    rw [m.getLinkName_natCast i (by omega), ← he]; simp [Model.linkNames]
  · intro k hk hf
    have hb1 : k < m.jointNames.length := by omega
    have e : m.getJointName (k : Int) = m.jointNames[k] := by
      rw [m.getJointName_natCast k hk]; simp [Model.jointNames]
    unfold Model.getJointIndex
    rw [hjn, e]
    exact b1 k (by omega) (by simp [hf])
  · intro n hnm
    rw [hjn] at hnm
    obtain ⟨k, hk, hkk, he⟩ := b2 n hnm
    refine ⟨k, by omega, by simpa using hkk, ?_⟩
    rw [m.getJointName_natCast k (by omega), ← he]; simp [Model.jointNames]

/-- Claim C8. For every (well-formed) input model in which no fake link's
single neighbour is itself fake, and for every link that `removeFakeLinks`
removes, the output model has an additional frame named after the removed
link, attached to the link that was its single neighbour (found by its
name in the output model), whose transform is the rest transform of the
removed joint from the neighbour link to the fake link. -/
theorem removeFakeLinks_frames [Inv T] (m : Model T) (wf : m.WellFormed)
    (hno : ∀ i : Int, isFakeLink m i = true →
      isFakeLink m (m.getNeighbor i 0).neighborLink = false)
    (i : Int) (hf : isFakeLink m i = true) :
    m.getLinkName i ∉ (removeFakeLinks m).2.linkNames ∧
    ∃ j, m.getJoint (m.getNeighbor i 0).neighborJoint = some j ∧
      (⟨m.getLinkName i,
        (removeFakeLinks m).2.getLinkIndex (m.getLinkName (m.getNeighbor i 0).neighborLink),
        j.getRestTransform (m.getNeighbor i 0).neighborLink i⟩ : AdditionalFrame T) ∈
          (removeFakeLinks m).2.frames ∧
      (removeFakeLinks m).2.getLinkName
        ((removeFakeLinks m).2.getLinkIndex (m.getLinkName (m.getNeighbor i 0).neighborLink)) =
          m.getLinkName (m.getNeighbor i 0).neighborLink := by
  obtain ⟨hl, -, hfr⟩ := removeFakeLinks_output m wf
  have hln : (removeFakeLinks m).2.linkNames = (survivingLinks m).map Prod.fst := by
    unfold Model.linkNames; rw [hl]
  obtain ⟨h0, h1⟩ := isFakeLink_valid m i hf
  obtain ⟨n0, n1⟩ := isFakeLink_neighbor_valid m wf i hf
  have hrem : m.getLinkName i ∈ (removeFakeLinks_scan m).linksToRemove :=
    (getLinkName_mem_linksToRemove m wf.linkNames_nodup i h0 h1).mpr hf
  refine ⟨?_, ?_⟩
  · rw [hln, mem_survivingLinks_names]
    exact fun h => h.2 hrem
  · obtain ⟨j, hj, hff⟩ := fakeLinkFrame_of_fake m wf i hf (hno i hf)
    refine ⟨j, hj, ?_, ?_⟩
    · rw [hfr, List.mem_filterMap]
      have hk : i.toNat < m.links.length := by omega
      refine ⟨m.links[i.toNat], ?_, ?_⟩
      · unfold removedLinks
        rw [List.mem_filter]
        refine ⟨List.getElem_mem _, ?_⟩
        have e : (m.links[i.toNat]).1 = m.getLinkName i := by
          rw [← m.getLinkName_natCast i.toNat hk, Int.toNat_of_nonneg h0]
        simp only [e, decide_eq_true_eq]
        exact hrem
      · have e : (m.links[i.toNat]).1 = m.getLinkName i := by
          rw [← m.getLinkName_natCast i.toNat hk, Int.toNat_of_nonneg h0]
        simp only [e]
        rw [hff]
        unfold Model.getLinkIndex
        rw [hln]
    · apply Model.getLinkName_getLinkIndex
      rw [hln]
      exact getLinkName_mem_survivingLinks m wf.linkNames_nodup _ n0 n1 (by simp [hno i hf])

/-- Claim C6. For a (well-formed) model with exactly two links, `A` with
positive mass and `B` with mass 0, and a single joint with zero degrees of
freedom between `A` and `B`, in either orientation, `removeFakeLinks`
succeeds and its output has exactly one link (`A`), no joint, default base
link `A`, and one additional frame named after `B`, attached to `A`, whose
transform is the rest transform of the joint from `A` to `B`. -/
theorem removeFakeLinks_two_links [Inv T] (m : Model T) (wf : m.WellFormed) (a b : Int)
    (la lb : Link) (jn : String) (j : IJoint T)
    (hlen : m.links.length = 2) (hjs : m.joints = [(jn, j)])
    (ha : m.getLink a = some la) (hb : m.getLink b = some lb)
    (hma : 0 < la.getInertia.getMass) (hmb : lb.getInertia.getMass = 0)
    (hd : j.getNrOfDOFs = 0)
    (hends : (j.link1 = a ∧ j.link2 = b) ∨ (j.link1 = b ∧ j.link2 = a)) :
    (removeFakeLinks m).1 = true ∧
    (removeFakeLinks m).2.links = [(m.getLinkName a, la)] ∧
    (removeFakeLinks m).2.joints = [] ∧
    (removeFakeLinks m).2.getDefaultBaseLink = 0 ∧
    (removeFakeLinks m).2.frames = [⟨m.getLinkName b, 0, j.getRestTransform a b⟩] := by
  have hjlen : m.joints.length = 1 := by rw [hjs]; rfl
  have hb0 : 0 < m.joints.length := by omega
  have hj0 : m.joints[0] = (jn, j) := by simp [hjs]
  obtain ⟨v1, v2, v3, v4, v5⟩ := wf.joints_valid (jn, j) (by rw [hjs]; simp)
  simp only at v1 v2 v3 v4 v5
  have hab : a ≠ b := by
    rcases hends with ⟨h1, h2⟩ | ⟨h1, h2⟩
    · rw [← h1, ← h2]; exact v5
    · rw [← h1, ← h2]; exact fun h => v5 h.symm
  have hav : 0 ≤ a ∧ a < 2 := by
    rcases hends with ⟨h1, h2⟩ | ⟨h1, h2⟩ <;> omega
  have hbv : 0 ≤ b ∧ b < 2 := by
    rcases hends with ⟨h1, h2⟩ | ⟨h1, h2⟩ <;> omega
  -- the classification of the two links
  have hfa : isFakeLink m a = false := by
    cases h : isFakeLink m a with
    | false => rfl
    | true =>
      obtain ⟨l, hl, hm, -⟩ := (isFakeLink_iff m a).mp h
      rw [ha] at hl
      simp only [Option.some.injEq] at hl
      subst hl
      exact absurd hma hm
  have hnb : m.neighbors b = [⟨a, 0⟩] := by
    unfold Model.neighbors
    rw [hjs]
    rcases hends with ⟨h1, h2⟩ | ⟨h1, h2⟩
    · have : ¬ j.link1 = b := by rw [h1]; exact hab
      simp [Model.neighborsFrom, h1, h2, hab]
    · have : ¬ j.link2 = b := by rw [h2]; exact hab
      simp [Model.neighborsFrom, h1, h2, hab]
  have hgn : m.getNeighbor b 0 = ⟨a, 0⟩ := by
    unfold Model.getNeighbor; rw [hnb]; rfl
  have hgj : m.getJoint 0 = some j := by
    have := m.getJoint_natCast 0 (by omega)
    rw [hj0] at this
    simpa using this
  have hfb : isFakeLink m b = true := by
    rw [isFakeLink_iff]
    refine ⟨lb, hb, by rw [hmb]; simp, ?_, j, ?_, hd⟩
    · unfold Model.getNrOfNeighbors; rw [hnb]; rfl
    · rw [hgn]; exact hgj
  -- the surviving and the removed links
  have hna := getLinkName_mem_linksToRemove m wf.linkNames_nodup a hav.1 (by omega)
  have hnb' := getLinkName_mem_linksToRemove m wf.linkNames_nodup b hbv.1 (by omega)
  have hra : m.getLinkName a ∉ (removeFakeLinks_scan m).linksToRemove := by
    intro h; have := hna.mp h; rw [hfa] at this; exact absurd this (by simp)
  have hrb : m.getLinkName b ∈ (removeFakeLinks_scan m).linksToRemove := hnb'.mpr hfb
  have hpa : ∃ ka : Nat, ∃ hka : ka < m.links.length, a = (ka : Int) ∧
      m.links[ka] = (m.getLinkName a, la) := by
    obtain ⟨k, hk, e, hl⟩ := m.getLink_eq_some a la ha
    refine ⟨k, hk, e, ?_⟩
    rw [e, m.getLinkName_natCast k hk]
    rw [List.getElem?_eq_getElem hk] at hl
    simp only [Option.map_some', Option.some.injEq] at hl
    exact Prod.ext rfl hl
  have hpb : ∃ kb : Nat, ∃ hkb : kb < m.links.length, b = (kb : Int) ∧
      m.links[kb] = (m.getLinkName b, lb) := by
    obtain ⟨k, hk, e, hl⟩ := m.getLink_eq_some b lb hb
    refine ⟨k, hk, e, ?_⟩
    rw [e, m.getLinkName_natCast k hk]
    rw [List.getElem?_eq_getElem hk] at hl
    simp only [Option.map_some', Option.some.injEq] at hl
    exact Prod.ext rfl hl
  obtain ⟨ka, hka, eka, hla⟩ := hpa
  obtain ⟨kb, hkb, ekb, hlb⟩ := hpb
  have hlinks : m.links = [(m.getLinkName a, la), (m.getLinkName b, lb)] ∨
      m.links = [(m.getLinkName b, lb), (m.getLinkName a, la)] := by
    match hm : m.links, hlen with
    | [x, y], _ =>
      simp only [hm] at hla hlb
      have hk : (ka = 0 ∧ kb = 1) ∨ (ka = 1 ∧ kb = 0) := by omega
      rcases hk with ⟨rfl, rfl⟩ | ⟨rfl, rfl⟩
      · left; simp only [List.getElem_cons_zero, List.getElem_cons_succ] at hla hlb
        rw [hla, hlb]
      · right; simp only [List.getElem_cons_zero, List.getElem_cons_succ] at hla hlb
        rw [hla, hlb]
  have hsurv : survivingLinks m = [(m.getLinkName a, la)] := by
    unfold survivingLinks
    rcases hlinks with h | h <;> rw [h] <;> simp [List.filter_cons, hra, hrb]
  have hrem : removedLinks m = [(m.getLinkName b, lb)] := by
    unfold removedLinks
    rcases hlinks with h | h <;> rw [h] <;> simp [List.filter_cons, hra, hrb]
  have hsj : survivingJoints m = [] := by
    unfold survivingJoints
    rw [hjs]
    have : jn ∈ (removeFakeLinks_scan m).jointsToRemove := by
      have h := (jointName_mem_jointsToRemove m wf.jointNames_nodup 0 (by omega)).mpr (by
        unfold jointTouchesFakeLink
        simp only [Nat.cast_zero, hgj, IJoint.getFirstAttachedLink, IJoint.getSecondAttachedLink]
        rcases hends with ⟨h1, h2⟩ | ⟨h1, h2⟩
        · rw [h2, hfb]; simp
        · rw [h1, hfb]; simp)
      rw [hj0] at h
      exact h
    simp [List.filter_cons, this]
  have hframe : fakeLinkFrame m [m.getLinkName a] (m.getLinkName b) =
      some ⟨m.getLinkName b, 0, j.getRestTransform a b⟩ := by
    unfold fakeLinkFrame
    simp only [m.getLinkIndex_getLinkName wf.linkNames_nodup b hbv.1 (by omega), hgn, hgj]
    have : Model.indexOfName [m.getLinkName a] (m.getLinkName a) = 0 := by
      simp [Model.indexOfName]
    simp [this]
  -- the name of the new default base link
  have hbase : (removeFakeLinks_scan m).newDefaultBaseLink = m.getLinkName a := by
    rw [newDefaultBaseLink_eq]
    obtain ⟨b0, b1⟩ := wf.base_valid (by intro h; rw [h] at hlen; simp at hlen)
    have hcases : m.getDefaultBaseLink = a ∨ m.getDefaultBaseLink = b := by
      unfold Model.getDefaultBaseLink; omega
    rcases hcases with h | h
    · rw [h, hfa]; simp
    · rw [h, hfb, hgn]; simp
  have hbuild := removeFakeLinks_build_eq m wf
  rw [hsurv, hrem, hsj] at hbuild
  simp only [List.map_cons, List.map_nil, List.filterMap_cons, List.filterMap_nil, hframe]
    at hbuild
  unfold removeFakeLinks
  simp only [hbase, hbuild]
  have hidx : Model.indexOfName [m.getLinkName a] (m.getLinkName a) = 0 := by
    simp [Model.indexOfName]
  simp [Model.setDefaultBaseLink, Model.getLinkIndex, Model.linkNames, Model.ofLinks, hidx,
    Model.getNrOfLinks, Model.getDefaultBaseLink]

/-- Claim C2, amended. For every (well-formed) model with exactly one link
name `r` absent from the child-link set, whose sensor helpers all produce a
sensor and whose sensor frames, if their publication is enabled, are
published without error: if the link `r` is not classified fake once the
joints are attached, `documentHasBeenParsed` returns `true` and the default
base link of the resulting model is the link `r`; if it is classified fake
and its single neighbour is not, `documentHasBeenParsed` returns `true` and
the default base link is that neighbour. Connectivity and acyclicity of
the joint graph are not needed. -/
theorem documentHasBeenParsed_base [One T] [Mul T] [Inv T] (d : URDFDocument T)
    (wf : d.m_model.WellFormed) (r : String)
    (hroot : d.m_model.linkNames.filter (fun n =>
      decide (n ∉ pendingChildLinks d.m_buffers.joints d.m_buffers.fixedJoints)) = [r])
    (hs : ∀ h ∈ d.m_buffers.sensorHelpers,
      (h.generateSensor (normalizedModel d r)).isSome = true)
    (hp : d.m_options.addSensorFramesAsAdditionalFrames = true →
      (addSensorFramesAsAdditionalFramesToModel (normalizedModel d r)
        (processSensors (normalizedModel d r) d.m_buffers.sensorHelpers d.m_sensors).2).1 = true) :
    (isFakeLink (attachedModel d) ((attachedModel d).getLinkIndex r) = false →
      d.documentHasBeenParsed.ret = true ∧
      d.documentHasBeenParsed.doc.m_model.getLinkName
        d.documentHasBeenParsed.doc.m_model.getDefaultBaseLink = r) ∧
    (isFakeLink (attachedModel d) ((attachedModel d).getLinkIndex r) = true →
      isFakeLink (attachedModel d)
        ((attachedModel d).getNeighbor ((attachedModel d).getLinkIndex r) 0).neighborLink = false →
      d.documentHasBeenParsed.ret = true ∧
      d.documentHasBeenParsed.doc.m_model.getLinkName
        d.documentHasBeenParsed.doc.m_model.getDefaultBaseLink =
          (attachedModel d).getLinkName
            ((attachedModel d).getNeighbor ((attachedModel d).getLinkIndex r) 0).neighborLink) := by
  have wf1 : (attachedModel d).WellFormed := processJoints_wellFormed _ wf _ _
  have hl1 : (attachedModel d).links = d.m_model.links := processJoints_links _ _ _
  have hrmem : r ∈ (attachedModel d).linkNames := by
    have : r ∈ d.m_model.linkNames.filter (fun n =>
        decide (n ∉ pendingChildLinks d.m_buffers.joints d.m_buffers.fixedJoints)) := by
      rw [hroot]; simp
    unfold Model.linkNames at *
    rw [hl1]
    exact (List.mem_filter.mp this).1
  obtain ⟨k, hk, ek, -⟩ := indexOfName_mem _ _ hrmem
  have hk' : k < (attachedModel d).links.length := by simpa [Model.linkNames] using hk
  have hidx : (attachedModel d).getLinkIndex r = (k : Int) := ek
  have hname : (attachedModel d).getLinkName (k : Int) = r := by
    rw [← hidx]; exact Model.getLinkName_getLinkIndex _ _ hrmem
  have hset : (attachedModel d).setDefaultBaseLink ((attachedModel d).getLinkIndex r) =
      (true, { attachedModel d with defaultBaseLink := (k : Int) }) := by
    rw [hidx]; exact Model.setDefaultBaseLink_of_valid _ _ (by omega) (by omega)
  have wf2 : ({ attachedModel d with defaultBaseLink := (k : Int) } : Model T).WellFormed :=
    Model.wellFormed_setBase _ wf1 _ (by omega) (by omega)
  have hnorm : normalizedModel d r =
      (removeFakeLinks ({ attachedModel d with defaultBaseLink := (k : Int) } : Model T)).2 := by
    unfold normalizedModel; rw [hset]
  -- the document after root selection
  have hdoc : d.documentHasBeenParsed = documentHasBeenParsed_clean
      { d with
        m_model := { attachedModel d with defaultBaseLink := (k : Int) },
        m_buffers := { d.m_buffers with
          joints := (processJoints d.m_model d.m_buffers.joints d.m_buffers.fixedJoints).joints,
          fixedJoints :=
            (processJoints d.m_model d.m_buffers.joints d.m_buffers.fixedJoints).fixed_joints } }
      (processJoints d.m_model d.m_buffers.joints d.m_buffers.fixedJoints).log := by
    unfold URDFDocument.documentHasBeenParsed
    simp only [rootCandidates_processJoints, hroot]
    have := hset
    unfold attachedModel at this
    simp only [List.isEmpty_cons, Bool.false_eq_true, if_false, List.length_singleton,
      ge_iff_le, Nat.not_ofNat_le_one, List.headD_cons, this]
    rfl
  -- success of the remaining stages, given the name of the new base
  have hfinish : (removeFakeLinks_scan
        ({ attachedModel d with defaultBaseLink := (k : Int) } : Model T)).newDefaultBaseLink ∈
        (survivingLinks ({ attachedModel d with defaultBaseLink := (k : Int) } : Model T)).map
          Prod.fst →
      d.documentHasBeenParsed.ret = true ∧
      d.documentHasBeenParsed.doc.m_model.getLinkName
        d.documentHasBeenParsed.doc.m_model.getDefaultBaseLink =
        (removeFakeLinks_scan
          ({ attachedModel d with defaultBaseLink := (k : Int) } : Model T)).newDefaultBaseLink := by
    intro hmem
    obtain ⟨r1, r2⟩ := removeFakeLinks_base _ wf2 hmem
    rw [hdoc]
    unfold documentHasBeenParsed_clean
    simp only [r1, Bool.not_true, Bool.false_eq_true, if_false]
    obtain ⟨s1, s2, s3⟩ := documentHasBeenParsed_sensors_ok
      ({ d with
        m_model := (removeFakeLinks
          ({ attachedModel d with defaultBaseLink := (k : Int) } : Model T)).2,
        m_buffers := { d.m_buffers with
          joints := (processJoints d.m_model d.m_buffers.joints d.m_buffers.fixedJoints).joints,
          fixedJoints :=
            (processJoints d.m_model d.m_buffers.joints d.m_buffers.fixedJoints).fixed_joints } } :
        URDFDocument T)
      (processJoints d.m_model d.m_buffers.joints d.m_buffers.fixedJoints).log
      (by rw [← hnorm]; exact hs) (by rw [← hnorm]; exact hp)
    refine ⟨s1, ?_⟩
    rw [Model.getLinkName_congr _ _ s2]
    unfold Model.getDefaultBaseLink at r2 ⊢
    rw [s3]
    exact r2
  have hnd := newDefaultBaseLink_eq ({ attachedModel d with defaultBaseLink := (k : Int) } : Model T)
  have hfk : ∀ x, isFakeLink ({ attachedModel d with defaultBaseLink := (k : Int) } : Model T) x =
      isFakeLink (attachedModel d) x := fun _ => rfl
  have hgn : ∀ x, ({ attachedModel d with defaultBaseLink := (k : Int) } : Model T).getLinkName x =
      (attachedModel d).getLinkName x := fun _ => rfl
  have hnb : ∀ x, ({ attachedModel d with defaultBaseLink := (k : Int) } : Model T).getNeighbor x 0 =
      (attachedModel d).getNeighbor x 0 := fun _ => rfl
  simp only [Model.getDefaultBaseLink, hfk, hgn, hnb] at hnd
  rw [hidx]
  constructor
  · intro hf
    rw [hf] at hnd
    simp only [Bool.false_eq_true, if_false, hname] at hnd
    rw [← hnd]
    apply hfinish
    rw [hnd, ← hname]
    exact getLinkName_mem_survivingLinks _ wf2.linkNames_nodup (k : Int) (by omega)
      (by show (k : Int) < ((attachedModel d).links.length : Int); omega)
      (by rw [hfk, hf]; simp)
  · intro hf hnf
    rw [hf] at hnd
    simp only [if_true] at hnd
    rw [← hnd]
    apply hfinish
    rw [hnd]
    obtain ⟨n0, n1⟩ := isFakeLink_neighbor_valid _ wf1 _ hf
    exact getLinkName_mem_survivingLinks _ wf2.linkNames_nodup _ n0 n1 (by rw [hfk, hnf]; simp)

/-! ### The examples -/

theorem exTwoLinks_wellFormed : exTwoLinks.WellFormed :=
  ⟨by decide, by decide, by decide, by decide⟩

theorem exChain_wellFormed : exChain.WellFormed :=
  ⟨by decide, by decide, by decide, by decide⟩

theorem exDocFakeRoot_wellFormed : exDocFakeRoot.m_model.WellFormed :=
  ⟨by decide, by decide, by decide, by decide⟩

/-- In `exTwoLinks` the only fake link is `B`, and its neighbour `A` is not
fake and has a positive mass. -/
theorem exTwoLinks_fake (i : Int) (hf : isFakeLink exTwoLinks i = true) :
    i = 1 ∧ (exTwoLinks.getNeighbor i 0).neighborLink = 0 := by
  obtain ⟨h0, h1⟩ := isFakeLink_valid exTwoLinks i hf
  have h2 : i < 2 := h1
  interval_cases i
  · exact absurd hf (by decide)
  · exact ⟨rfl, by decide⟩

/-- In `exChain` the only fake link is `C`, and its neighbour is `B`. -/
theorem exChain_fake (i : Int) (hf : isFakeLink exChain i = true) :
    i = 2 ∧ (exChain.getNeighbor i 0).neighborLink = 1 := by
  obtain ⟨h0, h1⟩ := isFakeLink_valid exChain i hf
  have h2 : i < 3 := h1
  interval_cases i
  · exact absurd hf (by decide)
  · exact absurd hf (by decide)
  · exact ⟨rfl, by decide⟩

/-! ### Claims on `removeFakeLinks` and on the default base link -/

/-- Witness of claim C6. -/
theorem removeFakeLinks_two_links_witness :
    exTwoLinks.WellFormed ∧
    ((removeFakeLinks exTwoLinks).1 = true ∧
      (removeFakeLinks exTwoLinks).2.links = [(exTwoLinks.getLinkName 0, exLink 5)] ∧
      (removeFakeLinks exTwoLinks).2.joints = [] ∧
      (removeFakeLinks exTwoLinks).2.getDefaultBaseLink = 0 ∧
      (removeFakeLinks exTwoLinks).2.frames =
        [⟨exTwoLinks.getLinkName 1, 0,
          ({ exFixed with link1 := 0, link2 := 1 } : IJoint Rat).getRestTransform 0 1⟩]) :=
  ⟨exTwoLinks_wellFormed,
    removeFakeLinks_two_links exTwoLinks exTwoLinks_wellFormed 0 1 (exLink 5) (exLink 0) "j"
      { exFixed with link1 := 0, link2 := 1 } (by decide) (by decide) (by decide) (by decide)
      (by decide) (by decide) (by decide) (Or.inl ⟨rfl, rfl⟩)⟩

/-- Witness of claim C7, on the chain `A`, `B`, `C`: the surviving link `B`
and the surviving joint `j1`. -/
theorem removeFakeLinks_reindexing_witness :
    exChain.WellFormed ∧
    ((removeFakeLinks exChain).2.linkNames.count (exChain.getLinkName ((1 : Nat) : Int)) = 1 ∧
      (removeFakeLinks exChain).2.getLinkIndex (exChain.getLinkName ((1 : Nat) : Int)) =
        (((List.range 1).filter (fun k : Nat => !isFakeLink exChain (k : Int))).length : Int)) ∧
    ((removeFakeLinks exChain).2.jointNames.count (exChain.getJointName ((0 : Nat) : Int)) = 1 ∧
      (removeFakeLinks exChain).2.getJointIndex (exChain.getJointName ((0 : Nat) : Int)) =
        (((List.range 0).filter
          (fun q : Nat => !jointTouchesFakeLink exChain (q : Int))).length : Int)) :=
  ⟨exChain_wellFormed,
    (removeFakeLinks_reindexing exChain exChain_wellFormed).1 1 (by decide) (by decide),
    (removeFakeLinks_reindexing exChain exChain_wellFormed).2.2.1 0 (by decide) (by decide)⟩

/-- Witness of claim C8: the frame `B` of the two-link example. -/
theorem removeFakeLinks_frames_witness :
    exTwoLinks.WellFormed ∧ isFakeLink exTwoLinks 1 = true ∧
    (exTwoLinks.getLinkName 1 ∉ (removeFakeLinks exTwoLinks).2.linkNames ∧
    ∃ j, exTwoLinks.getJoint (exTwoLinks.getNeighbor 1 0).neighborJoint = some j ∧
      (⟨exTwoLinks.getLinkName 1,
        (removeFakeLinks exTwoLinks).2.getLinkIndex
          (exTwoLinks.getLinkName (exTwoLinks.getNeighbor 1 0).neighborLink),
        j.getRestTransform (exTwoLinks.getNeighbor 1 0).neighborLink 1⟩ : AdditionalFrame Rat) ∈
          (removeFakeLinks exTwoLinks).2.frames ∧
      (removeFakeLinks exTwoLinks).2.getLinkName
        ((removeFakeLinks exTwoLinks).2.getLinkIndex
          (exTwoLinks.getLinkName (exTwoLinks.getNeighbor 1 0).neighborLink)) =
          exTwoLinks.getLinkName (exTwoLinks.getNeighbor 1 0).neighborLink) :=
  ⟨exTwoLinks_wellFormed, by decide,
    removeFakeLinks_frames exTwoLinks exTwoLinks_wellFormed
      (fun i hf => by rw [(exTwoLinks_fake i hf).2]; decide) 1 (by decide)⟩

/-- Claim C9, counterexample. In the chain `A`, `B`, `C` only `C` is fake,
so no two fake links are adjacent; after `removeFakeLinks` the link `B` is
massless, has a single neighbour and a fixed joint: it is fake in the
output model. -/
theorem removeFakeLinks_leaves_fake_link :
    (∀ i : Int, isFakeLink exChain i = true →
      isFakeLink exChain (exChain.getNeighbor i 0).neighborLink = false) ∧
    (removeFakeLinks exChain).1 = true ∧
    isFakeLink (removeFakeLinks exChain).2 1 = true :=
  ⟨fun i hf => by rw [(exChain_fake i hf).2]; decide, by decide, by decide⟩

/-- Claim C2, counterexample. Links `A` (mass 5) and `B` (mass 0) with one
fixed joint of parent `B` and child `A`: the joint graph is a tree, `B` is
the only link absent from the child-link set, there is no sensor, and
`documentHasBeenParsed` returns `true` with default base link `A`, not
`B`. -/
theorem documentHasBeenParsed_fake_root_promoted :
    exDocFakeRoot.m_model.linkNames.filter (fun n =>
      decide (n ∉ pendingChildLinks exDocFakeRoot.m_buffers.joints
        exDocFakeRoot.m_buffers.fixedJoints)) = ["B"] ∧
    (attachedModel exDocFakeRoot).joints.length + 1 = (attachedModel exDocFakeRoot).links.length ∧
    (attachedModel exDocFakeRoot).Connected ∧
    exDocFakeRoot.m_buffers.sensorHelpers = [] ∧
    exDocFakeRoot.documentHasBeenParsed.ret = true ∧
    exDocFakeRoot.documentHasBeenParsed.doc.m_model.getLinkName
      exDocFakeRoot.documentHasBeenParsed.doc.m_model.getDefaultBaseLink = "A" ∧
    exDocFakeRoot.documentHasBeenParsed.doc.m_model.getLinkName
      exDocFakeRoot.documentHasBeenParsed.doc.m_model.getDefaultBaseLink ≠ "B" := by
  refine ⟨by decide, by decide, ?_, rfl, by decide, by decide, by decide⟩
  intro i h0 h1
  have hb : (attachedModel exDocFakeRoot).getDefaultBaseLink = 0 := by decide
  have hl : (attachedModel exDocFakeRoot).links.length = 2 := by decide
  have hj : (attachedModel exDocFakeRoot).joints.map (fun p => (p.2.link1, p.2.link2)) =
      [(1, 0)] := by decide
  rw [hl] at h1
  rw [hb]
  have h2 : i < 2 := h1
  interval_cases i
  · exact Relation.ReflTransGen.refl
  · apply Relation.ReflTransGen.single
    have hm : ((1 : Int), (0 : Int)) ∈
        (attachedModel exDocFakeRoot).joints.map (fun p => (p.2.link1, p.2.link2)) := by
      rw [hj]; simp
    obtain ⟨p, hp, he⟩ := List.mem_map.mp hm
    simp only [Prod.mk.injEq] at he
    exact ⟨p, hp, Or.inr he⟩

theorem exDocRealRoot_wellFormed : exDocRealRoot.m_model.WellFormed :=
  ⟨by decide, by decide, by decide, by decide⟩

/-- Witness of claim C2 (amended). In the first example the root `A` is
not fake and is the default base link; in the second the root `B` is fake,
its neighbour `A` is not and becomes the default base link. -/
theorem documentHasBeenParsed_base_witness :
    (exDocRealRoot.m_model.WellFormed ∧
      isFakeLink (attachedModel exDocRealRoot)
        ((attachedModel exDocRealRoot).getLinkIndex "A") = false ∧
      exDocRealRoot.documentHasBeenParsed.ret = true ∧
      exDocRealRoot.documentHasBeenParsed.doc.m_model.getLinkName
        exDocRealRoot.documentHasBeenParsed.doc.m_model.getDefaultBaseLink = "A") ∧
    (exDocFakeRoot.m_model.WellFormed ∧
      isFakeLink (attachedModel exDocFakeRoot)
        ((attachedModel exDocFakeRoot).getLinkIndex "B") = true ∧
      isFakeLink (attachedModel exDocFakeRoot)
        ((attachedModel exDocFakeRoot).getNeighbor
          ((attachedModel exDocFakeRoot).getLinkIndex "B") 0).neighborLink = false ∧
      exDocFakeRoot.documentHasBeenParsed.ret = true ∧
      exDocFakeRoot.documentHasBeenParsed.doc.m_model.getLinkName
        exDocFakeRoot.documentHasBeenParsed.doc.m_model.getDefaultBaseLink =
          (attachedModel exDocFakeRoot).getLinkName
            ((attachedModel exDocFakeRoot).getNeighbor
              ((attachedModel exDocFakeRoot).getLinkIndex "B") 0).neighborLink) :=
  ⟨⟨exDocRealRoot_wellFormed, by decide,
      (documentHasBeenParsed_base exDocRealRoot exDocRealRoot_wellFormed "A" (by decide)
        (fun h hh => absurd hh (List.not_mem_nil h)) (fun h => absurd h (by decide))).1
        (by decide)⟩,
    ⟨exDocFakeRoot_wellFormed, by decide, by decide,
      (documentHasBeenParsed_base exDocFakeRoot exDocFakeRoot_wellFormed "B" (by decide)
        (fun h hh => absurd hh (List.not_mem_nil h)) (fun h => absurd h (by decide))).2
        (by decide) (by decide)⟩⟩

/-! ### Claims on `processSensors` and on the child links of `processJoints` -/

/-- The loop of `processSensors`, from any list of sensors: it succeeds when
and only when every helper produces a sensor; on success the sensors of the
helpers follow the sensors held before, in helper order; on failure the
list is the empty one. -/
theorem processSensors_loop_spec (model : Model T) (helpers : List (SensorHelper T))
    (acc : SensorsList T) :
    ((processSensors_loop model helpers acc).1 = true ↔
      ∀ h ∈ helpers, (h.generateSensor model).isSome = true) ∧
    ((processSensors_loop model helpers acc).1 = true →
      (processSensors_loop model helpers acc).2.sensors.map some =
        acc.sensors.map some ++ helpers.map (fun h => h.generateSensor model)) ∧
    ((processSensors_loop model helpers acc).1 = false →
      (processSensors_loop model helpers acc).2 = SensorsList.empty) := by
  induction helpers generalizing acc with
  | nil => simp [processSensors_loop]
  | cons h rest ih =>
    unfold processSensors_loop
    cases hg : h.generateSensor model with
    | none => simp [hg]
    | some sensor =>
      obtain ⟨i1, i2, i3⟩ := ih (acc.addSensor sensor)
      simp only []
      refine ⟨?_, ?_, i3⟩
      · rw [i1]
        simp [hg]
      · intro ht
        rw [i2 ht]
        simp [SensorsList.addSensor, hg]

/-- Claim C11. For every model, every list of sensor helpers and every
previous content of the output list, `processSensors` returns true if and
only if every helper produces a sensor (a non-null pointer); when it
returns true the output list holds exactly the sensors produced by the
helpers, one per helper and in helper order, and nothing of its previous
content; when it returns false the output list is the empty list. -/
theorem processSensors_spec (model : Model T) (helpers : List (SensorHelper T))
    (sensors : SensorsList T) :
    ((processSensors model helpers sensors).1 = true ↔
      ∀ h ∈ helpers, (h.generateSensor model).isSome = true) ∧
    ((processSensors model helpers sensors).1 = true →
      (processSensors model helpers sensors).2.sensors.map some =
        helpers.map (fun h => h.generateSensor model)) ∧
    ((processSensors model helpers sensors).1 = false →
      (processSensors model helpers sensors).2 = SensorsList.empty) := by
  obtain ⟨h1, h2, h3⟩ := processSensors_loop_spec model helpers SensorsList.empty
  refine ⟨h1, ?_, h3⟩
  intro ht
  have := h2 ht
  simpa [SensorsList.empty] using this

/-- Witness of claim C11: with one helper that produces an accelerometer
the list that held a sensor before holds that accelerometer only; with a
second helper that produces nothing the call fails and the list is
empty. -/
theorem processSensors_spec_witness :
    ((processSensors exTwoLinks [exAccHelper]
        ⟨[Sensor.linkSensor LinkSensorType.GYROSCOPE "old" 0 1]⟩).1 = true ∧
      (processSensors exTwoLinks [exAccHelper]
        ⟨[Sensor.linkSensor LinkSensorType.GYROSCOPE "old" 0 1]⟩).2.sensors.map some =
        [some (Sensor.linkSensor LinkSensorType.ACCELEROMETER "acc0" 0 1)]) ∧
    ((processSensors exTwoLinks [exAccHelper, exNullHelper]
        ⟨[Sensor.linkSensor LinkSensorType.GYROSCOPE "old" 0 1]⟩).1 = false ∧
      (processSensors exTwoLinks [exAccHelper, exNullHelper]
        ⟨[Sensor.linkSensor LinkSensorType.GYROSCOPE "old" 0 1]⟩).2 = SensorsList.empty) :=
  ⟨⟨by decide,
    (processSensors_spec exTwoLinks [exAccHelper]
      ⟨[Sensor.linkSensor LinkSensorType.GYROSCOPE "old" 0 1]⟩).2.1 (by decide)⟩,
   ⟨by decide,
    (processSensors_spec exTwoLinks [exAccHelper, exNullHelper]
      ⟨[Sensor.linkSensor LinkSensorType.GYROSCOPE "old" 0 1]⟩).2.2 (by decide)⟩⟩

/-- Claim C15. For every model and both pending-joint mappings, a name is in
the set of child links returned by `processJoints` if and only if it is the
child-link name of some entry of the ordinary or of the fixed mapping. -/
theorem processJoints_childLinks (m : Model T) (js fs : List (String × JointInfo T))
    (n : String) :
    n ∈ (processJoints m js fs).childLinks ↔
      ∃ p, (p ∈ js ∨ p ∈ fs) ∧ p.2.childLinkName = n := by
  rw [mem_processJoints_childLinks]
  unfold pendingChildLinks
  simp only [List.mem_map, List.mem_append]

/-! ### Claims on the links, the joints and the base of `removeFakeLinks` -/

/-- Filtering a list by element is selecting its positions by index. -/
theorem filter_eq_filterMap_range {α : Type} (l : List α) (P : α → Bool) (keepIdx : Nat → Bool)
    (hP : ∀ k (hk : k < l.length), P l[k] = keepIdx k) :
    l.filter P =
      (List.range l.length).filterMap (fun i : Nat => if keepIdx i then l[i]? else none) := by
  have key : ∀ k, k ≤ l.length → (l.take k).filter P =
      (List.range k).filterMap (fun i : Nat => if keepIdx i then l[i]? else none) := by
    intro k
    induction k with
    | zero => intro _; simp
    | succ k ih =>
      intro hk
      have hlt : k < l.length := by omega
      rw [take_succ_getElem l k hlt, List.range_succ, List.filter_append, List.filterMap_append,
        ih (by omega)]
      congr 1
      simp only [List.filter_cons, List.filter_nil, hP k hlt, List.filterMap_cons,
        List.filterMap_nil]
      by_cases hkk : keepIdx k = true
      · simp [hkk, List.getElem?_eq_getElem hlt]
      · simp [hkk]
  have := key l.length le_rfl
  rwa [List.take_length] at this

theorem exFakeBase_wellFormed : exFakeBase.WellFormed :=
  ⟨by decide, by decide, by decide, by decide⟩

/-- Claim C16. For every input model that satisfies the Model invariant, the
links of the output of `removeFakeLinks` are exactly the entries (name and
link, hence inertial data) of the input at the indices not classified fake,
taken in increasing index order, that is in the order of the input. -/
theorem removeFakeLinks_links [Inv T] (m : Model T) (wf : m.WellFormed) :
    (removeFakeLinks m).2.links =
      (List.range m.links.length).filterMap
        (fun i : Nat => if isFakeLink m (i : Int) then none else m.links[i]?) := by
  rw [(removeFakeLinks_output m wf).1]
  unfold survivingLinks
  rw [filter_eq_filterMap_range m.links _ (fun k : Nat => !isFakeLink m (k : Int))]
  · congr 1
    funext i
    cases isFakeLink m (i : Int) <;> simp
  · intro k hk
    have e : (m.links[k]).1 = m.getLinkName (k : Int) := (m.getLinkName_natCast k hk).symm
    have := getLinkName_mem_linksToRemove m wf.linkNames_nodup (k : Int) (by omega) (by omega)
    simp only [e]
    by_cases hf : isFakeLink m (k : Int) = true
    · simp [hf, this.mpr hf]
    · have hnm : m.getLinkName (k : Int) ∉ (removeFakeLinks_scan m).linksToRemove :=
        fun h => hf (this.mp h)
      simp [hf, hnm]

/-- Witness of claim C16: of the links `A`, `B`, `C` of `exChain` the output
keeps `A` and `B`, in this order, with their masses. -/
theorem removeFakeLinks_links_witness :
    exChain.WellFormed ∧
    (removeFakeLinks exChain).2.links =
      (List.range exChain.links.length).filterMap
        (fun i : Nat => if isFakeLink exChain (i : Int) then none else exChain.links[i]?) ∧
    (List.range exChain.links.length).filterMap
        (fun i : Nat => if isFakeLink exChain (i : Int) then none else exChain.links[i]?) =
      [("A", exLink 5), ("B", exLink 0)] :=
  ⟨exChain_wellFormed, removeFakeLinks_links exChain exChain_wellFormed, by decide⟩

/-- Claim C17. For every input model that satisfies the Model invariant
(joint endpoints valid, neighbours derived from the joints), every joint of
the output of `removeFakeLinks` is a joint of the input, of the same name
and the same data but for its endpoints, neither endpoint of which is a
fake (removed) link; its two endpoints in the output are valid link indices
of the output model, and they designate links of the same names as its
endpoints in the input model. -/
theorem removeFakeLinks_joints [Inv T] (m : Model T) (wf : m.WellFormed)
    (q : String × IJoint T) (hq : q ∈ (removeFakeLinks m).2.joints) :
    ∃ p ∈ m.joints, q.1 = p.1 ∧
      q.2 = p.2.setAttachedLinks q.2.link1 q.2.link2 ∧
      isFakeLink m p.2.link1 = false ∧ isFakeLink m p.2.link2 = false ∧
      0 ≤ q.2.link1 ∧ q.2.link1 < ((removeFakeLinks m).2.links.length : Int) ∧
      0 ≤ q.2.link2 ∧ q.2.link2 < ((removeFakeLinks m).2.links.length : Int) ∧
      (removeFakeLinks m).2.getLinkName q.2.link1 = m.getLinkName p.2.link1 ∧
      (removeFakeLinks m).2.getLinkName q.2.link2 = m.getLinkName p.2.link2 := by
  obtain ⟨hl, hj, -⟩ := removeFakeLinks_output m wf
  rw [hj, List.mem_map] at hq
  obtain ⟨p, hp, rfl⟩ := hq
  unfold survivingJoints at hp
  rw [List.mem_filter] at hp
  obtain ⟨hpm, hkeep⟩ := hp
  simp only [decide_eq_true_eq] at hkeep
  obtain ⟨k, hk, rfl⟩ := List.getElem_of_mem hpm
  obtain ⟨f1, f2⟩ := kept_joint_not_fake m k hk hkeep
  obtain ⟨v1, v2, v3, v4, -⟩ := wf.joints_valid _ hpm
  obtain ⟨r1, r2, r3, r4, -⟩ := remapJoint_valid m wf _ hpm hkeep
  have hln : (removeFakeLinks m).2.linkNames = (survivingLinks m).map Prod.fst := by
    unfold Model.linkNames; rw [hl]
  have m1 := getLinkName_mem_survivingLinks m wf.linkNames_nodup _ v1 v2 f1
  have m2 := getLinkName_mem_survivingLinks m wf.linkNames_nodup _ v3 v4 f2
  refine ⟨m.joints[k], hpm, rfl, rfl, by simpa using f1, by simpa using f2, r1, ?_, r3, ?_, ?_, ?_⟩
  · rw [hl]; exact r2
  · rw [hl]; exact r4
  · have := Model.getLinkName_getLinkIndex (removeFakeLinks m).2
      (m.getLinkName (m.joints[k]).2.link1) (by rw [hln]; exact m1)
    unfold Model.getLinkIndex at this
    rw [hln] at this
    exact this
  · have := Model.getLinkName_getLinkIndex (removeFakeLinks m).2
      (m.getLinkName (m.joints[k]).2.link2) (by rw [hln]; exact m2)
    unfold Model.getLinkIndex at this
    rw [hln] at this
    exact this

/-- Witness of claim C17: the joint `j1` of the output of `exChain`. -/
theorem removeFakeLinks_joints_witness :
    exChain.WellFormed ∧
    (("j1", { exFixed with link1 := 0, link2 := 1 }) : String × IJoint Rat) ∈
      (removeFakeLinks exChain).2.joints ∧
    ∃ p ∈ exChain.joints, "j1" = p.1 ∧
      ({ exFixed with link1 := 0, link2 := 1 } : IJoint Rat) = p.2.setAttachedLinks 0 1 ∧
      isFakeLink exChain p.2.link1 = false ∧ isFakeLink exChain p.2.link2 = false ∧
      (0 : Int) ≤ 0 ∧ (0 : Int) < ((removeFakeLinks exChain).2.links.length : Int) ∧
      (0 : Int) ≤ 1 ∧ (1 : Int) < ((removeFakeLinks exChain).2.links.length : Int) ∧
      (removeFakeLinks exChain).2.getLinkName 0 = exChain.getLinkName p.2.link1 ∧
      (removeFakeLinks exChain).2.getLinkName 1 = exChain.getLinkName p.2.link2 :=
  ⟨exChain_wellFormed, by decide,
    removeFakeLinks_joints exChain exChain_wellFormed
      ("j1", { exFixed with link1 := 0, link2 := 1 }) (by decide)⟩

/-- Claim C18. For every input model that satisfies the Model invariant and
has a link (hence a default base link): when the default base link is not
fake, `removeFakeLinks` returns true and the default base link of the output
is the link of the same name; when the default base link is fake and its
single neighbour link is not fake, `removeFakeLinks` returns true and the
default base link of the output is the link of the name of that
neighbour. -/
theorem removeFakeLinks_defaultBase [Inv T] (m : Model T) (wf : m.WellFormed)
    (hne : m.links ≠ []) :
    (isFakeLink m m.getDefaultBaseLink = false →
      (removeFakeLinks m).1 = true ∧
      (removeFakeLinks m).2.getLinkName (removeFakeLinks m).2.getDefaultBaseLink =
        m.getLinkName m.getDefaultBaseLink) ∧
    (isFakeLink m m.getDefaultBaseLink = true →
      isFakeLink m (m.getNeighbor m.getDefaultBaseLink 0).neighborLink = false →
      (removeFakeLinks m).1 = true ∧
      (removeFakeLinks m).2.getLinkName (removeFakeLinks m).2.getDefaultBaseLink =
        m.getLinkName (m.getNeighbor m.getDefaultBaseLink 0).neighborLink) := by
  obtain ⟨hb0, hb1⟩ : 0 ≤ m.getDefaultBaseLink ∧ m.getDefaultBaseLink < (m.links.length : Int) :=
    wf.base_valid hne
  have hnd := newDefaultBaseLink_eq m
  constructor
  · intro hf
    rw [hf] at hnd
    simp only [Bool.false_eq_true, if_false] at hnd
    rw [← hnd]
    apply removeFakeLinks_base m wf
    rw [hnd]
    exact getLinkName_mem_survivingLinks m wf.linkNames_nodup _ hb0 hb1 (by simp [hf])
  · intro hf hnf
    rw [hf] at hnd
    simp only [if_true] at hnd
    rw [← hnd]
    apply removeFakeLinks_base m wf
    rw [hnd]
    obtain ⟨n0, n1⟩ := isFakeLink_neighbor_valid m wf _ hf
    exact getLinkName_mem_survivingLinks m wf.linkNames_nodup _ n0 n1 (by simp [hnf])

/-- Witness of claim C18: the base `A` of `exTwoLinks` is kept, and the fake
base `B` of `exFakeBase` is replaced by its neighbour `A`. -/
theorem removeFakeLinks_defaultBase_witness :
    (exTwoLinks.WellFormed ∧ exTwoLinks.links ≠ [] ∧
      isFakeLink exTwoLinks exTwoLinks.getDefaultBaseLink = false ∧
      (removeFakeLinks exTwoLinks).1 = true ∧
      (removeFakeLinks exTwoLinks).2.getLinkName
        (removeFakeLinks exTwoLinks).2.getDefaultBaseLink = "A") ∧
    (exFakeBase.WellFormed ∧ exFakeBase.links ≠ [] ∧
      isFakeLink exFakeBase exFakeBase.getDefaultBaseLink = true ∧
      isFakeLink exFakeBase (exFakeBase.getNeighbor exFakeBase.getDefaultBaseLink 0).neighborLink
        = false ∧
      (removeFakeLinks exFakeBase).1 = true ∧
      (removeFakeLinks exFakeBase).2.getLinkName
        (removeFakeLinks exFakeBase).2.getDefaultBaseLink = "A") :=
  ⟨⟨exTwoLinks_wellFormed, by decide, by decide,
    ((removeFakeLinks_defaultBase exTwoLinks exTwoLinks_wellFormed (by decide)).1
      (by decide)).1,
    ((removeFakeLinks_defaultBase exTwoLinks exTwoLinks_wellFormed (by decide)).1
      (by decide)).2⟩,
   ⟨exFakeBase_wellFormed, by decide, by decide, by decide,
    ((removeFakeLinks_defaultBase exFakeBase exFakeBase_wellFormed (by decide)).2
      (by decide) (by decide)).1,
    ((removeFakeLinks_defaultBase exFakeBase exFakeBase_wellFormed (by decide)).2
      (by decide) (by decide)).2⟩⟩

/-! ### Claims on the attachment of the pending joints -/

/-- `addJoint` refuses a joint one endpoint of which is the invalid link
index. -/
theorem Model.addJoint_invalid_endpoint (m : Model T) (n : String) (j : IJoint T)
    (h : j.link1 = LINK_INVALID_INDEX ∨ j.link2 = LINK_INVALID_INDEX) :
    m.addJoint n j = (JOINT_INVALID_INDEX, m) := by
  unfold Model.addJoint
  by_cases h1 : m.isJointNameUsed n = true
  · rw [if_pos h1]
  · rw [if_neg h1]
    simp only []
    rw [if_pos]
    simp only [IJoint.getFirstAttachedLink, IJoint.getSecondAttachedLink]
    rcases h with h | h
    · left; rw [h]; decide
    · right; right; left; rw [h]; decide

/-- What `addJoint` does to the joints: nothing, or it appends the joint,
both endpoints of which are then links of the model. -/
theorem Model.addJoint_joints (m : Model T) (n : String) (j : IJoint T) :
    (m.addJoint n j).2 = m ∨
    ((m.addJoint n j).2.joints = m.joints ++ [(n, j)] ∧
      j.link1 ≠ LINK_INVALID_INDEX ∧ j.link2 ≠ LINK_INVALID_INDEX) := by
  unfold Model.addJoint
  by_cases h1 : m.isJointNameUsed n = true
  · rw [if_pos h1]; left; rfl
  · rw [if_neg h1]
    simp only []
    by_cases h2 : j.getFirstAttachedLink < 0 ∨ (m.getNrOfLinks : Int) ≤ j.getFirstAttachedLink ∨
        j.getSecondAttachedLink < 0 ∨ (m.getNrOfLinks : Int) ≤ j.getSecondAttachedLink
    · rw [if_pos h2]; left; rfl
    · rw [if_neg h2]
      by_cases h3 : j.getFirstAttachedLink = j.getSecondAttachedLink
      · rw [if_pos h3]; left; rfl
      · rw [if_neg h3]
        right
        simp only [IJoint.getFirstAttachedLink, IJoint.getSecondAttachedLink] at h2
        push_neg at h2
        refine ⟨rfl, ?_, ?_⟩
        · intro e; rw [e] at h2; exact absurd h2.1 (by decide)
        · intro e; rw [e] at h2; exact absurd h2.2.2.1 (by decide)

theorem processJoints_joint_model (s : JointLoopState T) (p : String × JointInfo T) :
    ∃ j : IJoint T, (processJoints_joint s p).model = (s.model.addJoint p.1 j).2 ∧
      j.link1 = s.model.getLinkIndex p.2.parentLinkName ∧
      j.link2 = s.model.getLinkIndex p.2.childLinkName := by
  unfold processJoints_joint
  simp only []
  have hv : (p.2.joint.setAttachedLinks (s.model.getLinkIndex p.2.parentLinkName)
      (s.model.getLinkIndex p.2.childLinkName)).variant = p.2.joint.variant := rfl
  rw [hv]
  cases p.2.joint.variant <;> exact ⟨_, rfl, rfl, rfl⟩

theorem processJoints_fixed_model (s : JointLoopState T) (p : String × JointInfo T) :
    ∃ j : IJoint T, (processJoints_fixed s p).model = (s.model.addJoint p.1 j).2 ∧
      j.link1 = s.model.getLinkIndex p.2.parentLinkName ∧
      j.link2 = s.model.getLinkIndex p.2.childLinkName :=
  ⟨_, rfl, rfl, rfl⟩

/-- A step that adds one joint between the links of the parent and of the
child name either leaves the model as it is or appends that joint, and
then both names are link names of the model. -/
theorem addJoint_step (m : Model T) (p : String × JointInfo T) (j : IJoint T)
    (h1 : j.link1 = m.getLinkIndex p.2.parentLinkName)
    (h2 : j.link2 = m.getLinkIndex p.2.childLinkName) :
    (m.addJoint p.1 j).2.links = m.links ∧
    ((m.addJoint p.1 j).2 = m ∨
      ((m.addJoint p.1 j).2.joints = m.joints ++ [(p.1, j)] ∧
        p.2.parentLinkName ∈ m.linkNames ∧ p.2.childLinkName ∈ m.linkNames)) := by
  refine ⟨Model.addJoint_links m p.1 j, ?_⟩
  rcases Model.addJoint_joints m p.1 j with h | ⟨e, n1, n2⟩
  · left; exact h
  · right
    refine ⟨e, ?_, ?_⟩
    · by_contra hc
      apply n1
      rw [h1]
      exact (indexOfName_eq_neg_one _ _).mpr hc
    · by_contra hc
      apply n2
      rw [h2]
      exact (indexOfName_eq_neg_one _ _).mpr hc

/-- The joints that a loop attaches, for any loop body that adds one joint
between the links of the parent and of the child name: each comes from a
pending joint both link names of which are link names of the model, and
its endpoints are the indices of these names. -/
theorem foldl_attach (f : JointLoopState T → String × JointInfo T → JointLoopState T)
    (hf : ∀ s p, ∃ j : IJoint T, (f s p).model = (s.model.addJoint p.1 j).2 ∧
      j.link1 = s.model.getLinkIndex p.2.parentLinkName ∧
      j.link2 = s.model.getLinkIndex p.2.childLinkName)
    (l : List (String × JointInfo T)) (s : JointLoopState T) :
    (l.foldl f s).model.links = s.model.links ∧
    ∀ q ∈ (l.foldl f s).model.joints, q ∈ s.model.joints ∨
      ∃ p ∈ l, q.1 = p.1 ∧
        p.2.parentLinkName ∈ s.model.linkNames ∧ p.2.childLinkName ∈ s.model.linkNames ∧
        q.2.link1 = s.model.getLinkIndex p.2.parentLinkName ∧
        q.2.link2 = s.model.getLinkIndex p.2.childLinkName := by
  induction l generalizing s with
  | nil => exact ⟨rfl, fun q hq => Or.inl hq⟩
  | cons p l ih =>
    rw [List.foldl_cons]
    obtain ⟨j, hm, hl1, hl2⟩ := hf s p
    obtain ⟨hlinks, hstep⟩ := addJoint_step s.model p j hl1 hl2
    rw [← hm] at hlinks hstep
    obtain ⟨i1, i2⟩ := ih (f s p)
    have hnames : (f s p).model.linkNames = s.model.linkNames := by
      unfold Model.linkNames; rw [hlinks]
    have hidx : ∀ n, (f s p).model.getLinkIndex n = s.model.getLinkIndex n := by
      intro n; unfold Model.getLinkIndex; rw [hnames]
    refine ⟨i1.trans hlinks, ?_⟩
    intro q hq
    rcases i2 q hq with h | ⟨p2, hp2, a, b, c, d, e⟩
    · rcases hstep with hs | ⟨hs, hpar, hch⟩
      · left; rw [hs] at h; exact h
      · rw [hs, List.mem_append, List.mem_singleton] at h
        rcases h with h | h
        · left; exact h
        · right
          refine ⟨p, List.mem_cons_self _ _, ?_, hpar, hch, ?_, ?_⟩
          · rw [h]
          · rw [h]; exact hl1
          · rw [h]; exact hl2
    · right
      refine ⟨p2, List.mem_cons_of_mem _ hp2, a, ?_, ?_, ?_, ?_⟩
      · rw [← hnames]; exact b
      · rw [← hnames]; exact c
      · rw [d, hidx]
      · rw [e, hidx]

/-- Claim C20. In `processJoints`, for either loop and in every state of the
loop: when the parent or the child link name of a pending joint is not a
link name of the model, `addJoint` refuses the joint (it returns
`JOINT_INVALID_INDEX`) and the step leaves the model as it was. For the
whole call: every joint of the resulting model that was not in the model
before comes from a pending joint both link names of which are link names
of the model, and its endpoints are the indices of these names, so no
joint is attached with an invalid link index. -/
theorem processJoints_unknown_link (m : Model T) (js fs : List (String × JointInfo T)) :
    (∀ q ∈ (processJoints m js fs).model.joints, q ∈ m.joints ∨
      ∃ p, (p ∈ js ∨ p ∈ fs) ∧ q.1 = p.1 ∧
        p.2.parentLinkName ∈ m.linkNames ∧ p.2.childLinkName ∈ m.linkNames ∧
        q.2.link1 = m.getLinkIndex p.2.parentLinkName ∧
        q.2.link2 = m.getLinkIndex p.2.childLinkName) ∧
    (∀ (s : JointLoopState T) (p : String × JointInfo T),
      p.2.parentLinkName ∉ s.model.linkNames ∨ p.2.childLinkName ∉ s.model.linkNames →
      s.model.addJoint p.1 (p.2.joint.setAttachedLinks
          (s.model.getLinkIndex p.2.parentLinkName) (s.model.getLinkIndex p.2.childLinkName)) =
        (JOINT_INVALID_INDEX, s.model) ∧
      (processJoints_joint s p).model = s.model ∧
      (processJoints_fixed s p).model = s.model) := by
  constructor
  · intro q hq
    unfold processJoints at hq
    simp only [] at hq
    obtain ⟨l1, a1⟩ := foldl_attach processJoints_joint processJoints_joint_model js
      ⟨m, [], [], []⟩
    obtain ⟨l2, a2⟩ := foldl_attach processJoints_fixed processJoints_fixed_model fs
      { (js.foldl processJoints_joint ⟨m, [], [], []⟩) with visited := [] }
    simp only [] at l1 a1 l2 a2
    have hnames : (js.foldl processJoints_joint ⟨m, [], [], []⟩).model.linkNames = m.linkNames := by
      unfold Model.linkNames; rw [l1]
    have hidx : ∀ n, (js.foldl processJoints_joint ⟨m, [], [], []⟩).model.getLinkIndex n =
        m.getLinkIndex n := by
      intro n; unfold Model.getLinkIndex; rw [hnames]
    rcases a2 q hq with h | ⟨p, hp, a, b, c, d, e⟩
    · rcases a1 q h with h | ⟨p, hp, a, b, c, d, e⟩
      · left; exact h
      · right; exact ⟨p, Or.inl hp, a, b, c, d, e⟩
    · right
      refine ⟨p, Or.inr hp, a, ?_, ?_, ?_, ?_⟩
      · rw [← hnames]; exact b
      · rw [← hnames]; exact c
      · rw [d, hidx]
      · rw [e, hidx]
  · intro s p h
    have hinv : ∀ j : IJoint T, j.link1 = s.model.getLinkIndex p.2.parentLinkName →
        j.link2 = s.model.getLinkIndex p.2.childLinkName →
        s.model.addJoint p.1 j = (JOINT_INVALID_INDEX, s.model) := by
      intro j h1 h2
      apply Model.addJoint_invalid_endpoint
      rcases h with h | h
      · left; rw [h1]; exact (indexOfName_eq_neg_one _ _).mpr h
      · right; rw [h2]; exact (indexOfName_eq_neg_one _ _).mpr h
    refine ⟨hinv _ rfl rfl, ?_, ?_⟩
    · obtain ⟨j, hm, h1, h2⟩ := processJoints_joint_model s p
      rw [hm, hinv j h1 h2]
    · obtain ⟨j, hm, h1, h2⟩ := processJoints_fixed_model s p
      rw [hm, hinv j h1 h2]

/-- Witness of claim C20: a pending revolute joint from the link `A` to the
absent link `Z` is not attached. -/
theorem processJoints_unknown_link_witness :
    ("A" ∉ exDanglingJointModel.linkNames ∨ "Z" ∉ exDanglingJointModel.linkNames) ∧
    (exDanglingJointModel.addJoint "j" (exRevolute.setAttachedLinks
        (exDanglingJointModel.getLinkIndex "A") (exDanglingJointModel.getLinkIndex "Z")) =
      (JOINT_INVALID_INDEX, exDanglingJointModel) ∧
    (processJoints_joint ⟨exDanglingJointModel, [], [], []⟩ exDanglingJoint).model =
      exDanglingJointModel ∧
    (processJoints_fixed ⟨exDanglingJointModel, [], [], []⟩ exDanglingJoint).model =
      exDanglingJointModel) :=
  ⟨by decide,
    (processJoints_unknown_link exDanglingJointModel [exDanglingJoint] []).2
      ⟨exDanglingJointModel, [], [], []⟩ exDanglingJoint (by decide)⟩

/-! ### The loops of `addVisualPropertiesToModel` -/

theorem resolveVisualFrame_isOk [One T] [Mul T] (model : Model T) (key : String)
    (visual : VisualInfo T) :
    (∃ r, resolveVisualFrame model key (model.isLinkNameUsed key) visual = Except.ok r) ↔
      keyKnown model key = true := by
  unfold resolveVisualFrame keyKnown
  by_cases h1 : model.isLinkNameUsed key = true
  · simp [h1]
  · by_cases h2 : model.getFrameIndex key = FRAME_INVALID_INDEX
    · simp [h1, h2]
    · simp [h1, h2]

theorem resolveVisualMaterial_isOk (db : List (String × MaterialInfo)) (linkName : String)
    (visual : VisualInfo T) :
    (∃ r, resolveVisualMaterial db linkName visual = Except.ok r) ↔
      materialKnown db visual = true := by
  unfold resolveVisualMaterial materialKnown
  cases visual.m_material with
  | none => simp
  | some material =>
    obtain ⟨n, rgba⟩ := material
    cases rgba with
    | some c => simp
    | none =>
      cases hl : db.lookup n with
      | none => simp [hl]
      | some c => simp [hl]

theorem addVisual_shape_isOk [One T] [Mul T] (model : Model T) (db : List (String × MaterialInfo))
    (key : String) (visual : VisualInfo T) (g : ModelSolidShapes T) :
    (∃ r, addVisual_shape model db key (model.isLinkNameUsed key) visual g = Except.ok r) ↔
      (keyKnown model key = true ∧ materialKnown db visual = true) := by
  unfold addVisual_shape
  rw [← resolveVisualFrame_isOk model key visual]
  cases hf : resolveVisualFrame model key (model.isLinkNameUsed key) visual with
  | error e => simp
  | ok r =>
    obtain ⟨t, ln⟩ := r
    simp only []
    rw [← resolveVisualMaterial_isOk db ln visual]
    cases hm : resolveVisualMaterial db ln visual with
    | error e => simp
    | ok sh => simp

/-- A step of the inner loop only appends to the lists of the container. -/
theorem addVisual_shape_prefix [One T] [Mul T] (model : Model T) (db : List (String × MaterialInfo))
    (key : String) (isLink : Bool) (visual : VisualInfo T) (g : ModelSolidShapes T)
    (r : VisualInfo T × ModelSolidShapes T)
    (h : addVisual_shape model db key isLink visual g = Except.ok r) (i : Int) :
    ∃ l, r.2.linkSolidShapes i = g.linkSolidShapes i ++ l := by
  unfold addVisual_shape at h
  cases hf : resolveVisualFrame model key isLink visual with
  | error e => rw [hf] at h; simp at h
  | ok p =>
    obtain ⟨t, ln⟩ := p
    rw [hf] at h
    simp only [] at h
    cases hm : resolveVisualMaterial db ln visual with
    | error e => rw [hm] at h; simp at h
    | ok sh =>
      rw [hm] at h
      simp only [Except.ok.injEq] at h
      subst h
      simp only [ModelSolidShapes.push_back]
      split_ifs
      · exact ⟨_, rfl⟩
      · exact ⟨[], by simp⟩

theorem addVisual_shapes_spec [One T] [Mul T] (model : Model T) (db : List (String × MaterialInfo))
    (key : String) (vs : List (VisualInfo T)) (g : ModelSolidShapes T) :
    ((addVisual_shapes model db key (model.isLinkNameUsed key) vs g).ok = true ↔
      ∀ v ∈ vs, keyKnown model key = true ∧ materialKnown db v = true) ∧
    ∀ i, ∃ l, (addVisual_shapes model db key (model.isLinkNameUsed key) vs g
      ).modelGeometries.linkSolidShapes i = g.linkSolidShapes i ++ l := by
  induction vs generalizing g with
  | nil => simp [addVisual_shapes]
  | cons v rest ih =>
    unfold addVisual_shapes
    have hok := addVisual_shape_isOk model db key v g
    cases hs : addVisual_shape model db key (model.isLinkNameUsed key) v g with
    | error e =>
      rw [hs] at hok
      simp only [List.mem_cons, forall_eq_or_imp]
      refine ⟨?_, fun i => ⟨[], by simp⟩⟩
      constructor
      · intro h; exact absurd h (by simp)
      · intro h
        exact absurd (hok.mpr h.1) (by simp)
    | ok r =>
      obtain ⟨v1, g1⟩ := r
      rw [hs] at hok
      have hk := hok.mp ⟨_, rfl⟩
      obtain ⟨i1, i2⟩ := ih g1
      simp only [List.mem_cons, forall_eq_or_imp]
      refine ⟨?_, ?_⟩
      · rw [i1]
        constructor
        · intro h; exact ⟨hk, h⟩
        · intro h; exact h.2
      · intro i
        obtain ⟨l1, e1⟩ := addVisual_shape_prefix model db key _ v g _ hs i
        obtain ⟨l2, e2⟩ := i2 i
        refine ⟨l1 ++ l2, ?_⟩
        rw [e2]
        simp only [] at e1
        rw [e1, List.append_assoc]

theorem addVisual_keys_spec [One T] [Mul T] (model : Model T) (db : List (String × MaterialInfo))
    (visuals : List (String × List (VisualInfo T))) (g : ModelSolidShapes T) :
    ((addVisual_keys model db visuals g).ok = true ↔
      ∀ kv ∈ visuals, ∀ v ∈ kv.2, keyKnown model kv.1 = true ∧ materialKnown db v = true) ∧
    ∀ i, ∃ l, (addVisual_keys model db visuals g).modelGeometries.linkSolidShapes i =
      g.linkSolidShapes i ++ l := by
  induction visuals generalizing g with
  | nil => simp [addVisual_keys]
  | cons kv rest ih =>
    unfold addVisual_keys
    obtain ⟨s1, s2⟩ := addVisual_shapes_spec model db kv.1 kv.2 g
    simp only [List.mem_cons, forall_eq_or_imp]
    by_cases hok : (addVisual_shapes model db kv.1 (model.isLinkNameUsed kv.1) kv.2 g).ok = true
    · simp only [hok, if_true]
      obtain ⟨i1, i2⟩ := ih (addVisual_shapes model db kv.1 (model.isLinkNameUsed kv.1) kv.2 g
        ).modelGeometries
      refine ⟨?_, ?_⟩
      · rw [i1]
        constructor
        · intro h; exact ⟨s1.mp hok, h⟩
        · intro h; exact h.2
      · intro i
        obtain ⟨l1, e1⟩ := s2 i
        obtain ⟨l2, e2⟩ := i2 i
        exact ⟨l1 ++ l2, by rw [e2, e1, List.append_assoc]⟩
    · simp only [hok]
      refine ⟨?_, s2⟩
      constructor
      · intro h; exact absurd h (by simp)
      · intro h; exact absurd (s1.mpr h.1) hok

/-! ### Claims on the publication of the sensor frames -/

/-- The shape that material resolution yields does not depend on the link
name, which is only used in the message of the failure. -/
theorem resolveVisualMaterial_linkName (db : List (String × MaterialInfo)) (a b : String)
    (visual : VisualInfo T) (sh : SolidShape T)
    (h : resolveVisualMaterial db a visual = Except.ok sh) :
    resolveVisualMaterial db b visual = Except.ok sh := by
  unfold resolveVisualMaterial at h ⊢
  cases hm : visual.m_material with
  | none => rw [hm] at h; exact h
  | some material =>
    rw [hm] at h
    obtain ⟨n, rgba⟩ := material
    cases rgba with
    | some c => exact h
    | none =>
      simp only [] at h ⊢
      cases hl : db.lookup n with
      | none => rw [hl] at h; simp at h
      | some c => rw [hl] at h; exact h

/-- The inner loop on a list of visuals that begins with visuals which all
resolve. -/
theorem addVisual_shapes_append [One T] [Mul T] (model : Model T)
    (db : List (String × MaterialInfo)) (key : String) (isLink : Bool)
    (pre rest : List (VisualInfo T)) (g : ModelSolidShapes T)
    (h : (addVisual_shapes model db key isLink pre g).ok = true) :
    (addVisual_shapes model db key isLink (pre ++ rest) g).ok =
      (addVisual_shapes model db key isLink rest
        (addVisual_shapes model db key isLink pre g).modelGeometries).ok ∧
    (addVisual_shapes model db key isLink (pre ++ rest) g).modelGeometries =
      (addVisual_shapes model db key isLink rest
        (addVisual_shapes model db key isLink pre g).modelGeometries).modelGeometries := by
  induction pre generalizing g with
  | nil => exact ⟨rfl, rfl⟩
  | cons v pre ih =>
    rw [List.cons_append]
    cases hs : addVisual_shape model db key isLink v g with
    | error e => simp [addVisual_shapes, hs] at h
    | ok r =>
      obtain ⟨v1, g1⟩ := r
      simp only [addVisual_shapes, hs] at h ⊢
      exact ih g1 h

/-- The outer loop on a mapping that begins with keys the visuals of which
all resolve. -/
theorem addVisual_keys_append [One T] [Mul T] (model : Model T)
    (db : List (String × MaterialInfo)) (pre rest : List (String × List (VisualInfo T)))
    (g : ModelSolidShapes T) (h : (addVisual_keys model db pre g).ok = true) :
    (addVisual_keys model db (pre ++ rest) g).ok =
      (addVisual_keys model db rest (addVisual_keys model db pre g).modelGeometries).ok ∧
    (addVisual_keys model db (pre ++ rest) g).modelGeometries =
      (addVisual_keys model db rest
        (addVisual_keys model db pre g).modelGeometries).modelGeometries := by
  induction pre generalizing g with
  | nil => exact ⟨rfl, rfl⟩
  | cons kv pre ih =>
    rw [List.cons_append]
    by_cases hok : (addVisual_shapes model db kv.1 (model.isLinkNameUsed kv.1) kv.2 g).ok = true
    · simp only [addVisual_keys, hok, if_true] at h ⊢
      exact ih _ h
    · simp [addVisual_keys, hok] at h

/-- Claim C19, as the code has it. When `addVisualPropertiesToModel` fails
on a visual (its key is neither a link nor a frame, or its material is
unknown) after the keys before it and the visuals before it under the same
key have been resolved, the call returns false and the container is the
one that the call on these earlier entries alone produces: their shapes
stay appended, nothing is rolled back. In every case the list of each link
begins with its content of before the call. -/
theorem addVisualPropertiesToModel_failure [One T] [Mul T] (model : Model T)
    (db : List (String × MaterialInfo)) (preKeys postKeys : List (String × List (VisualInfo T)))
    (key : String) (pre post : List (VisualInfo T)) (bad : VisualInfo T)
    (g : ModelSolidShapes T)
    (h1 : (addVisualPropertiesToModel model (preKeys ++ [(key, pre)]) db g).ok = true)
    (h2 : keyKnown model key = false ∨ materialKnown db bad = false) :
    (addVisualPropertiesToModel model (preKeys ++ (key, pre ++ bad :: post) :: postKeys) db g
      ).ok = false ∧
    (addVisualPropertiesToModel model (preKeys ++ (key, pre ++ bad :: post) :: postKeys) db g
      ).modelGeometries =
      (addVisualPropertiesToModel model (preKeys ++ [(key, pre)]) db g).modelGeometries ∧
    ∀ i, ∃ l,
      (addVisualPropertiesToModel model (preKeys ++ (key, pre ++ bad :: post) :: postKeys) db g
        ).modelGeometries.linkSolidShapes i = g.linkSolidShapes i ++ l := by
  unfold addVisualPropertiesToModel at h1 ⊢
  have hpre : (addVisual_keys model db preKeys g).ok = true := by
    have := (addVisual_keys_spec model db (preKeys ++ [(key, pre)]) g).1.mp h1
    apply (addVisual_keys_spec model db preKeys g).1.mpr
    intro kv hkv
    exact this kv (List.mem_append_left _ hkv)
  obtain ⟨a1, a2⟩ := addVisual_keys_append model db preKeys [(key, pre)] g hpre
  obtain ⟨b1, b2⟩ := addVisual_keys_append model db preKeys
    ((key, pre ++ bad :: post) :: postKeys) g hpre
  generalize (addVisual_keys model db preKeys g).modelGeometries = g1 at a1 a2 b1 b2
  rw [a1] at h1
  have hshapes : (addVisual_shapes model db key (model.isLinkNameUsed key) pre g1).ok = true := by
    unfold addVisual_keys at h1
    simp only [] at h1
    by_contra hc
    rw [if_neg hc] at h1
    simp at h1
  have ekeys : (addVisual_keys model db [(key, pre)] g1).modelGeometries =
      (addVisual_shapes model db key (model.isLinkNameUsed key) pre g1).modelGeometries := by
    unfold addVisual_keys
    simp only []
    rw [if_pos hshapes]
    rfl
  obtain ⟨c1, c2⟩ := addVisual_shapes_append model db key (model.isLinkNameUsed key) pre
    (bad :: post) g1 hshapes
  generalize hg2 : (addVisual_shapes model db key (model.isLinkNameUsed key) pre g1
    ).modelGeometries = g2 at c1 c2 ekeys
  have hbad : ∀ r, addVisual_shape model db key (model.isLinkNameUsed key) bad g2 ≠
      Except.ok r := by
    intro r hr
    have := (addVisual_shape_isOk model db key bad g2).mp ⟨r, hr⟩
    rcases h2 with h2 | h2
    · rw [h2] at this; exact absurd this.1 (by simp)
    · rw [h2] at this; exact absurd this.2 (by simp)
  have htail : (addVisual_shapes model db key (model.isLinkNameUsed key) (bad :: post) g2).ok =
      false ∧
      (addVisual_shapes model db key (model.isLinkNameUsed key) (bad :: post) g2
        ).modelGeometries = g2 := by
    unfold addVisual_shapes
    cases hs : addVisual_shape model db key (model.isLinkNameUsed key) bad g2 with
    | error e => exact ⟨rfl, rfl⟩
    | ok r => exact absurd hs (hbad r)
  have hfail : (addVisual_shapes model db key (model.isLinkNameUsed key) (pre ++ bad :: post)
      g1).ok = false := by rw [c1]; exact htail.1
  have hcont : (addVisual_shapes model db key (model.isLinkNameUsed key) (pre ++ bad :: post)
      g1).modelGeometries = g2 := by rw [c2]; exact htail.2
  have hkeys : (addVisual_keys model db ((key, pre ++ bad :: post) :: postKeys) g1).ok = false ∧
      (addVisual_keys model db ((key, pre ++ bad :: post) :: postKeys) g1).modelGeometries =
        g2 := by
    unfold addVisual_keys
    simp only []
    rw [if_neg (by rw [hfail]; simp)]
    exact ⟨rfl, hcont⟩
  refine ⟨?_, ?_, ?_⟩
  · rw [b1]; exact hkeys.1
  · rw [b2, a2, ekeys]; exact hkeys.2
  · exact (addVisual_keys_spec model db _ g).2

/-- Witness of claim C19 as amended: under the link `A`, a visual that
resolves followed by a visual of unknown material `blue`. -/
theorem addVisualPropertiesToModel_failure_witness :
    (addVisualPropertiesToModel exFrameModel ([] ++ [("A", [exVisual none])]) exMaterials
      ModelSolidShapes.empty).ok = true ∧
    (keyKnown exFrameModel "A" = false ∨
      materialKnown exMaterials (exVisual (some ⟨"blue", none⟩)) = false) ∧
    (addVisualPropertiesToModel exFrameModel
      ([] ++ ("A", [exVisual none] ++ exVisual (some ⟨"blue", none⟩) :: []) :: []) exMaterials
      ModelSolidShapes.empty).ok = false ∧
    (addVisualPropertiesToModel exFrameModel
      ([] ++ ("A", [exVisual none] ++ exVisual (some ⟨"blue", none⟩) :: []) :: []) exMaterials
      ModelSolidShapes.empty).modelGeometries =
      (addVisualPropertiesToModel exFrameModel ([] ++ [("A", [exVisual none])]) exMaterials
        ModelSolidShapes.empty).modelGeometries :=
  ⟨by decide, Or.inr (by decide),
    (addVisualPropertiesToModel_failure exFrameModel exMaterials [] [] "A" [exVisual none] []
      (exVisual (some ⟨"blue", none⟩)) ModelSolidShapes.empty (by decide)
      (Or.inr (by decide))).1,
    (addVisualPropertiesToModel_failure exFrameModel exMaterials [] [] "A" [exVisual none] []
      (exVisual (some ⟨"blue", none⟩)) ModelSolidShapes.empty (by decide)
      (Or.inr (by decide))).2.1⟩

/-- Counterexample to claim C19: the call on a visual that resolves followed
by a visual of unknown material returns false, and the shape of the first
visual is in the list of link `A`, which was empty before the call. -/
theorem addVisualPropertiesToModel_not_all_or_nothing :
    (addVisualPropertiesToModel exFrameModel
      [("A", [exVisual none, exVisual (some ⟨"blue", none⟩)])] exMaterials
      ModelSolidShapes.empty).ok = false ∧
    (ModelSolidShapes.empty : ModelSolidShapes Rat).linkSolidShapes 0 = [] ∧
    (addVisualPropertiesToModel exFrameModel
      [("A", [exVisual none, exVisual (some ⟨"blue", none⟩)])] exMaterials
      ModelSolidShapes.empty).modelGeometries.linkSolidShapes 0 =
      [⟨"v", 2, ⟨0, 0, 0, 1⟩, Geometry.sphere 1⟩] := by
  decide

/-! ### Claim on two massless links -/

/-- Among no names, no name is the name of a link to put a frame on. -/
theorem fakeLinkFrame_nil [Inv T] (m : Model T) (n : String) : fakeLinkFrame m [] n = none := by
  unfold fakeLinkFrame
  simp only []
  cases m.getJoint (m.getNeighbor (m.getLinkIndex n) 0).neighborJoint with
  | none => rfl
  | some j => simp [Model.indexOfName]

/-- Claim C26. For a model that satisfies the Model invariant and consists
of exactly two links of mass 0 joined by one joint with zero degrees of
freedom: both links are classified fake; the output of `removeFakeLinks`
has no link, no joint and no frame, and no default base link; the name
computed for the new default base link does not resolve in the output
(`getLinkIndex` gives `LINK_INVALID_INDEX`); and `removeFakeLinks` returns
false. -/
theorem removeFakeLinks_two_massless_links [Inv T] (m : Model T) (wf : m.WellFormed)
    (jn : String) (j : IJoint T)
    (hlen : m.links.length = 2) (hjs : m.joints = [(jn, j)])
    (hmass : ∀ p ∈ m.links, p.2.getInertia.getMass = 0) (hd : j.getNrOfDOFs = 0) :
    isFakeLink m 0 = true ∧ isFakeLink m 1 = true ∧
    (removeFakeLinks m).1 = false ∧
    (removeFakeLinks m).2.links = [] ∧ (removeFakeLinks m).2.joints = [] ∧
    (removeFakeLinks m).2.frames = [] ∧
    (removeFakeLinks m).2.getDefaultBaseLink = LINK_INVALID_INDEX ∧
    (removeFakeLinks m).2.getLinkIndex (removeFakeLinks_scan m).newDefaultBaseLink =
      LINK_INVALID_INDEX := by
  have hjlen : m.joints.length = 1 := by rw [hjs]; rfl
  have hb0 : 0 < m.joints.length := by omega
  have hj0 : m.joints[0] = (jn, j) := by simp [hjs]
  obtain ⟨v1, v2, v3, v4, v5⟩ := wf.joints_valid (jn, j) (by rw [hjs]; simp)
  simp only at v1 v2 v3 v4 v5
  have hends : (j.link1 = 0 ∧ j.link2 = 1) ∨ (j.link1 = 1 ∧ j.link2 = 0) := by omega
  have hnb0 : m.neighbors 0 = [⟨1, 0⟩] := by
    unfold Model.neighbors
    rw [hjs]
    rcases hends with ⟨h1, h2⟩ | ⟨h1, h2⟩
    · simp [Model.neighborsFrom, h1, h2]
    · simp [Model.neighborsFrom, h1, h2]
  have hnb1 : m.neighbors 1 = [⟨0, 0⟩] := by
    unfold Model.neighbors
    rw [hjs]
    rcases hends with ⟨h1, h2⟩ | ⟨h1, h2⟩
    · simp [Model.neighborsFrom, h1, h2]
    · simp [Model.neighborsFrom, h1, h2]
  have hgj : m.getJoint 0 = some j := by
    have := m.getJoint_natCast 0 (by omega)
    rw [hj0] at this
    simpa using this
  have hfake : ∀ k : Nat, k < 2 → isFakeLink m (k : Int) = true := by
    intro k hk
    have hkl : k < m.links.length := by omega
    rw [isFakeLink_iff]
    refine ⟨(m.links[k]).2, m.getLink_natCast k hkl, ?_, ?_, j, ?_, hd⟩
    · rw [hmass _ (List.getElem_mem hkl)]; simp
    · unfold Model.getNrOfNeighbors
      interval_cases k
      · simp [hnb0]
      · simp [hnb1]
    · unfold Model.getNeighbor
      interval_cases k
      · simp [hnb0, hgj]
      · simp [hnb1, hgj]
  have hf0 : isFakeLink m 0 = true := by simpa using hfake 0 (by omega)
  have hf1 : isFakeLink m 1 = true := by simpa using hfake 1 (by omega)
  have hsurv : survivingLinks m = [] := by
    unfold survivingLinks
    rw [List.filter_eq_nil_iff]
    intro p hp
    obtain ⟨k, hk, rfl⟩ := List.getElem_of_mem hp
    have hmem := (getLinkName_mem_linksToRemove m wf.linkNames_nodup (k : Int) (by omega)
      (by omega)).mpr (hfake k (by omega))
    rw [m.getLinkName_natCast k hk] at hmem
    simp [hmem]
  have hsj : survivingJoints m = [] := by
    unfold survivingJoints
    rw [hjs]
    have : jn ∈ (removeFakeLinks_scan m).jointsToRemove := by
      have h := (jointName_mem_jointsToRemove m wf.jointNames_nodup 0 (by omega)).mpr (by
        unfold jointTouchesFakeLink
        simp only [Nat.cast_zero, hgj, IJoint.getFirstAttachedLink, IJoint.getSecondAttachedLink]
        rcases hends with ⟨h1, h2⟩ | ⟨h1, h2⟩
        · rw [h1, hf0]; simp
        · rw [h2, hf0]; simp)
      rw [hj0] at h
      exact h
    simp [List.filter_cons, this]
  have hbuild := removeFakeLinks_build_eq m wf
  rw [hsurv, hsj] at hbuild
  have hfr : (removedLinks m).filterMap (fun p => fakeLinkFrame m ([] : List String) p.1) =
      [] := by
    rw [List.filterMap_eq_nil_iff]
    intro p _
    exact fakeLinkFrame_nil m p.1
  simp only [List.map_nil, hfr] at hbuild
  have hidx : ∀ n, (removeFakeLinks_build m).getLinkIndex n = LINK_INVALID_INDEX := by
    intro n
    rw [hbuild]
    simp [Model.getLinkIndex, Model.linkNames, Model.ofLinks, Model.indexOfName,
      LINK_INVALID_INDEX]
  have hres : removeFakeLinks m = (false, removeFakeLinks_build m) := by
    unfold removeFakeLinks
    simp only [hidx]
    unfold Model.setDefaultBaseLink
    rw [if_pos (Or.inl (by decide))]
  refine ⟨hf0, hf1, ?_, ?_, ?_, ?_, ?_, ?_⟩
  · rw [hres]
  · rw [hres, hbuild]; rfl
  · rw [hres, hbuild]
  · rw [hres, hbuild]
  · rw [hres, hbuild]; rfl
  · rw [hres]; exact hidx _

theorem exTwoMassless_wellFormed : exTwoMassless.WellFormed :=
  ⟨by decide, by decide, by decide, by decide⟩

/-- Witness of claim C26: the massless links `A` and `B` of `exTwoMassless`,
joined by a fixed joint. -/
theorem removeFakeLinks_two_massless_links_witness :
    exTwoMassless.WellFormed ∧ exTwoMassless.links.length = 2 ∧
    (∀ p ∈ exTwoMassless.links, p.2.getInertia.getMass = 0) ∧
    ({ exFixed with link1 := 0, link2 := 1 } : IJoint Rat).getNrOfDOFs = 0 ∧
    (isFakeLink exTwoMassless 0 = true ∧ isFakeLink exTwoMassless 1 = true ∧
      (removeFakeLinks exTwoMassless).1 = false ∧
      (removeFakeLinks exTwoMassless).2.links = [] ∧
      (removeFakeLinks exTwoMassless).2.joints = [] ∧
      (removeFakeLinks exTwoMassless).2.frames = [] ∧
      (removeFakeLinks exTwoMassless).2.getDefaultBaseLink = LINK_INVALID_INDEX ∧
      (removeFakeLinks exTwoMassless).2.getLinkIndex
        (removeFakeLinks_scan exTwoMassless).newDefaultBaseLink = LINK_INVALID_INDEX) :=
  ⟨exTwoMassless_wellFormed, by decide, by decide, by decide,
    removeFakeLinks_two_massless_links exTwoMassless exTwoMassless_wellFormed "j"
      { exFixed with link1 := 0, link2 := 1 } (by decide) rfl (by decide) (by decide)⟩

/-! ### Claims on the frames of the force/torque sensors and on failures of the publication -/

theorem addSensorFrames_linkSensors_eq_foldl (l : List (Sensor T)) (s : SensorFramesState T)
    (h : ∀ x ∈ l, x.getSensorType ≠ SensorType.SIX_AXIS_FORCE_TORQUE) :
    addSensorFrames_linkSensors l s = Except.ok (l.foldl publishSensorFrame s) := by
  induction l generalizing s with
  | nil => rfl
  | cons x rest ih =>
    have hrest : ∀ y ∈ rest, y.getSensorType ≠ SensorType.SIX_AXIS_FORCE_TORQUE :=
      fun y hy => h y (List.mem_cons_of_mem _ hy)
    cases x with
    | sixAxisForceTorque name l1 l2 n1 n2 t1 t2 =>
      exact absurd rfl (h _ (List.mem_cons_self _ _))
    | linkSensor kind name parent t =>
      rw [List.foldl_cons]
      simp only [addSensorFrames_linkSensors, publishSensorFrame, Sensor.getName]
      split_ifs <;> exact ih _ hrest

theorem addSensorFrames_ftSensors_eq_foldl (l : List (Sensor T)) (s : SensorFramesState T)
    (h : ∀ x ∈ l, x.getSensorType = SensorType.SIX_AXIS_FORCE_TORQUE) :
    addSensorFrames_ftSensors l s = l.foldl publishSensorFrame s := by
  induction l generalizing s with
  | nil => rfl
  | cons x rest ih =>
    have hrest : ∀ y ∈ rest, y.getSensorType = SensorType.SIX_AXIS_FORCE_TORQUE :=
      fun y hy => h y (List.mem_cons_of_mem _ hy)
    cases x with
    | linkSensor kind name parent t =>
      have := h _ (List.mem_cons_self _ _)
      cases kind <;> simp [Sensor.getSensorType, LinkSensorType.toSensorType] at this
    | sixAxisForceTorque name l1 l2 n1 n2 t1 t2 =>
      rw [List.foldl_cons]
      simp only [addSensorFrames_ftSensors, publishSensorFrame, Sensor.getName]
      by_cases hu : s.model.isFrameNameUsed name = true
      · simp only [hu, if_true]
        exact ih _ hrest
      · simp only [hu, Bool.false_eq_true, if_false]
        cases hx : sixAxisLinkSensorTransform l1 l2 t1 t2 l2 with
        | none =>
          simp only [Bool.not_false, if_true]
          exact ih _ hrest
        | some t =>
          simp only []
          cases hb : (s.model.addAdditionalFrameToLink n2 name t).1
          · simp only [Bool.not_false, if_true]
            exact ih _ hrest
          · simp only [Bool.not_true, Bool.false_eq_true, if_false]
            exact ih _ hrest

theorem getSensors_type (sensors : SensorsList T) (type : SensorType) :
    ∀ x ∈ sensors.getSensors type, x.getSensorType = type := by
  intro x hx
  unfold SensorsList.getSensors at hx
  rw [List.mem_filter] at hx
  simpa using hx.2

theorem addSensorFrames_type_eq_foldl (sensors : SensorsList T) (type : SensorType)
    (s : SensorFramesState T) :
    addSensorFrames_type sensors type s =
      Except.ok ((sensors.getSensors type).foldl publishSensorFrame s) := by
  unfold addSensorFrames_type
  by_cases ht : type = SensorType.SIX_AXIS_FORCE_TORQUE
  · subst ht
    simp only [isLinkSensor, Bool.false_eq_true, if_false, if_true]
    rw [addSensorFrames_ftSensors_eq_foldl _ _ (getSensors_type sensors _)]
  · have hl : isLinkSensor type = true := by
      cases type <;> first | rfl | exact absurd rfl ht
    simp only [hl, if_true]
    rw [addSensorFrames_linkSensors_eq_foldl _ _
      (fun x hx => by rw [getSensors_type sensors type x hx]; exact ht)]
    simp only [if_neg ht]

theorem addSensorFrames_types_eq_foldl (sensors : SensorsList T) (types : List SensorType)
    (s : SensorFramesState T) :
    addSensorFrames_types sensors types s =
      Except.ok ((publicationOrder sensors types).foldl publishSensorFrame s) := by
  induction types generalizing s with
  | nil => rfl
  | cons type rest ih =>
    simp only [addSensorFrames_types, addSensorFrames_type_eq_foldl, publicationOrder,
      List.foldl_append]
    exact ih _

/-- The publication of the sensor frames is one pass over all the sensors:
no sensor stops it. -/
theorem addSensorFrames_eq_foldl (model : Model T) (sensors : SensorsList T) :
    addSensorFramesAsAdditionalFramesToModel model sensors =
      (((publicationOrder sensors allSensorTypes).foldl publishSensorFrame ⟨true, model, []⟩).ret,
       ((publicationOrder sensors allSensorTypes).foldl publishSensorFrame ⟨true, model, []⟩).model,
       ((publicationOrder sensors allSensorTypes).foldl publishSensorFrame ⟨true, model, []⟩).log)
    := by
  unfold addSensorFramesAsAdditionalFramesToModel
  rw [addSensorFrames_types_eq_foldl]

/-- A failure to add a frame leaves the model as it is. -/
theorem Model.addAdditionalFrameToLink_false (m : Model T) (ln fn : String) (t : T)
    (h : (m.addAdditionalFrameToLink ln fn t).1 = false) :
    (m.addAdditionalFrameToLink ln fn t).2 = m := by
  unfold Model.addAdditionalFrameToLink at h ⊢
  simp only [] at h ⊢
  split_ifs at h ⊢ <;> rfl

/-- The flag `ret` has no influence on what is done for a sensor, and a step
never sets it back to true. -/
theorem publishSensorFrame_ret (s : SensorFramesState T) (x : Sensor T) (b : Bool) :
    (publishSensorFrame { s with ret := b } x).model = (publishSensorFrame s x).model ∧
    (publishSensorFrame { s with ret := b } x).log = (publishSensorFrame s x).log ∧
    (publishSensorFrame { s with ret := false } x).ret = false ∧
    ((publishSensorFrame { s with ret := true } x).ret = false →
      (publishSensorFrame s x).ret = false ∧ (publishSensorFrame s x).model = s.model) := by
  unfold publishSensorFrame
  simp only []
  by_cases hu : s.model.isFrameNameUsed x.getName = true
  · simp [hu]
  · simp only [hu, Bool.false_eq_true, if_false]
    cases x with
    | linkSensor kind name parent t =>
      simp only []
      cases hb : (s.model.addAdditionalFrameToLink (s.model.getLinkName parent) name t).1
      · simp [Model.addAdditionalFrameToLink_false _ _ _ _ hb]
      · simp
    | sixAxisForceTorque name l1 l2 n1 n2 t1 t2 =>
      cases hx : sixAxisLinkSensorTransform l1 l2 t1 t2 l2 with
      | none => simp [hx]
      | some t =>
        simp only [hx]
        cases hb : (s.model.addAdditionalFrameToLink n2 name t).1
        · simp [Model.addAdditionalFrameToLink_false _ _ _ _ hb]
        · simp

/-- What is done for a sensor depends on the model only, the log only
grows, and the flag `ret`, once false, stays false. -/
theorem publishSensorFrame_congr (s s' : SensorFramesState T) (x : Sensor T)
    (h : s.model = s'.model) :
    (publishSensorFrame s x).model = (publishSensorFrame s' x).model ∧
    (s.ret = false → (publishSensorFrame s x).ret = false) ∧
    (∀ r ∈ s.log, r ∈ (publishSensorFrame s x).log) := by
  unfold publishSensorFrame
  simp only [h]
  split_ifs
  · exact ⟨rfl, fun hr => hr, fun r hr => List.mem_append_left _ hr⟩
  · exact ⟨rfl, fun _ => rfl, fun r hr => List.mem_append_left _ hr⟩
  · exact ⟨rfl, fun hr => hr, fun r hr => hr⟩

theorem foldl_publishSensorFrame_congr (l : List (Sensor T)) (s s' : SensorFramesState T)
    (h : s.model = s'.model) :
    (l.foldl publishSensorFrame s).model = (l.foldl publishSensorFrame s').model ∧
    (s.ret = false → (l.foldl publishSensorFrame s).ret = false) ∧
    (∀ r ∈ s.log, r ∈ (l.foldl publishSensorFrame s).log) := by
  induction l generalizing s s' with
  | nil => exact ⟨h, fun hr => hr, fun r hr => hr⟩
  | cons x rest ih =>
    simp only [List.foldl_cons]
    obtain ⟨a1, a2, a3⟩ := publishSensorFrame_congr s s' x h
    obtain ⟨b1, b2, b3⟩ := ih _ _ a1
    exact ⟨b1, fun hr => b2 (a2 hr), fun r hr => b3 r (a3 r hr)⟩

/-- A step that fails: the flag is false, the model is as before and the
error is in the log. -/
theorem publishSensorFrame_fail (s : SensorFramesState T) (x : Sensor T)
    (h : (publishSensorFrame { s with ret := true } x).ret = false) :
    (publishSensorFrame s x).ret = false ∧ (publishSensorFrame s x).model = s.model ∧
    reportError "" "addSensorFramesAsAdditionalFramesToModel"
      (sensorFrameMessage x.getName " for unknown reasons") ∈ (publishSensorFrame s x).log := by
  obtain ⟨h1, h2⟩ := (publishSensorFrame_ret s x true).2.2.2 h
  refine ⟨h1, h2, ?_⟩
  unfold publishSensorFrame at h ⊢
  simp only [] at h ⊢
  split_ifs at h ⊢ with c1 c2
  simp

/-- Claim C22. When the publication reaches a sensor `x` for which the frame
cannot be added (the step for `x` sets the flag `ret` to false), the
sensors `pre` being visited before it and the sensors `post` after it:
`addSensorFramesAsAdditionalFramesToModel` returns false, the error for `x`
is reported, and the resulting model is the one that the publication of
all the other sensors, `pre` then `post`, produces: the failure leaves the
model as it is and every remaining sensor of every remaining kind is
treated as if `x` were not there. -/
theorem addSensorFrames_failure_continues (model : Model T) (sensors : SensorsList T)
    (pre post : List (Sensor T)) (x : Sensor T)
    (hord : publicationOrder sensors allSensorTypes = pre ++ x :: post)
    (hfail : (publishSensorFrame
      { pre.foldl publishSensorFrame ⟨true, model, []⟩ with ret := true } x).ret = false) :
    (addSensorFramesAsAdditionalFramesToModel model sensors).1 = false ∧
    (addSensorFramesAsAdditionalFramesToModel model sensors).2.1 =
      ((pre ++ post).foldl publishSensorFrame ⟨true, model, []⟩).model ∧
    reportError "" "addSensorFramesAsAdditionalFramesToModel"
      (sensorFrameMessage x.getName " for unknown reasons") ∈
        (addSensorFramesAsAdditionalFramesToModel model sensors).2.2 := by
  rw [addSensorFrames_eq_foldl, hord]
  simp only [List.foldl_append, List.foldl_cons]
  obtain ⟨f1, f2, f3⟩ := publishSensorFrame_fail _ x hfail
  obtain ⟨c1, c2, c3⟩ := foldl_publishSensorFrame_congr post _ _ f2
  exact ⟨c2 f1, c1, c3 _ f3⟩

/-- Witness of claim C22: on `exTwoLinks` the accelerometer `bad` of the
link index 7, which is no link, cannot get its frame; the gyroscope `g` of
link `A`, visited after it, gets its frame, and the call returns false. -/
theorem addSensorFrames_failure_continues_witness :
    publicationOrder exSensorsOneBad allSensorTypes =
      [] ++ Sensor.linkSensor LinkSensorType.ACCELEROMETER "bad" 7 1 ::
        [Sensor.linkSensor LinkSensorType.GYROSCOPE "g" 0 2] ∧
    (addSensorFramesAsAdditionalFramesToModel exTwoLinks exSensorsOneBad).1 = false ∧
    (addSensorFramesAsAdditionalFramesToModel exTwoLinks exSensorsOneBad).2.1 =
      (([] ++ [Sensor.linkSensor LinkSensorType.GYROSCOPE "g" 0 (2 : Rat)]).foldl
        publishSensorFrame ⟨true, exTwoLinks, []⟩).model ∧
    (addSensorFramesAsAdditionalFramesToModel exTwoLinks exSensorsOneBad).2.1.frames =
      [⟨"g", 0, 2⟩] :=
  ⟨by decide,
    (addSensorFrames_failure_continues exTwoLinks exSensorsOneBad []
      [Sensor.linkSensor LinkSensorType.GYROSCOPE "g" 0 2]
      (Sensor.linkSensor LinkSensorType.ACCELEROMETER "bad" 7 1) (by decide) (by decide)).1,
    (addSensorFrames_failure_continues exTwoLinks exSensorsOneBad []
      [Sensor.linkSensor LinkSensorType.GYROSCOPE "g" 0 2]
      (Sensor.linkSensor LinkSensorType.ACCELEROMETER "bad" 7 1) (by decide) (by decide)).2.1,
    by decide⟩

/-! ### Claims on the order and on the reports of `processJoints` -/

/-- What `addJoint` does to the joint names: nothing, or it appends a name
that was not used. -/
theorem Model.addJoint_names (m : Model T) (n : String) (j : IJoint T) :
    (m.addJoint n j).2 = m ∨
    (n ∉ m.jointNames ∧ (m.addJoint n j).2.joints = m.joints ++ [(n, j)]) := by
  unfold Model.addJoint
  by_cases h1 : m.isJointNameUsed n = true
  · rw [if_pos h1]; left; rfl
  · rw [if_neg h1]
    have hn : n ∉ m.jointNames := by
      rw [← indexOfName_eq_neg_one]
      unfold Model.isJointNameUsed Model.getJointIndex at h1
      simpa [JOINT_INVALID_INDEX] using h1
    simp only []
    split_ifs
    · left; rfl
    · left; rfl
    · right; exact ⟨hn, rfl⟩

/-- A loop that calls `addJoint` once per entry adds at most one joint per
entry; when it adds one joint per entry, the names of the entries follow
the joint names of before, in the order of the entries, and they are
distinct and were not used. -/
theorem foldl_addJoint_names
    (f : JointLoopState T → String × JointInfo T → JointLoopState T)
    (hf : ∀ s p, ∃ j : IJoint T, (f s p).model = (s.model.addJoint p.1 j).2)
    (l : List (String × JointInfo T)) (s : JointLoopState T) :
    (l.foldl f s).model.joints.length ≤ s.model.joints.length + l.length ∧
    ((l.foldl f s).model.joints.length = s.model.joints.length + l.length →
      (l.foldl f s).model.jointNames = s.model.jointNames ++ l.map Prod.fst ∧
      (l.map Prod.fst).Nodup ∧ ∀ n ∈ l.map Prod.fst, n ∉ s.model.jointNames) := by
  induction l generalizing s with
  | nil => simp
  | cons p rest ih =>
    rw [List.foldl_cons]
    obtain ⟨j, hm⟩ := hf s p
    obtain ⟨i1, i2⟩ := ih (f s p)
    have hstep : (f s p).model.joints.length ≤ s.model.joints.length + 1 := by
      rw [hm]
      rcases Model.addJoint_names s.model p.1 j with h | ⟨-, h⟩
      · rw [h]; omega
      · rw [h]; simp
    refine ⟨by simp only [List.length_cons]; omega, ?_⟩
    intro hlen
    simp only [List.length_cons] at hlen
    have hlen1 : (f s p).model.joints.length = s.model.joints.length + 1 := by omega
    obtain ⟨e1, e2, e3⟩ := i2 (by omega)
    rcases Model.addJoint_names s.model p.1 j with h | ⟨hn, h⟩
    · rw [hm, h] at hlen1; omega
    · have hnames : (f s p).model.jointNames = s.model.jointNames ++ [p.1] := by
        rw [hm]; unfold Model.jointNames; rw [h]; simp
      rw [hnames] at e1 e3
      refine ⟨?_, ?_, ?_⟩
      · rw [e1]; simp
      · rw [List.map_cons, List.nodup_cons]
        refine ⟨?_, e2⟩
        intro hc
        exact e3 _ hc (by simp)
      · intro n hn'
        rw [List.map_cons, List.mem_cons] at hn'
        rcases hn' with rfl | hn'
        · exact hn
        · intro hc
          exact e3 _ hn' (by simp [hc])

/-- The index of a name that follows a list of names in which it does not
occur. -/
theorem indexOfName_append (pre names : List String) (hn : names.Nodup) (k : Nat)
    (hk : k < names.length) (hpre : names[k] ∉ pre) (post : List String) :
    Model.indexOfName (pre ++ names ++ post) names[k] = (pre.length : Int) + (k : Int) := by
  unfold Model.indexOfName
  have hmem : names[k] ∈ pre ++ names := List.mem_append_right _ (List.getElem_mem hk)
  rw [List.indexOf_append_of_mem hmem, List.indexOf_append_of_not_mem hpre,
    List.indexOf_getElem hn k hk]
  rw [if_pos (by simp; omega)]
  simp

/-- Claim C23. When every insertion of `processJoints` succeeds, that is when
the model has gained one joint for every entry of the two mappings: the
joint names of the model are the joint names of before, then the names of
the ordinary mapping, then the names of the fixed mapping, each in the
order of iteration; the joint of the `i`-th ordinary entry has the index
`n + i` and the joint of the `k`-th fixed entry the index `n + |js| + k`,
`n` being the number of joints of before; so the index of every fixed joint
is greater than the index of every ordinary joint. -/
theorem processJoints_fixed_joints_last (m : Model T) (js fs : List (String × JointInfo T))
    (hall : (processJoints m js fs).model.joints.length =
      m.joints.length + js.length + fs.length) :
    (processJoints m js fs).model.jointNames =
      m.jointNames ++ js.map Prod.fst ++ fs.map Prod.fst ∧
    (∀ (i : Nat) (hi : i < js.length),
      (processJoints m js fs).model.getJointIndex (js[i]).1 =
        (m.joints.length : Int) + (i : Int)) ∧
    (∀ (k : Nat) (hk : k < fs.length),
      (processJoints m js fs).model.getJointIndex (fs[k]).1 =
        (m.joints.length : Int) + (js.length : Int) + (k : Int)) ∧
    ∀ p ∈ js, ∀ q ∈ fs,
      (processJoints m js fs).model.getJointIndex p.1 <
        (processJoints m js fs).model.getJointIndex q.1 := by
  have hj : ∀ (s : JointLoopState T) p, ∃ j : IJoint T,
      (processJoints_joint s p).model = (s.model.addJoint p.1 j).2 := by
    intro s p
    obtain ⟨j, h, -⟩ := processJoints_joint_model s p
    exact ⟨j, h⟩
  have hfx : ∀ (s : JointLoopState T) p, ∃ j : IJoint T,
      (processJoints_fixed s p).model = (s.model.addJoint p.1 j).2 := by
    intro s p
    obtain ⟨j, h, -⟩ := processJoints_fixed_model s p
    exact ⟨j, h⟩
  obtain ⟨a1, a2⟩ := foldl_addJoint_names processJoints_joint hj js ⟨m, [], [], []⟩
  obtain ⟨b1, b2⟩ := foldl_addJoint_names processJoints_fixed hfx fs
    { (js.foldl processJoints_joint ⟨m, [], [], []⟩) with visited := [] }
  have hmodel : (processJoints m js fs).model =
      (fs.foldl processJoints_fixed
        { (js.foldl processJoints_joint ⟨m, [], [], []⟩) with visited := [] }).model := rfl
  have hall2 : (fs.foldl processJoints_fixed
      { (js.foldl processJoints_joint ⟨m, [], [], []⟩) with visited := [] }).model.joints.length =
      m.joints.length + js.length + fs.length := hall
  rw [hmodel]
  simp only [] at a1 a2 b1 b2 hall2 ⊢
  obtain ⟨c1, c2, c3⟩ := a2 (by omega)
  obtain ⟨d1, d2, d3⟩ := b2 (by omega)
  rw [c1] at d1 d3
  have hmlen : m.jointNames.length = m.joints.length := by simp [Model.jointNames]
  have hidxJ : ∀ (i : Nat) (hi : i < js.length),
      Model.indexOfName (m.jointNames ++ js.map Prod.fst ++ fs.map Prod.fst) (js[i]).1 =
        (m.joints.length : Int) + (i : Int) := by
    intro i hi
    have hi' : i < (js.map Prod.fst).length := by simpa using hi
    have e : (js.map Prod.fst)[i] = (js[i]).1 := by simp
    have := indexOfName_append m.jointNames (js.map Prod.fst) c2 i hi'
      (c3 _ (List.getElem_mem hi')) (fs.map Prod.fst)
    rw [e, hmlen] at this
    exact this
  have hidxF : ∀ (k : Nat) (hk : k < fs.length),
      Model.indexOfName (m.jointNames ++ js.map Prod.fst ++ fs.map Prod.fst) (fs[k]).1 =
        (m.joints.length : Int) + (js.length : Int) + (k : Int) := by
    intro k hk
    have hk' : k < (fs.map Prod.fst).length := by simpa using hk
    have e : (fs.map Prod.fst)[k] = (fs[k]).1 := by simp
    have := indexOfName_append (m.jointNames ++ js.map Prod.fst) (fs.map Prod.fst) d2 k hk'
      (d3 _ (List.getElem_mem hk')) []
    rw [List.append_nil, e] at this
    rw [this]
    simp [hmlen]
  refine ⟨d1, ?_, ?_, ?_⟩
  · intro i hi
    unfold Model.getJointIndex
    rw [d1]; exact hidxJ i hi
  · intro k hk
    unfold Model.getJointIndex
    rw [d1]; exact hidxF k hk
  · intro p hp q hq
    obtain ⟨i, hi, rfl⟩ := List.getElem_of_mem hp
    obtain ⟨k, hk, rfl⟩ := List.getElem_of_mem hq
    unfold Model.getJointIndex
    rw [d1, hidxJ i hi, hidxF k hk]
    omega

/-- Witness of claim C23: the fixed joint `j0` gets the index 1, after the
revolute joint `j1` of index 0. -/
theorem processJoints_fixed_joints_last_witness :
    (processJoints exThreeLinks [exPendingRevolute] [exPendingFixed]).model.joints.length =
      exThreeLinks.joints.length + [exPendingRevolute].length + [exPendingFixed].length ∧
    (processJoints exThreeLinks [exPendingRevolute] [exPendingFixed]).model.jointNames =
      exThreeLinks.jointNames ++ [exPendingRevolute].map Prod.fst ++
        [exPendingFixed].map Prod.fst ∧
    (processJoints exThreeLinks [exPendingRevolute] [exPendingFixed]).model.getJointIndex "j1" = 0 ∧
    (processJoints exThreeLinks [exPendingRevolute] [exPendingFixed]).model.getJointIndex "j0" = 1 :=
  ⟨by decide,
    (processJoints_fixed_joints_last exThreeLinks [exPendingRevolute] [exPendingFixed]
      (by decide)).1,
    by decide, by decide⟩

theorem processJoints_joint_spec (s : JointLoopState T) (p : String × JointInfo T) :
    (processJoints_joint s p).model = attachPendingJoint true s.model p ∧
    (processJoints_joint s p).log =
      s.log ++ (if p.2.joint.variant.hasAxis then [] else [unrecognizedJointReport]) ∧
    (processJoints_joint s p).visited.map Prod.fst = s.visited.map Prod.fst ++ [p.1] := by
  unfold processJoints_joint attachPendingJoint pendingJointObject
  simp only []
  have hv : (p.2.joint.setAttachedLinks (s.model.getLinkIndex p.2.parentLinkName)
      (s.model.getLinkIndex p.2.childLinkName)).variant = p.2.joint.variant := rfl
  rw [hv]
  cases p.2.joint.variant <;>
    simp [JointVariant.hasAxis, unrecognizedJointReport]

theorem processJoints_fixed_spec (s : JointLoopState T) (p : String × JointInfo T) :
    (processJoints_fixed s p).model = attachPendingJoint false s.model p ∧
    (processJoints_fixed s p).log = s.log ∧
    (processJoints_fixed s p).visited.map Prod.fst = s.visited.map Prod.fst ++ [p.1] := by
  unfold processJoints_fixed attachPendingJoint pendingJointObject
  simp

theorem foldl_processJoints_joint_spec (l : List (String × JointInfo T))
    (s : JointLoopState T) :
    (l.foldl processJoints_joint s).model = l.foldl (attachPendingJoint true) s.model ∧
    (l.foldl processJoints_joint s).log =
      s.log ++ (l.filter (fun p => !p.2.joint.variant.hasAxis)).map
        (fun _ => unrecognizedJointReport) ∧
    (l.foldl processJoints_joint s).visited.map Prod.fst =
      s.visited.map Prod.fst ++ l.map Prod.fst := by
  induction l generalizing s with
  | nil => simp
  | cons p rest ih =>
    simp only [List.foldl_cons]
    obtain ⟨a1, a2, a3⟩ := processJoints_joint_spec s p
    obtain ⟨b1, b2, b3⟩ := ih (processJoints_joint s p)
    refine ⟨by rw [b1, a1], ?_, by rw [b3, a3]; simp⟩
    rw [b2, a2]
    cases h : p.2.joint.variant.hasAxis <;> simp [List.filter_cons, h]

theorem foldl_processJoints_fixed_spec (l : List (String × JointInfo T))
    (s : JointLoopState T) :
    (l.foldl processJoints_fixed s).model = l.foldl (attachPendingJoint false) s.model ∧
    (l.foldl processJoints_fixed s).log = s.log ∧
    (l.foldl processJoints_fixed s).visited.map Prod.fst =
      s.visited.map Prod.fst ++ l.map Prod.fst := by
  induction l generalizing s with
  | nil => simp
  | cons p rest ih =>
    simp only [List.foldl_cons]
    obtain ⟨a1, a2, a3⟩ := processJoints_fixed_spec s p
    obtain ⟨b1, b2, b3⟩ := ih (processJoints_fixed s p)
    exact ⟨by rw [b1, a1], by rw [b2, a2], by rw [b3, a3]; simp⟩

/-- Claim C24. In `processJoints` nothing aborts the pass. The reports of the
call are one report `Unrecognized joint type` for every entry of the
ordinary mapping the joint of which is neither revolute nor prismatic, and
nothing else. The resulting model is the model after one call of `addJoint`
for every entry of the ordinary mapping and then one for every entry of the
fixed mapping, in the order of iteration, whatever the types of the joints.
Every entry of either mapping is visited once, and the child-link name of
every entry is in the returned set. -/
theorem processJoints_unrecognized_joint (m : Model T) (js fs : List (String × JointInfo T)) :
    (processJoints m js fs).log =
      (js.filter (fun p => !p.2.joint.variant.hasAxis)).map (fun _ => unrecognizedJointReport) ∧
    (processJoints m js fs).model =
      fs.foldl (attachPendingJoint false) (js.foldl (attachPendingJoint true) m) ∧
    (processJoints m js fs).joints.map Prod.fst = js.map Prod.fst ∧
    (processJoints m js fs).fixed_joints.map Prod.fst = fs.map Prod.fst ∧
    ∀ p, (p ∈ js ∨ p ∈ fs) → p.2.childLinkName ∈ (processJoints m js fs).childLinks := by
  obtain ⟨a1, a2, a3⟩ := foldl_processJoints_joint_spec js ⟨m, [], [], []⟩
  obtain ⟨b1, b2, b3⟩ := foldl_processJoints_fixed_spec fs
    { (js.foldl processJoints_joint ⟨m, [], [], []⟩) with visited := [] }
  refine ⟨?_, ?_, ?_, ?_, ?_⟩
  · have : (processJoints m js fs).log = (fs.foldl processJoints_fixed
        { (js.foldl processJoints_joint ⟨m, [], [], []⟩) with visited := [] }).log := rfl
    rw [this, b2]
    simpa using a2
  · have : (processJoints m js fs).model = (fs.foldl processJoints_fixed
        { (js.foldl processJoints_joint ⟨m, [], [], []⟩) with visited := [] }).model := rfl
    rw [this, b1]
    simp only []
    rw [a1]
  · have : (processJoints m js fs).joints =
        (js.foldl processJoints_joint ⟨m, [], [], []⟩).visited := rfl
    rw [this, a3]
    simp
  · have : (processJoints m js fs).fixed_joints = (fs.foldl processJoints_fixed
        { (js.foldl processJoints_joint ⟨m, [], [], []⟩) with visited := [] }).visited := rfl
    rw [this, b3]
    simp
  · intro p hp
    rw [mem_processJoints_childLinks]
    unfold pendingChildLinks
    rw [List.mem_map]
    exact ⟨p, by simpa using hp, rfl⟩

/-- Witness of claim C24: a fixed joint in the ordinary mapping, followed by
a revolute joint and by a joint of the fixed mapping, is reported once and
all three joints are added to the model. -/
theorem processJoints_unrecognized_joint_witness :
    (processJoints exThreeLinks [("k", ⟨exFixed, "A", "C", exAxis⟩), exPendingRevolute]
      [exPendingFixed]).log = [unrecognizedJointReport] ∧
    (processJoints exThreeLinks [("k", ⟨exFixed, "A", "C", exAxis⟩), exPendingRevolute]
      [exPendingFixed]).model.jointNames = ["k", "j1", "j0"] ∧
    "C" ∈ (processJoints exThreeLinks [("k", ⟨exFixed, "A", "C", exAxis⟩), exPendingRevolute]
      [exPendingFixed]).childLinks :=
  ⟨(processJoints_unrecognized_joint exThreeLinks
      [("k", ⟨exFixed, "A", "C", exAxis⟩), exPendingRevolute] [exPendingFixed]).1,
    by decide,
    (processJoints_unrecognized_joint exThreeLinks
      [("k", ⟨exFixed, "A", "C", exAxis⟩), exPendingRevolute] [exPendingFixed]).2.2.2.2
      ("k", ⟨exFixed, "A", "C", exAxis⟩) (Or.inl (by decide))⟩

/-! ### The shapes of the model before the shape stage -/

theorem Model.setDefaultBaseLink_shapes (m : Model T) (i : Int) :
    m.SameShapes (m.setDefaultBaseLink i).2 := by
  unfold Model.setDefaultBaseLink Model.SameShapes
  split_ifs <;> exact ⟨rfl, rfl⟩

theorem Model.addLink_shapes (m : Model T) (n : String) (l : Link) :
    m.SameShapes (m.addLink n l).2 := by
  unfold Model.addLink Model.SameShapes
  simp only []
  split_ifs
  · exact ⟨rfl, rfl⟩
  · exact Model.setDefaultBaseLink_shapes _ _
  · exact ⟨rfl, rfl⟩

theorem Model.addJoint_shapes (m : Model T) (n : String) (j : IJoint T) :
    m.SameShapes (m.addJoint n j).2 := by
  unfold Model.addJoint Model.SameShapes
  simp only []
  split_ifs <;> exact ⟨rfl, rfl⟩

theorem Model.addAdditionalFrameToLink_shapes (m : Model T) (ln fn : String) (t : T) :
    m.SameShapes (m.addAdditionalFrameToLink ln fn t).2 := by
  unfold Model.addAdditionalFrameToLink Model.SameShapes
  simp only []
  split_ifs <;> exact ⟨rfl, rfl⟩

theorem Model.SameShapes.noShapes {m m' : Model T} (h : m.SameShapes m') (hm : m.NoShapes) :
    m'.NoShapes :=
  ⟨h.1.trans hm.1, h.2.trans hm.2⟩

/-- The output model of `removeFakeLinks` has no shapes. -/
theorem removeFakeLinks_noShapes [Inv T] (m : Model T) : (removeFakeLinks m).2.NoShapes := by
  unfold removeFakeLinks
  simp only []
  refine (Model.setDefaultBaseLink_shapes _ _).noShapes ?_
  unfold removeFakeLinks_build
  simp only []
  refine foldl_range_induction (fun _ (cm : Model T) => cm.NoShapes) _ _ _ ?_ ?_
  · refine foldl_range_induction (fun _ (cm : Model T) => cm.NoShapes) _ _ _ ?_ ?_
    · refine foldl_range_induction (fun _ (cm : Model T) => cm.NoShapes) _ _ _ ?_ ?_
      · exact ⟨rfl, rfl⟩
      · intro k cm _ h
        unfold removeFakeLinks_addLink
        simp only []
        split_ifs
        all_goals first
          | exact h
          | (split <;> first | exact h | exact (Model.addLink_shapes _ _ _).noShapes h)
    · intro k cm _ h
      unfold removeFakeLinks_addJoint
      simp only []
      split_ifs
      all_goals first
        | exact h
        | (split <;> first | exact h | exact (Model.addJoint_shapes _ _ _).noShapes h)
  · intro k cm _ h
    unfold removeFakeLinks_addFrame
    simp only []
    split_ifs
    all_goals first
      | exact h
      | (split <;> first
          | exact h
          | exact (Model.addAdditionalFrameToLink_shapes _ _ _ _).noShapes h)

theorem publishSensorFrame_shapes (s : SensorFramesState T) (x : Sensor T) :
    s.model.SameShapes (publishSensorFrame s x).model := by
  unfold publishSensorFrame
  simp only []
  split_ifs
  · exact ⟨rfl, rfl⟩
  · cases x with
    | linkSensor kind name parent t => exact Model.addAdditionalFrameToLink_shapes _ _ _ _
    | sixAxisForceTorque name l1 l2 n1 n2 t1 t2 =>
      simp only []
      cases sixAxisLinkSensorTransform l1 l2 t1 t2 l2 with
      | none => exact ⟨rfl, rfl⟩
      | some t => exact Model.addAdditionalFrameToLink_shapes _ _ _ _
  · cases x with
    | linkSensor kind name parent t => exact Model.addAdditionalFrameToLink_shapes _ _ _ _
    | sixAxisForceTorque name l1 l2 n1 n2 t1 t2 =>
      simp only []
      cases sixAxisLinkSensorTransform l1 l2 t1 t2 l2 with
      | none => exact ⟨rfl, rfl⟩
      | some t => exact Model.addAdditionalFrameToLink_shapes _ _ _ _

/-- The publication of the sensor frames leaves the shapes as they are. -/
theorem addSensorFrames_shapes (model : Model T) (sensors : SensorsList T) :
    model.SameShapes (addSensorFramesAsAdditionalFramesToModel model sensors).2.1 := by
  rw [addSensorFrames_eq_foldl]
  simp only []
  have key : ∀ (l : List (Sensor T)) (s : SensorFramesState T),
      s.model.SameShapes (l.foldl publishSensorFrame s).model := by
    intro l
    induction l with
    | nil => intro s; exact ⟨rfl, rfl⟩
    | cons x rest ih =>
      intro s
      rw [List.foldl_cons]
      have h1 := publishSensorFrame_shapes s x
      have h2 := ih (publishSensorFrame s x)
      exact ⟨h2.1.trans h1.1, h2.2.trans h1.2⟩
  exact key _ ⟨true, model, []⟩

/-! ### Claim on the collision shapes -/

/-- Material resolution on a visual the shape of which is the shape it has
produced, renamed and moved: the same shape again. -/
theorem resolveVisualMaterial_again (db : List (String × MaterialInfo)) (ln : String)
    (visual : VisualInfo T) (sh : SolidShape T) (name : String) (t : T)
    (h : resolveVisualMaterial db ln visual = Except.ok sh) :
    resolveVisualMaterial db ln
        { visual with m_solidShape := { sh with name := name, link_H_geometry := t } } =
      Except.ok { sh with name := name, link_H_geometry := t } := by
  obtain ⟨o, shape, mat, nm⟩ := visual
  cases mat with
  | none =>
    have e : sh = shape := by
      simpa [resolveVisualMaterial] using h.symm
    subst e
    rfl
  | some material =>
    obtain ⟨n, rgba⟩ := material
    cases rgba with
    | some c =>
      have e : sh = { shape with material := c } := by
        simpa [resolveVisualMaterial] using h.symm
      subst e
      rfl
    | none =>
      cases hl : db.lookup n with
      | none => simp [resolveVisualMaterial, hl] at h
      | some found =>
        have e : sh = { shape with material := found.derefRgba } := by
          simpa [resolveVisualMaterial, hl] using h.symm
        subst e
        simp [resolveVisualMaterial, hl]

/-- The loop body on a visual that it has already resolved: the same
entry and the same shape again. -/
theorem addVisual_shape_again [One T] [Mul T] (model : Model T) (db : List (String × MaterialInfo))
    (key : String) (isLink : Bool) (visual visual1 : VisualInfo T) (g g1 : ModelSolidShapes T)
    (h : addVisual_shape model db key isLink visual g = Except.ok (visual1, g1)) :
    addVisual_shape model db key isLink visual1 g = Except.ok (visual1, g1) := by
  unfold addVisual_shape at h ⊢
  cases hf : resolveVisualFrame model key isLink visual with
  | error e => rw [hf] at h; simp at h
  | ok p =>
    obtain ⟨t, ln⟩ := p
    rw [hf] at h
    simp only [] at h
    cases hm : resolveVisualMaterial db ln visual with
    | error e => rw [hm] at h; simp at h
    | ok sh =>
      rw [hm] at h
      simp only [Except.ok.injEq, Prod.mk.injEq] at h
      obtain ⟨h1, h2⟩ := h
      have hf1 : resolveVisualFrame model key isLink visual1 = Except.ok (t, ln) := by
        rw [← h1]
        unfold resolveVisualFrame at hf ⊢
        exact hf
      have hm1 : resolveVisualMaterial db ln visual1 =
          Except.ok { sh with name := visual.m_name, link_H_geometry := t } := by
        rw [← h1]
        exact resolveVisualMaterial_again db ln visual sh visual.m_name t hm
      rw [hf1]
      simp only [hm1]
      rw [← h1, ← h2]

/-- The inner loop on the visuals that it has left: the same result. -/
theorem addVisual_shapes_again [One T] [Mul T] (model : Model T)
    (db : List (String × MaterialInfo)) (key : String) (isLink : Bool)
    (vs : List (VisualInfo T)) (g : ModelSolidShapes T) :
    (addVisual_shapes model db key isLink
      (addVisual_shapes model db key isLink vs g).visuals g).ok =
      (addVisual_shapes model db key isLink vs g).ok ∧
    (addVisual_shapes model db key isLink
      (addVisual_shapes model db key isLink vs g).visuals g).visuals =
      (addVisual_shapes model db key isLink vs g).visuals ∧
    (addVisual_shapes model db key isLink
      (addVisual_shapes model db key isLink vs g).visuals g).modelGeometries =
      (addVisual_shapes model db key isLink vs g).modelGeometries := by
  induction vs generalizing g with
  | nil => exact ⟨rfl, rfl, rfl⟩
  | cons v rest ih =>
    cases hs : addVisual_shape model db key isLink v g with
    | error e =>
      have h1 : addVisual_shapes model db key isLink (v :: rest) g =
          ⟨false, v :: rest, g, [e]⟩ := by
        simp only [addVisual_shapes, hs]
      rw [h1]
      simp only []
      rw [h1]
      exact ⟨rfl, rfl, rfl⟩
    | ok r =>
      obtain ⟨v1, g1⟩ := r
      have h1 : addVisual_shapes model db key isLink (v :: rest) g =
          ⟨(addVisual_shapes model db key isLink rest g1).ok,
            v1 :: (addVisual_shapes model db key isLink rest g1).visuals,
            (addVisual_shapes model db key isLink rest g1).modelGeometries,
            (addVisual_shapes model db key isLink rest g1).log⟩ := by
        simp only [addVisual_shapes, hs]
      rw [h1]
      simp only [addVisual_shapes, addVisual_shape_again model db key isLink v v1 g g1 hs]
      obtain ⟨i1, i2, i3⟩ := ih g1
      exact ⟨i1, by rw [i2], i3⟩

/-- The outer loop on the mapping that it has left: the same result. -/
theorem addVisual_keys_again [One T] [Mul T] (model : Model T) (db : List (String × MaterialInfo))
    (visuals : List (String × List (VisualInfo T))) (g : ModelSolidShapes T) :
    (addVisual_keys model db (addVisual_keys model db visuals g).visuals g).ok =
      (addVisual_keys model db visuals g).ok ∧
    (addVisual_keys model db (addVisual_keys model db visuals g).visuals g).visuals =
      (addVisual_keys model db visuals g).visuals ∧
    (addVisual_keys model db (addVisual_keys model db visuals g).visuals g).modelGeometries =
      (addVisual_keys model db visuals g).modelGeometries := by
  induction visuals generalizing g with
  | nil => exact ⟨rfl, rfl, rfl⟩
  | cons kv rest ih =>
    obtain ⟨s1, s2, s3⟩ := addVisual_shapes_again model db kv.1 (model.isLinkNameUsed kv.1)
      kv.2 g
    by_cases hok : (addVisual_shapes model db kv.1 (model.isLinkNameUsed kv.1) kv.2 g).ok = true
    · have h1 : addVisual_keys model db (kv :: rest) g =
          ⟨(addVisual_keys model db rest (addVisual_shapes model db kv.1
              (model.isLinkNameUsed kv.1) kv.2 g).modelGeometries).ok,
            (kv.1, (addVisual_shapes model db kv.1 (model.isLinkNameUsed kv.1) kv.2 g).visuals) ::
              (addVisual_keys model db rest (addVisual_shapes model db kv.1
                (model.isLinkNameUsed kv.1) kv.2 g).modelGeometries).visuals,
            (addVisual_keys model db rest (addVisual_shapes model db kv.1
              (model.isLinkNameUsed kv.1) kv.2 g).modelGeometries).modelGeometries,
            (addVisual_shapes model db kv.1 (model.isLinkNameUsed kv.1) kv.2 g).log ++
              (addVisual_keys model db rest (addVisual_shapes model db kv.1
                (model.isLinkNameUsed kv.1) kv.2 g).modelGeometries).log⟩ := by
        simp only [addVisual_keys, hok, if_true]
      rw [h1]
      simp only [addVisual_keys, s1, s2, s3, hok, if_true]
      obtain ⟨i1, i2, i3⟩ := ih (addVisual_shapes model db kv.1 (model.isLinkNameUsed kv.1)
        kv.2 g).modelGeometries
      exact ⟨i1, by rw [i2], i3⟩
    · have h1 : addVisual_keys model db (kv :: rest) g =
          ⟨false,
            (kv.1, (addVisual_shapes model db kv.1 (model.isLinkNameUsed kv.1) kv.2 g).visuals) ::
              rest,
            (addVisual_shapes model db kv.1 (model.isLinkNameUsed kv.1) kv.2 g).modelGeometries,
            (addVisual_shapes model db kv.1 (model.isLinkNameUsed kv.1) kv.2 g).log⟩ := by
        simp only [addVisual_keys, hok]
        rfl
      rw [h1]
      simp only [addVisual_keys, s1, s2, s3, hok, Bool.false_eq_true, if_false]
      exact ⟨trivial, trivial, trivial⟩

/-- The resolution of the shapes reads the links and the frames of the
model, not its shapes. -/
theorem addVisual_shapes_model [One T] [Mul T] (model : Model T) (x : ModelSolidShapes T)
    (db : List (String × MaterialInfo)) (key : String) (isLink : Bool)
    (vs : List (VisualInfo T)) (g : ModelSolidShapes T) :
    addVisual_shapes { model with visualSolidShapes := x } db key isLink vs g =
      addVisual_shapes model db key isLink vs g := by
  induction vs generalizing g with
  | nil => rfl
  | cons v rest ih =>
    have hstep : addVisual_shape { model with visualSolidShapes := x } db key isLink v g =
        addVisual_shape model db key isLink v g := rfl
    simp only [addVisual_shapes, hstep, ih]

theorem addVisual_keys_model [One T] [Mul T] (model : Model T) (x : ModelSolidShapes T)
    (db : List (String × MaterialInfo)) (visuals : List (String × List (VisualInfo T)))
    (g : ModelSolidShapes T) :
    addVisual_keys { model with visualSolidShapes := x } db visuals g =
      addVisual_keys model db visuals g := by
  induction visuals generalizing g with
  | nil => rfl
  | cons kv rest ih =>
    have hl : ({ model with visualSolidShapes := x } : Model T).isLinkNameUsed kv.1 =
        model.isLinkNameUsed kv.1 := rfl
    simp only [addVisual_keys, hl, addVisual_shapes_model, ih]

theorem addVisual_keys_model2 [One T] [Mul T] (model : Model T) (x y : ModelSolidShapes T)
    (db : List (String × MaterialInfo)) (visuals : List (String × List (VisualInfo T)))
    (g : ModelSolidShapes T) :
    addVisual_keys
        (⟨model.links, model.joints, model.frames, model.defaultBaseLink, x, y⟩ : Model T)
        db visuals g =
      addVisual_keys model db visuals g := by
  have hshapes : ∀ (key : String) (isLink : Bool) (vs : List (VisualInfo T))
      (g : ModelSolidShapes T),
      addVisual_shapes
          (⟨model.links, model.joints, model.frames, model.defaultBaseLink, x, y⟩ : Model T)
          db key isLink vs g =
        addVisual_shapes model db key isLink vs g := by
    intro key isLink vs
    induction vs with
    | nil => intro g; rfl
    | cons v rest ih =>
      intro g
      have hstep : addVisual_shape
          (⟨model.links, model.joints, model.frames, model.defaultBaseLink, x, y⟩ : Model T)
          db key isLink v g = addVisual_shape model db key isLink v g := rfl
      simp only [addVisual_shapes, hstep, ih]
  induction visuals generalizing g with
  | nil => rfl
  | cons kv rest ih =>
    have hl : (⟨model.links, model.joints, model.frames, model.defaultBaseLink, x, y⟩ :
        Model T).isLinkNameUsed kv.1 = model.isLinkNameUsed kv.1 := rfl
    simp only [addVisual_keys, hl, hshapes, ih]

/-- The shape stage on a model without shapes: the visual shapes are those
that `addVisualPropertiesToModel` produces from the pending visuals and the
materials table, from the empty container, and the collision shapes are
equal to them: the second pass repeats the first. -/
theorem documentHasBeenParsed_shapes_spec [One T] [Mul T] (d : URDFDocument T)
    (log : List Report) (h : d.m_model.NoShapes) :
    (documentHasBeenParsed_shapes d log).doc.m_model.visualSolidShapes =
      (addVisualPropertiesToModel (documentHasBeenParsed_shapes d log).doc.m_model
        d.m_buffers.visuals d.m_buffers.materials ModelSolidShapes.empty).modelGeometries ∧
    (documentHasBeenParsed_shapes d log).doc.m_model.collisionSolidShapes =
      (documentHasBeenParsed_shapes d log).doc.m_model.visualSolidShapes := by
  obtain ⟨h1, h2⟩ := h
  unfold documentHasBeenParsed_shapes addVisualPropertiesToModel
  simp only [addVisual_keys_model, addVisual_keys_model2]
  rw [h1, h2]
  exact ⟨rfl, (addVisual_keys_again d.m_model d.m_buffers.materials d.m_buffers.visuals
    ModelSolidShapes.empty).2.2⟩

theorem documentHasBeenParsed_frames_spec [One T] [Mul T] (d : URDFDocument T)
    (log : List Report) (h : d.m_model.NoShapes)
    (hr : (documentHasBeenParsed_frames d log).ret = true) :
    (documentHasBeenParsed_frames d log).doc.m_model.visualSolidShapes =
      (addVisualPropertiesToModel (documentHasBeenParsed_frames d log).doc.m_model
        d.m_buffers.visuals d.m_buffers.materials ModelSolidShapes.empty).modelGeometries ∧
    (documentHasBeenParsed_frames d log).doc.m_model.collisionSolidShapes =
      (documentHasBeenParsed_frames d log).doc.m_model.visualSolidShapes := by
  unfold documentHasBeenParsed_frames at hr ⊢
  by_cases ho : d.m_options.addSensorFramesAsAdditionalFrames = true
  · rw [if_pos ho] at hr ⊢
    simp only [] at hr ⊢
    by_cases hf : (!(addSensorFramesAsAdditionalFramesToModel d.m_model d.m_sensors).1) = true
    · rw [if_pos hf] at hr
      exact absurd hr (by simp)
    · rw [if_neg hf]
      exact documentHasBeenParsed_shapes_spec _ _
        ((addSensorFrames_shapes d.m_model d.m_sensors).noShapes h)
  · rw [if_neg ho]
    exact documentHasBeenParsed_shapes_spec d log h

theorem documentHasBeenParsed_sensors_spec [One T] [Mul T] (d : URDFDocument T)
    (log : List Report) (h : d.m_model.NoShapes)
    (hr : (documentHasBeenParsed_sensors d log).ret = true) :
    (documentHasBeenParsed_sensors d log).doc.m_model.visualSolidShapes =
      (addVisualPropertiesToModel (documentHasBeenParsed_sensors d log).doc.m_model
        d.m_buffers.visuals d.m_buffers.materials ModelSolidShapes.empty).modelGeometries ∧
    (documentHasBeenParsed_sensors d log).doc.m_model.collisionSolidShapes =
      (documentHasBeenParsed_sensors d log).doc.m_model.visualSolidShapes := by
  unfold documentHasBeenParsed_sensors at hr ⊢
  simp only [] at hr ⊢
  by_cases c : (!(processSensors d.m_model d.m_buffers.sensorHelpers d.m_sensors).1) = true
  · rw [if_pos c] at hr
    exact absurd hr (by simp)
  · rw [if_neg c] at hr ⊢
    exact documentHasBeenParsed_frames_spec _ _ h hr

theorem documentHasBeenParsed_clean_spec [One T] [Mul T] [Inv T] (d : URDFDocument T)
    (log : List Report) (hr : (documentHasBeenParsed_clean d log).ret = true) :
    (documentHasBeenParsed_clean d log).doc.m_model.visualSolidShapes =
      (addVisualPropertiesToModel (documentHasBeenParsed_clean d log).doc.m_model
        d.m_buffers.visuals d.m_buffers.materials ModelSolidShapes.empty).modelGeometries ∧
    (documentHasBeenParsed_clean d log).doc.m_model.collisionSolidShapes =
      (documentHasBeenParsed_clean d log).doc.m_model.visualSolidShapes := by
  unfold documentHasBeenParsed_clean at hr ⊢
  simp only [] at hr ⊢
  by_cases c : (!(removeFakeLinks d.m_model).1) = true
  · rw [if_pos c] at hr
    exact absurd hr (by simp)
  · rw [if_neg c] at hr ⊢
    exact documentHasBeenParsed_sensors_spec _ _ (removeFakeLinks_noShapes d.m_model) hr

theorem shapes_model_congr [One T] [Mul T] (d e : URDFDocument T) (log log' : List Report)
    (h1 : d.m_model = e.m_model) (h5 : d.m_buffers.visuals = e.m_buffers.visuals)
    (h6 : d.m_buffers.materials = e.m_buffers.materials) :
    (documentHasBeenParsed_shapes d log).doc.m_model =
      (documentHasBeenParsed_shapes e log').doc.m_model := by
  unfold documentHasBeenParsed_shapes
  simp only [h1, h5, h6]

theorem frames_model_congr [One T] [Mul T] (d e : URDFDocument T) (log log' : List Report)
    (h1 : d.m_model = e.m_model) (h2 : d.m_sensors = e.m_sensors)
    (h3 : d.m_options = e.m_options) (h5 : d.m_buffers.visuals = e.m_buffers.visuals)
    (h6 : d.m_buffers.materials = e.m_buffers.materials) :
    (documentHasBeenParsed_frames d log).doc.m_model =
      (documentHasBeenParsed_frames e log').doc.m_model := by
  unfold documentHasBeenParsed_frames
  rw [h1, h2, h3]
  by_cases ho : e.m_options.addSensorFramesAsAdditionalFrames = true
  · rw [if_pos ho, if_pos ho]
    by_cases hr : (!(addSensorFramesAsAdditionalFramesToModel e.m_model e.m_sensors).1) = true
    · simp only [hr, if_true]
    · simp only [hr, Bool.false_eq_true, if_false]
      exact shapes_model_congr _ _ _ _ rfl h5 h6
  · rw [if_neg ho, if_neg ho]
    exact shapes_model_congr _ _ _ _ h1 h5 h6

theorem sensors_model_congr [One T] [Mul T] (d e : URDFDocument T) (log log' : List Report)
    (h1 : d.m_model = e.m_model) (h2 : d.m_sensors = e.m_sensors)
    (h3 : d.m_options = e.m_options)
    (h4 : d.m_buffers.sensorHelpers = e.m_buffers.sensorHelpers)
    (h5 : d.m_buffers.visuals = e.m_buffers.visuals)
    (h6 : d.m_buffers.materials = e.m_buffers.materials) :
    (documentHasBeenParsed_sensors d log).doc.m_model =
      (documentHasBeenParsed_sensors e log').doc.m_model := by
  unfold documentHasBeenParsed_sensors
  simp only [h1, h2, h4]
  split_ifs
  · rfl
  · exact frames_model_congr _ _ _ _ rfl rfl h3 h5 h6

theorem clean_model_congr [One T] [Mul T] [Inv T] (d e : URDFDocument T)
    (log log' : List Report)
    (h1 : d.m_model = e.m_model) (h2 : d.m_sensors = e.m_sensors)
    (h3 : d.m_options = e.m_options)
    (h4 : d.m_buffers.sensorHelpers = e.m_buffers.sensorHelpers)
    (h5 : d.m_buffers.visuals = e.m_buffers.visuals)
    (h6 : d.m_buffers.materials = e.m_buffers.materials) :
    (documentHasBeenParsed_clean d log).doc.m_model =
      (documentHasBeenParsed_clean e log').doc.m_model := by
  unfold documentHasBeenParsed_clean
  simp only [h1]
  split_ifs
  · exact h1
  · exact sensors_model_congr _ _ _ _ rfl h2 h3 h4 h5 h6

/-- The model that `documentHasBeenParsed` leaves does not depend on the
pending-collision buffer. -/
theorem documentHasBeenParsed_collisions_unused [One T] [Mul T] [Inv T] (d : URDFDocument T)
    (collisions : List (String × List (VisualInfo T))) :
    ({ d with m_buffers := { d.m_buffers with collisions := collisions } } :
      URDFDocument T).documentHasBeenParsed.doc.m_model =
      d.documentHasBeenParsed.doc.m_model := by
  unfold URDFDocument.documentHasBeenParsed
  simp only []
  split_ifs
  · rfl
  · rfl
  · exact clean_model_congr _ _ _ _ rfl rfl rfl rfl rfl rfl

/-- Claim C25. When `documentHasBeenParsed` returns true: the visual shapes of
the resulting model are those that `addVisualPropertiesToModel` produces on
that model from the pending-visual buffer and the materials table of the
document, starting from the empty container; the collision shapes of the
resulting model are equal to its visual shapes, link for link and shape for
shape; and the resulting model is the same whatever the pending-collision
buffer holds. -/
theorem documentHasBeenParsed_collision_eq_visual [One T] [Mul T] [Inv T] (d : URDFDocument T)
    (hr : d.documentHasBeenParsed.ret = true) :
    d.documentHasBeenParsed.doc.m_model.visualSolidShapes =
      (addVisualPropertiesToModel d.documentHasBeenParsed.doc.m_model
        d.m_buffers.visuals d.m_buffers.materials ModelSolidShapes.empty).modelGeometries ∧
    d.documentHasBeenParsed.doc.m_model.collisionSolidShapes =
      d.documentHasBeenParsed.doc.m_model.visualSolidShapes ∧
    ∀ collisions : List (String × List (VisualInfo T)),
      ({ d with m_buffers := { d.m_buffers with collisions := collisions } } :
        URDFDocument T).documentHasBeenParsed.doc.m_model =
        d.documentHasBeenParsed.doc.m_model := by
  refine ⟨?_, ?_, fun c => documentHasBeenParsed_collisions_unused d c⟩
  all_goals
    unfold URDFDocument.documentHasBeenParsed at hr ⊢
    simp only [] at hr ⊢
    by_cases c1 : (rootCandidates
        (processJoints d.m_model d.m_buffers.joints d.m_buffers.fixedJoints).model
        (processJoints d.m_model d.m_buffers.joints d.m_buffers.fixedJoints).childLinks).isEmpty =
        true
    · rw [if_pos c1] at hr
      exact absurd hr (by simp)
    · rw [if_neg c1] at hr ⊢
      by_cases c2 : (rootCandidates
          (processJoints d.m_model d.m_buffers.joints d.m_buffers.fixedJoints).model
          (processJoints d.m_model d.m_buffers.joints d.m_buffers.fixedJoints).childLinks).length
          ≥ 2
      · rw [if_pos c2] at hr
        exact absurd hr (by simp)
      · rw [if_neg c2] at hr ⊢
        first
          | exact (documentHasBeenParsed_clean_spec _ _ hr).1
          | exact (documentHasBeenParsed_clean_spec _ _ hr).2

/-- Witness of claim C25: one link `A` with a pending visual of material
`red` and a pending-collision buffer that holds something else. -/
theorem documentHasBeenParsed_collision_eq_visual_witness :
    exDocVisual.documentHasBeenParsed.ret = true ∧
    exDocVisual.documentHasBeenParsed.doc.m_model.collisionSolidShapes =
      exDocVisual.documentHasBeenParsed.doc.m_model.visualSolidShapes ∧
    exDocVisual.documentHasBeenParsed.doc.m_model.visualSolidShapes.linkSolidShapes 0 =
      [⟨"v", 2, ⟨1, 0, 0, 1⟩, Geometry.sphere 1⟩] ∧
    exDocVisual.documentHasBeenParsed.doc.m_model.collisionSolidShapes.linkSolidShapes 0 =
      [⟨"v", 2, ⟨1, 0, 0, 1⟩, Geometry.sphere 1⟩] :=
  ⟨by decide, (documentHasBeenParsed_collision_eq_visual exDocVisual (by decide)).2.1,
    by decide, by decide⟩

/-! ### The owner and the material of a shape -/

/-- The loop body for a visual under a link name: the shape is pushed to
the list of that link with the declared origin. -/
theorem addVisual_shape_link [One T] [Mul T] (model : Model T)
    (db : List (String × MaterialInfo)) (key : String) (visual : VisualInfo T)
    (sh : SolidShape T) (hm : resolveVisualMaterial db key visual = Except.ok sh)
    (hl : model.isLinkNameUsed key = true) (g : ModelSolidShapes T) :
    addVisual_shape model db key (model.isLinkNameUsed key) visual g =
      Except.ok
        ({ visual with m_solidShape :=
            { sh with name := visual.m_name, link_H_geometry := visual.m_origin } },
          g.push_back (model.getLinkIndex key)
            { sh with name := visual.m_name, link_H_geometry := visual.m_origin }) := by
  unfold addVisual_shape resolveVisualFrame
  rw [hl]
  simp only [if_true, hm]
  rfl

/-- The loop body for a visual under a frame name: the shape is pushed to
the list of the link of the frame, with the frame transform on the left of
the declared origin. -/
theorem addVisual_shape_frame [One T] [Mul T] (model : Model T)
    (db : List (String × MaterialInfo)) (key : String) (visual : VisualInfo T)
    (sh : SolidShape T) (hm : resolveVisualMaterial db key visual = Except.ok sh)
    (hl : model.isLinkNameUsed key = false)
    (hfi : model.getFrameIndex key ≠ FRAME_INVALID_INDEX) (hn : model.linkNames.Nodup)
    (h0 : 0 ≤ model.getFrameLink (model.getFrameIndex key))
    (h1 : model.getFrameLink (model.getFrameIndex key) < (model.links.length : Int))
    (g : ModelSolidShapes T) :
    addVisual_shape model db key (model.isLinkNameUsed key) visual g =
      Except.ok
        ({ visual with m_solidShape :=
            { sh with name := visual.m_name,
                      link_H_geometry :=
                        model.getFrameTransform (model.getFrameIndex key) * visual.m_origin } },
          g.push_back (model.getFrameLink (model.getFrameIndex key))
            { sh with name := visual.m_name,
                      link_H_geometry :=
                        model.getFrameTransform (model.getFrameIndex key) * visual.m_origin })
    := by
  have hidx := Model.getLinkIndex_getLinkName model hn _ h0 h1
  unfold addVisual_shape resolveVisualFrame
  rw [hl]
  simp only [Bool.false_eq_true, if_false, if_neg hfi,
    resolveVisualMaterial_linkName db key _ visual sh hm, hidx]
  rfl

/-- The call on a mapping in which a visual, whatever the container, is
resolved to a shape pushed to the list of a link, all the entries before
it being resolved: the call on the entries up to that visual succeeds and
pushes the shape after the shapes of the entries before; in the call on the
whole mapping the shape follows, in the list of that link, the shapes of
the entries before. -/
theorem addVisual_keys_push [One T] [Mul T] (model : Model T)
    (db : List (String × MaterialInfo)) (pre : List (String × List (VisualInfo T)))
    (key : String) (vs_pre : List (VisualInfo T)) (v v1 : VisualInfo T) (idx : Int)
    (sh : SolidShape T) (g : ModelSolidShapes T)
    (hpre : (addVisual_keys model db (pre ++ [(key, vs_pre)]) g).ok = true)
    (hstep : ∀ g' : ModelSolidShapes T,
      addVisual_shape model db key (model.isLinkNameUsed key) v g' =
        Except.ok (v1, g'.push_back idx sh)) :
    (addVisual_keys model db (pre ++ [(key, vs_pre ++ [v])]) g).ok = true ∧
    (addVisual_keys model db (pre ++ [(key, vs_pre ++ [v])]) g).modelGeometries =
      (addVisual_keys model db (pre ++ [(key, vs_pre)]) g).modelGeometries.push_back idx sh ∧
    ∀ (vs_post : List (VisualInfo T)) (post : List (String × List (VisualInfo T))),
      ∃ l, (addVisual_keys model db (pre ++ (key, vs_pre ++ v :: vs_post) :: post) g
        ).modelGeometries.linkSolidShapes idx =
        (addVisual_keys model db (pre ++ [(key, vs_pre)]) g).modelGeometries.linkSolidShapes idx
          ++ sh :: l := by
  have hp : (addVisual_keys model db pre g).ok = true := by
    have := (addVisual_keys_spec model db (pre ++ [(key, vs_pre)]) g).1.mp hpre
    apply (addVisual_keys_spec model db pre g).1.mpr
    intro kv hkv
    exact this kv (List.mem_append_left _ hkv)
  obtain ⟨a1, a2⟩ := addVisual_keys_append model db pre [(key, vs_pre)] g hp
  obtain ⟨b1, b2⟩ := addVisual_keys_append model db pre [(key, vs_pre ++ [v])] g hp
  have hfull := fun (vs_post : List (VisualInfo T)) (post : List (String × List (VisualInfo T)))
    => addVisual_keys_append model db pre ((key, vs_pre ++ v :: vs_post) :: post) g hp
  generalize (addVisual_keys model db pre g).modelGeometries = g1 at a1 a2 b1 b2 hfull
  rw [a1] at hpre
  have hshapes : (addVisual_shapes model db key (model.isLinkNameUsed key) vs_pre g1).ok =
      true := by
    by_contra hc
    simp [addVisual_keys, hc] at hpre
  have e0 : (addVisual_keys model db [(key, vs_pre)] g1).modelGeometries =
      (addVisual_shapes model db key (model.isLinkNameUsed key) vs_pre g1).modelGeometries := by
    simp [addVisual_keys, hshapes]
  have hs : ∀ rest : List (VisualInfo T),
      (addVisual_shapes model db key (model.isLinkNameUsed key) (vs_pre ++ v :: rest) g1).ok =
        (addVisual_shapes model db key (model.isLinkNameUsed key) rest
          ((addVisual_shapes model db key (model.isLinkNameUsed key) vs_pre g1
            ).modelGeometries.push_back idx sh)).ok ∧
      (addVisual_shapes model db key (model.isLinkNameUsed key) (vs_pre ++ v :: rest) g1
        ).modelGeometries =
        (addVisual_shapes model db key (model.isLinkNameUsed key) rest
          ((addVisual_shapes model db key (model.isLinkNameUsed key) vs_pre g1
            ).modelGeometries.push_back idx sh)).modelGeometries := by
    intro rest
    obtain ⟨c1, c2⟩ := addVisual_shapes_append model db key (model.isLinkNameUsed key) vs_pre
      (v :: rest) g1 hshapes
    rw [c1, c2]
    simp only [addVisual_shapes, hstep]
    exact ⟨trivial, trivial⟩
  rw [a2, e0]
  generalize (addVisual_shapes model db key (model.isLinkNameUsed key) vs_pre g1
    ).modelGeometries = g2 at hs
  have hone : (addVisual_shapes model db key (model.isLinkNameUsed key) (vs_pre ++ [v]) g1).ok =
      true ∧
      (addVisual_shapes model db key (model.isLinkNameUsed key) (vs_pre ++ [v]) g1
        ).modelGeometries = g2.push_back idx sh := by
    obtain ⟨c1, c2⟩ := hs []
    rw [c1, c2]
    exact ⟨rfl, rfl⟩
  refine ⟨?_, ?_, ?_⟩
  · rw [b1]
    simp [addVisual_keys, hone.1]
  · rw [b2]
    simp [addVisual_keys, hone.1, hone.2]
  · intro vs_post post
    obtain ⟨f1, f2⟩ := hfull vs_post post
    rw [f2]
    obtain ⟨c1, c2⟩ := hs vs_post
    obtain ⟨l1, e1⟩ := (addVisual_shapes_spec model db key vs_post (g2.push_back idx sh)).2 idx
    have hpush : (g2.push_back idx sh).linkSolidShapes idx = g2.linkSolidShapes idx ++ [sh] := by
      simp [ModelSolidShapes.push_back]
    by_cases hok : (addVisual_shapes model db key (model.isLinkNameUsed key)
        (vs_pre ++ v :: vs_post) g1).ok = true
    · obtain ⟨l2, e2⟩ := (addVisual_keys_spec model db post
        (addVisual_shapes model db key (model.isLinkNameUsed key) (vs_pre ++ v :: vs_post) g1
          ).modelGeometries).2 idx
      refine ⟨l1 ++ l2, ?_⟩
      simp only [addVisual_keys, hok, if_true]
      rw [e2, c2, e1, hpush]
      simp
    · refine ⟨l1, ?_⟩
      simp only [addVisual_keys, hok]
      simp only [Bool.false_eq_true, if_false]
      rw [c2, e1, hpush]
      simp

/-- Claim C13. In a call of `addVisualPropertiesToModel` on the mapping
`pre ++ (key, vs_pre ++ v :: vs_post) :: post` that reaches the visual `v`
(the call on the entries before `v` returns true) and resolves the material
of `v`: when `key` is a link name, the call on the entries up to `v` returns
true and its container is the container of the entries before `v` with the
shape of `v` pushed to the list of the link of that name, the transform of
the shape being the declared origin of `v`; when `key` is not a link name
but is a frame name (in a model with unique link names, the frame being
bound to a link of the model), the shape is pushed to the list of the link
that the frame is bound to, with the transform
`getFrameTransform(frame) * origin`, the link-to-frame transform on the left
of the declared local origin. In both cases the list of the owner, in the
container that the call on the whole mapping leaves (whether it returns
true or false), is its list before `v` followed by the shape of `v` and by
what the later entries add. Pushing adds the shape at the end of the list of
that link and leaves the lists of the other links as they are. -/
theorem addVisualPropertiesToModel_owner [One T] [Mul T] (model : Model T)
    (db : List (String × MaterialInfo)) (pre post : List (String × List (VisualInfo T)))
    (key : String) (vs_pre vs_post : List (VisualInfo T)) (v : VisualInfo T)
    (g : ModelSolidShapes T) (sh : SolidShape T)
    (hpre : (addVisualPropertiesToModel model (pre ++ [(key, vs_pre)]) db g).ok = true)
    (hm : resolveVisualMaterial db key v = Except.ok sh) :
    (model.isLinkNameUsed key = true →
      model.getLinkName (model.getLinkIndex key) = key ∧
      (addVisualPropertiesToModel model (pre ++ [(key, vs_pre ++ [v])]) db g).ok = true ∧
      (addVisualPropertiesToModel model (pre ++ [(key, vs_pre ++ [v])]) db g).modelGeometries =
        (addVisualPropertiesToModel model (pre ++ [(key, vs_pre)]) db g).modelGeometries.push_back
          (model.getLinkIndex key)
          { sh with name := v.m_name, link_H_geometry := v.m_origin } ∧
      ∃ l, (addVisualPropertiesToModel model (pre ++ (key, vs_pre ++ v :: vs_post) :: post) db g
          ).modelGeometries.linkSolidShapes (model.getLinkIndex key) =
        (addVisualPropertiesToModel model (pre ++ [(key, vs_pre)]) db g
          ).modelGeometries.linkSolidShapes (model.getLinkIndex key) ++
          { sh with name := v.m_name, link_H_geometry := v.m_origin } :: l) ∧
    (model.isLinkNameUsed key = false → model.getFrameIndex key ≠ FRAME_INVALID_INDEX →
      model.linkNames.Nodup → 0 ≤ model.getFrameLink (model.getFrameIndex key) →
      model.getFrameLink (model.getFrameIndex key) < (model.links.length : Int) →
      (addVisualPropertiesToModel model (pre ++ [(key, vs_pre ++ [v])]) db g).ok = true ∧
      (addVisualPropertiesToModel model (pre ++ [(key, vs_pre ++ [v])]) db g).modelGeometries =
        (addVisualPropertiesToModel model (pre ++ [(key, vs_pre)]) db g).modelGeometries.push_back
          (model.getFrameLink (model.getFrameIndex key))
          { sh with name := v.m_name,
                    link_H_geometry :=
                      model.getFrameTransform (model.getFrameIndex key) * v.m_origin } ∧
      ∃ l, (addVisualPropertiesToModel model (pre ++ (key, vs_pre ++ v :: vs_post) :: post) db g
          ).modelGeometries.linkSolidShapes (model.getFrameLink (model.getFrameIndex key)) =
        (addVisualPropertiesToModel model (pre ++ [(key, vs_pre)]) db g
          ).modelGeometries.linkSolidShapes (model.getFrameLink (model.getFrameIndex key)) ++
          { sh with name := v.m_name,
                    link_H_geometry :=
                      model.getFrameTransform (model.getFrameIndex key) * v.m_origin } :: l) ∧
    (∀ (c : ModelSolidShapes T) (idx : Int) (s : SolidShape T),
      (c.push_back idx s).linkSolidShapes idx = c.linkSolidShapes idx ++ [s] ∧
      ∀ j, j ≠ idx → (c.push_back idx s).linkSolidShapes j = c.linkSolidShapes j) := by
  refine ⟨?_, ?_, ?_⟩
  · intro hl
    obtain ⟨p1, p2, p3⟩ := addVisual_keys_push model db pre key vs_pre v _ _ _ g hpre
      (addVisual_shape_link model db key v sh hm hl)
    refine ⟨?_, p1, p2, p3 vs_post post⟩
    apply Model.getLinkName_getLinkIndex
    unfold Model.isLinkNameUsed Model.getLinkIndex at hl
    simp only [decide_eq_true_eq] at hl
    by_contra hc
    exact hl ((indexOfName_eq_neg_one _ _).mpr hc)
  · intro hl hfi hn h0 h1
    obtain ⟨p1, p2, p3⟩ := addVisual_keys_push model db pre key vs_pre v _ _ _ g hpre
      (addVisual_shape_frame model db key v sh hm hl hfi hn h0 h1)
    exact ⟨p1, p2, p3 vs_post post⟩
  · intro c idx s
    constructor
    · simp [ModelSolidShapes.push_back]
    · intro j hj
      simp [ModelSolidShapes.push_back, hj]

/-- The loop body for a visual the key of which resolves, by the material
it declares. -/
theorem addVisual_shape_material [One T] [Mul T] (model : Model T)
    (db : List (String × MaterialInfo)) (key : String) (v : VisualInfo T) (t : T) (ln : String)
    (hf : resolveVisualFrame model key (model.isLinkNameUsed key) v = Except.ok (t, ln))
    (c : Vector4)
    (hc : v.m_material = none ∧ c = v.m_solidShape.material ∨
      (∃ n, v.m_material = some ⟨n, some c⟩) ∨
      (∃ n found, v.m_material = some ⟨n, none⟩ ∧ db.lookup n = some found ∧
        found.m_rgba = some c))
    (g : ModelSolidShapes T) :
    addVisual_shape model db key (model.isLinkNameUsed key) v g =
      Except.ok
        ({ v with m_solidShape := ⟨v.m_name, t, c, v.m_solidShape.geometry⟩ },
          g.push_back (model.getLinkIndex ln) ⟨v.m_name, t, c, v.m_solidShape.geometry⟩) := by
  unfold addVisual_shape
  rw [hf]
  rcases hc with ⟨hm, rfl⟩ | ⟨n, hm⟩ | ⟨n, found, hm, hl, hcol⟩
  · simp only [resolveVisualMaterial, hm]
    rfl
  · simp only [resolveVisualMaterial, hm]
    rfl
  · simp only [resolveVisualMaterial, hm, hl, MaterialInfo.derefRgba, hcol]
    rfl

/-- Claim C14. Material resolution in a call of `addVisualPropertiesToModel`
on the mapping `pre ++ (key, vs_pre ++ v :: vs_post) :: post` that reaches
the visual `v` (the call on the entries before `v` returns true), the key
of `v` resolving to the link name `ln` with the transform `t`. The colour
`c` is the inline colour of the material of `v`; or, the material having no
inline colour, the colour of the entry of that name in the materials table,
when that entry has one; or the colour of the declared shape when `v`
declares no material. Then the call on the entries up to `v` returns true,
its container is the container of the entries before `v` with the shape of
`v`, of colour `c`, pushed to the list of the link `ln`, and the list of
that link in the container that the call on the whole mapping leaves is its
list before `v` followed by that shape and by what the later entries add.
When the material of `v` has no inline colour and its name is not in the
table, the call on the whole mapping returns false. When the material of
`v` has no inline colour and the entry of its name in the table has no
colour either, nothing is tested: the material resolves to the colour read
through the empty pointer of the entry. -/
theorem addVisualPropertiesToModel_material [One T] [Mul T] (model : Model T)
    (db : List (String × MaterialInfo)) (pre post : List (String × List (VisualInfo T)))
    (key : String) (vs_pre vs_post : List (VisualInfo T)) (v : VisualInfo T)
    (g : ModelSolidShapes T) (t : T) (ln : String)
    (hpre : (addVisualPropertiesToModel model (pre ++ [(key, vs_pre)]) db g).ok = true)
    (hf : resolveVisualFrame model key (model.isLinkNameUsed key) v = Except.ok (t, ln)) :
    (∀ c : Vector4,
      (v.m_material = none ∧ c = v.m_solidShape.material ∨
        (∃ n, v.m_material = some ⟨n, some c⟩) ∨
        (∃ n found, v.m_material = some ⟨n, none⟩ ∧ db.lookup n = some found ∧
          found.m_rgba = some c)) →
      (addVisualPropertiesToModel model (pre ++ [(key, vs_pre ++ [v])]) db g).ok = true ∧
      (addVisualPropertiesToModel model (pre ++ [(key, vs_pre ++ [v])]) db g).modelGeometries =
        (addVisualPropertiesToModel model (pre ++ [(key, vs_pre)]) db g).modelGeometries.push_back
          (model.getLinkIndex ln) ⟨v.m_name, t, c, v.m_solidShape.geometry⟩ ∧
      ∃ l, (addVisualPropertiesToModel model (pre ++ (key, vs_pre ++ v :: vs_post) :: post) db g
          ).modelGeometries.linkSolidShapes (model.getLinkIndex ln) =
        (addVisualPropertiesToModel model (pre ++ [(key, vs_pre)]) db g
          ).modelGeometries.linkSolidShapes (model.getLinkIndex ln) ++
          ⟨v.m_name, t, c, v.m_solidShape.geometry⟩ :: l) ∧
    (∀ n : String, v.m_material = some ⟨n, none⟩ → db.lookup n = none →
      (addVisualPropertiesToModel model (pre ++ (key, vs_pre ++ v :: vs_post) :: post) db g).ok =
        false) ∧
    (∀ (n : String) (found : MaterialInfo), v.m_material = some ⟨n, none⟩ →
      db.lookup n = some found → found.m_rgba = none →
      resolveVisualMaterial db ln v =
        Except.ok { v.m_solidShape with material := found.derefRgba }) := by
  refine ⟨?_, ?_, ?_⟩
  · intro c hc
    obtain ⟨p1, p2, p3⟩ := addVisual_keys_push model db pre key vs_pre v _ _ _ g hpre
      (addVisual_shape_material model db key v t ln hf c hc)
    exact ⟨p1, p2, p3 vs_post post⟩
  · intro n hm hl
    by_contra hc
    have hok : (addVisual_keys model db (pre ++ (key, vs_pre ++ v :: vs_post) :: post) g).ok =
        true := by
      unfold addVisualPropertiesToModel at hc
      simpa using hc
    have := ((addVisual_keys_spec model db _ g).1.mp hok (key, vs_pre ++ v :: vs_post)
      (by simp) v (by simp)).2
    unfold materialKnown at this
    rw [hm] at this
    simp [hl] at this
  · intro n found hm hl _
    simp only [resolveVisualMaterial, hm, hl]

/-- Witness of claim C13: on `exFrameModel`, after the visual under the link
`A`, a visual of origin 2 declared under the frame `f` (on link `B`,
transform 3) is pushed to the list of link 1 with the transform 3 * 2; and
a visual declared under the link `A` is pushed to the list of link 0 with
the transform 2. -/
theorem addVisualPropertiesToModel_owner_witness :
    (exFrameModel.isLinkNameUsed "f" = false ∧
      exFrameModel.getFrameIndex "f" ≠ FRAME_INVALID_INDEX ∧
      exFrameModel.getFrameLink (exFrameModel.getFrameIndex "f") = 1 ∧
      exFrameModel.getFrameTransform (exFrameModel.getFrameIndex "f") = 3 ∧
      (exVisual none).m_origin = 2 ∧
      (addVisualPropertiesToModel exFrameModel [("A", [exVisual none])] exMaterials
        ModelSolidShapes.empty).modelGeometries.linkSolidShapes 1 = [] ∧
      (addVisualPropertiesToModel exFrameModel
        ([("A", [exVisual none])] ++ [("f", [] ++ [exVisual none])]) exMaterials
        ModelSolidShapes.empty).ok = true ∧
      ∃ l, (addVisualPropertiesToModel exFrameModel
          ([("A", [exVisual none])] ++ ("f", [] ++ exVisual none :: []) ::
            [("B", [exVisual none])]) exMaterials
          ModelSolidShapes.empty).modelGeometries.linkSolidShapes
            (exFrameModel.getFrameLink (exFrameModel.getFrameIndex "f")) =
        (addVisualPropertiesToModel exFrameModel ([("A", [exVisual none])] ++ [("f", [])])
          exMaterials ModelSolidShapes.empty).modelGeometries.linkSolidShapes
            (exFrameModel.getFrameLink (exFrameModel.getFrameIndex "f")) ++
          { exShape with name := (exVisual none).m_name,
                         link_H_geometry :=
                           exFrameModel.getFrameTransform (exFrameModel.getFrameIndex "f") *
                             (exVisual none).m_origin } :: l) ∧
    (exFrameModel.isLinkNameUsed "A" = true ∧ exFrameModel.getLinkIndex "A" = 0 ∧
      (addVisualPropertiesToModel exFrameModel
        ([("B", [])] ++ ("A", [exVisual none] ++ exVisual none :: []) :: []) exMaterials
        ModelSolidShapes.empty).modelGeometries.linkSolidShapes 0 =
          [⟨"v", 2, ⟨0, 0, 0, 1⟩, Geometry.sphere 1⟩, ⟨"v", 2, ⟨0, 0, 0, 1⟩, Geometry.sphere 1⟩] ∧
      ∃ l, (addVisualPropertiesToModel exFrameModel
          ([("B", [])] ++ ("A", [exVisual none] ++ exVisual none :: []) :: []) exMaterials
          ModelSolidShapes.empty).modelGeometries.linkSolidShapes
            (exFrameModel.getLinkIndex "A") =
        (addVisualPropertiesToModel exFrameModel ([("B", [])] ++ [("A", [exVisual none])])
          exMaterials ModelSolidShapes.empty).modelGeometries.linkSolidShapes
            (exFrameModel.getLinkIndex "A") ++
          { exShape with name := (exVisual none).m_name,
                         link_H_geometry := (exVisual none).m_origin } :: l) :=
  ⟨⟨by decide, by decide, by decide, by decide, by decide, by decide,
    ((addVisualPropertiesToModel_owner exFrameModel exMaterials [("A", [exVisual none])]
      [("B", [exVisual none])] "f" [] [] (exVisual none) ModelSolidShapes.empty exShape
      (by decide) rfl).2.1 (by decide) (by decide) (by decide) (by decide) (by decide)).1,
    ((addVisualPropertiesToModel_owner exFrameModel exMaterials [("A", [exVisual none])]
      [("B", [exVisual none])] "f" [] [] (exVisual none) ModelSolidShapes.empty exShape
      (by decide) rfl).2.1 (by decide) (by decide) (by decide) (by decide) (by decide)).2.2⟩,
   ⟨by decide, by decide, by decide,
    ((addVisualPropertiesToModel_owner exFrameModel exMaterials [("B", [])] [] "A"
      [exVisual none] [] (exVisual none) ModelSolidShapes.empty exShape
      (by decide) rfl).1 (by decide)).2.2.2⟩⟩

/-- Witness of claim C14: under the link `A` of `exFrameModel`, after a
visual without material, the material `red` without inline colour is found
in the table with its colour and the shape is stored with it; the material
`blue` without inline colour, absent from the table, makes the call
fail. -/
theorem addVisualPropertiesToModel_material_witness :
    (resolveVisualFrame exFrameModel "A" (exFrameModel.isLinkNameUsed "A")
        (exVisual (some ⟨"red", none⟩)) = Except.ok (2, "A") ∧
      exMaterials.lookup "red" = some ⟨"red", some ⟨1, 0, 0, 1⟩⟩ ∧
      (addVisualPropertiesToModel exFrameModel
        ([("B", [])] ++ [("A", [exVisual none] ++ [exVisual (some ⟨"red", none⟩)])])
        exMaterials ModelSolidShapes.empty).ok = true ∧
      (addVisualPropertiesToModel exFrameModel
        ([("B", [])] ++ [("A", [exVisual none] ++ [exVisual (some ⟨"red", none⟩)])])
        exMaterials ModelSolidShapes.empty).modelGeometries.linkSolidShapes 0 =
          [⟨"v", 2, ⟨0, 0, 0, 1⟩, Geometry.sphere 1⟩, ⟨"v", 2, ⟨1, 0, 0, 1⟩, Geometry.sphere 1⟩] ∧
      ∃ l, (addVisualPropertiesToModel exFrameModel
          ([("B", [])] ++ ("A", [exVisual none] ++ exVisual (some ⟨"red", none⟩) :: []) :: [])
          exMaterials ModelSolidShapes.empty).modelGeometries.linkSolidShapes
            (exFrameModel.getLinkIndex "A") =
        (addVisualPropertiesToModel exFrameModel ([("B", [])] ++ [("A", [exVisual none])])
          exMaterials ModelSolidShapes.empty).modelGeometries.linkSolidShapes
            (exFrameModel.getLinkIndex "A") ++
          ⟨(exVisual (some ⟨"red", none⟩)).m_name, 2, ⟨1, 0, 0, 1⟩,
            (exVisual (some ⟨"red", none⟩)).m_solidShape.geometry⟩ :: l) ∧
    (exMaterials.lookup "blue" = none ∧
      (addVisualPropertiesToModel exFrameModel
        ([("B", [])] ++ ("A", [exVisual none] ++ exVisual (some ⟨"blue", none⟩) :: []) :: [])
        exMaterials ModelSolidShapes.empty).ok = false) :=
  ⟨⟨rfl, by decide,
    ((addVisualPropertiesToModel_material exFrameModel exMaterials [("B", [])] [] "A"
      [exVisual none] [] (exVisual (some ⟨"red", none⟩)) ModelSolidShapes.empty 2 "A"
      (by decide) rfl).1 ⟨1, 0, 0, 1⟩
      (Or.inr (Or.inr ⟨"red", ⟨"red", some ⟨1, 0, 0, 1⟩⟩, rfl, by decide, rfl⟩))).1,
    by decide,
    ((addVisualPropertiesToModel_material exFrameModel exMaterials [("B", [])] [] "A"
      [exVisual none] [] (exVisual (some ⟨"red", none⟩)) ModelSolidShapes.empty 2 "A"
      (by decide) rfl).1 ⟨1, 0, 0, 1⟩
      (Or.inr (Or.inr ⟨"red", ⟨"red", some ⟨1, 0, 0, 1⟩⟩, rfl, by decide, rfl⟩))).2.2⟩,
   ⟨by decide,
    (addVisualPropertiesToModel_material exFrameModel exMaterials [("B", [])] [] "A"
      [exVisual none] [] (exVisual (some ⟨"blue", none⟩)) ModelSolidShapes.empty 2 "A"
      (by decide) rfl).2.1 "blue" rfl (by decide)⟩⟩

/-- Claim C14, the failing input. The material `grey` of the visual has no
inline colour and the entry `grey` of the materials table has no colour
either. The call tests nothing and reports nothing, it does not return
false, and the shape is stored with the colour read through the empty
pointer of the entry, an undefined read in the source. -/
theorem addVisualPropertiesToModel_entry_without_colour :
    (exVisual (some ⟨"grey", none⟩)).m_material = some ⟨"grey", none⟩ ∧
    exMaterialsNoColour.lookup "grey" = some ⟨"grey", none⟩ ∧
    (addVisualPropertiesToModel exFrameModel [("A", [exVisual (some ⟨"grey", none⟩)])]
      exMaterialsNoColour ModelSolidShapes.empty).ok = true ∧
    (addVisualPropertiesToModel exFrameModel [("A", [exVisual (some ⟨"grey", none⟩)])]
      exMaterialsNoColour ModelSolidShapes.empty).log = [] ∧
    (addVisualPropertiesToModel exFrameModel [("A", [exVisual (some ⟨"grey", none⟩)])]
      exMaterialsNoColour ModelSolidShapes.empty).modelGeometries.linkSolidShapes 0 =
        [⟨"v", 2, MaterialInfo.derefRgba ⟨"grey", none⟩, Geometry.sphere 1⟩] := by
  decide

/-! ### The value returned by `documentHasBeenParsed` -/

theorem frames_ret_iff [One T] [Mul T] (d : URDFDocument T) (log : List Report) :
    (documentHasBeenParsed_frames d log).ret = true ↔
      (d.m_options.addSensorFramesAsAdditionalFrames = true →
        (addSensorFramesAsAdditionalFramesToModel d.m_model d.m_sensors).1 = true) := by
  unfold documentHasBeenParsed_frames
  by_cases ho : d.m_options.addSensorFramesAsAdditionalFrames = true
  · rw [if_pos ho]
    cases hr : (addSensorFramesAsAdditionalFramesToModel d.m_model d.m_sensors).1
    · simp [hr, ho]
    · simp [hr, shapes_ret]
  · rw [if_neg ho]
    simp [shapes_ret, ho]

theorem sensors_ret_iff [One T] [Mul T] (d : URDFDocument T) (log : List Report) :
    (documentHasBeenParsed_sensors d log).ret = true ↔
      (processSensors d.m_model d.m_buffers.sensorHelpers d.m_sensors).1 = true ∧
      (d.m_options.addSensorFramesAsAdditionalFrames = true →
        (addSensorFramesAsAdditionalFramesToModel d.m_model
          (processSensors d.m_model d.m_buffers.sensorHelpers d.m_sensors).2).1 = true) := by
  unfold documentHasBeenParsed_sensors
  simp only []
  cases hr : (processSensors d.m_model d.m_buffers.sensorHelpers d.m_sensors).1
  · simp
  · simp only [Bool.not_true, Bool.false_eq_true, if_false, true_and]
    exact frames_ret_iff _ _

theorem clean_ret_iff [One T] [Mul T] [Inv T] (d : URDFDocument T) (log : List Report) :
    (documentHasBeenParsed_clean d log).ret = true ↔
      (removeFakeLinks d.m_model).1 = true ∧
      (processSensors (removeFakeLinks d.m_model).2 d.m_buffers.sensorHelpers d.m_sensors).1 =
        true ∧
      (d.m_options.addSensorFramesAsAdditionalFrames = true →
        (addSensorFramesAsAdditionalFramesToModel (removeFakeLinks d.m_model).2
          (processSensors (removeFakeLinks d.m_model).2 d.m_buffers.sensorHelpers
            d.m_sensors).2).1 = true) := by
  unfold documentHasBeenParsed_clean
  simp only []
  cases hr : (removeFakeLinks d.m_model).1
  · simp
  · simp only [Bool.not_true, Bool.false_eq_true, if_false, true_and]
    exact sensors_ret_iff _ _

theorem documentHasBeenParsed_ret_iff [One T] [Mul T] [Inv T] (d : URDFDocument T) :
    d.documentHasBeenParsed.ret = true ↔
      ∃ r : String,
        d.m_model.linkNames.filter (fun n =>
          decide (n ∉ pendingChildLinks d.m_buffers.joints d.m_buffers.fixedJoints)) = [r] ∧
        (removeFakeLinks ((attachedModel d).setDefaultBaseLink
          ((attachedModel d).getLinkIndex r)).2).1 = true ∧
        (processSensors (normalizedModel d r) d.m_buffers.sensorHelpers d.m_sensors).1 = true ∧
        (d.m_options.addSensorFramesAsAdditionalFrames = true →
          (addSensorFramesAsAdditionalFramesToModel (normalizedModel d r)
            (processSensors (normalizedModel d r) d.m_buffers.sensorHelpers
              d.m_sensors).2).1 = true) := by
  unfold URDFDocument.documentHasBeenParsed
  simp only [rootCandidates_processJoints]
  cases hc : d.m_model.linkNames.filter (fun n =>
      decide (n ∉ pendingChildLinks d.m_buffers.joints d.m_buffers.fixedJoints)) with
  | nil => simp
  | cons r rest =>
    cases rest with
    | cons r2 rest2 => simp
    | nil =>
      simp only [List.isEmpty_cons, Bool.false_eq_true, if_false, List.length_singleton,
        ge_iff_le, Nat.not_ofNat_le_one, List.headD_cons]
      rw [clean_ret_iff]
      constructor
      · intro h
        exact ⟨r, rfl, h⟩
      · rintro ⟨r', hr', h⟩
        have : r' = r := by simpa using hr'.symm
        subst this
        exact h

theorem addVisual_keys_ok_congr [One T] [Mul T] (model : Model T)
    (db : List (String × MaterialInfo)) (visuals : List (String × List (VisualInfo T)))
    (g g' : ModelSolidShapes T) :
    (addVisual_keys model db visuals g).ok = (addVisual_keys model db visuals g').ok := by
  rw [Bool.eq_iff_iff, (addVisual_keys_spec model db visuals g).1,
    (addVisual_keys_spec model db visuals g').1]

theorem shapes_failure_log [One T] [Mul T] (d : URDFDocument T) (log : List Report)
    (g : ModelSolidShapes T)
    (hf : (addVisualPropertiesToModel (documentHasBeenParsed_shapes d log).doc.m_model
      d.m_buffers.visuals d.m_buffers.materials g).ok = false) :
    reportError "URDFDocument" "documentHasBeenParsed" "Failed to add visual elements to model" ∈
      (documentHasBeenParsed_shapes d log).log ∧
    reportError "URDFDocument" "documentHasBeenParsed"
      "Failed to add collision elements to model" ∈ (documentHasBeenParsed_shapes d log).log := by
  unfold documentHasBeenParsed_shapes addVisualPropertiesToModel at hf ⊢
  simp only [addVisual_keys_model, addVisual_keys_model2] at hf ⊢
  have h1 : (addVisual_keys d.m_model d.m_buffers.materials d.m_buffers.visuals
      d.m_model.visualSolidShapes).ok = false := by
    rw [addVisual_keys_ok_congr _ _ _ _ g]; exact hf
  have h2 : (addVisual_keys d.m_model d.m_buffers.materials
      (addVisual_keys d.m_model d.m_buffers.materials d.m_buffers.visuals
        d.m_model.visualSolidShapes).visuals d.m_model.collisionSolidShapes).ok = false := by
    rw [addVisual_keys_ok_congr _ _ _ _ d.m_model.visualSolidShapes,
      (addVisual_keys_again _ _ _ _).1]
    exact h1
  simp [h1, h2]

theorem frames_failure_log [One T] [Mul T] (d : URDFDocument T) (log : List Report)
    (g : ModelSolidShapes T) (hr : (documentHasBeenParsed_frames d log).ret = true)
    (hf : (addVisualPropertiesToModel (documentHasBeenParsed_frames d log).doc.m_model
      d.m_buffers.visuals d.m_buffers.materials g).ok = false) :
    reportError "URDFDocument" "documentHasBeenParsed" "Failed to add visual elements to model" ∈
      (documentHasBeenParsed_frames d log).log ∧
    reportError "URDFDocument" "documentHasBeenParsed"
      "Failed to add collision elements to model" ∈ (documentHasBeenParsed_frames d log).log := by
  unfold documentHasBeenParsed_frames at hr hf ⊢
  by_cases ho : d.m_options.addSensorFramesAsAdditionalFrames = true
  · rw [if_pos ho] at hr hf ⊢
    simp only [] at hr hf ⊢
    by_cases hx : (!(addSensorFramesAsAdditionalFramesToModel d.m_model d.m_sensors).1) = true
    · rw [if_pos hx] at hr
      exact absurd hr (by simp)
    · rw [if_neg hx] at hf ⊢
      exact shapes_failure_log _ _ g hf
  · rw [if_neg ho] at hf ⊢
    exact shapes_failure_log _ _ g hf

theorem sensors_failure_log [One T] [Mul T] (d : URDFDocument T) (log : List Report)
    (g : ModelSolidShapes T) (hr : (documentHasBeenParsed_sensors d log).ret = true)
    (hf : (addVisualPropertiesToModel (documentHasBeenParsed_sensors d log).doc.m_model
      d.m_buffers.visuals d.m_buffers.materials g).ok = false) :
    reportError "URDFDocument" "documentHasBeenParsed" "Failed to add visual elements to model" ∈
      (documentHasBeenParsed_sensors d log).log ∧
    reportError "URDFDocument" "documentHasBeenParsed"
      "Failed to add collision elements to model" ∈ (documentHasBeenParsed_sensors d log).log := by
  unfold documentHasBeenParsed_sensors at hr hf ⊢
  simp only [] at hr hf ⊢
  by_cases c : (!(processSensors d.m_model d.m_buffers.sensorHelpers d.m_sensors).1) = true
  · rw [if_pos c] at hr
    exact absurd hr (by simp)
  · rw [if_neg c] at hr hf ⊢
    exact frames_failure_log _ _ g hr hf

theorem clean_failure_log [One T] [Mul T] [Inv T] (d : URDFDocument T) (log : List Report)
    (g : ModelSolidShapes T) (hr : (documentHasBeenParsed_clean d log).ret = true)
    (hf : (addVisualPropertiesToModel (documentHasBeenParsed_clean d log).doc.m_model
      d.m_buffers.visuals d.m_buffers.materials g).ok = false) :
    reportError "URDFDocument" "documentHasBeenParsed" "Failed to add visual elements to model" ∈
      (documentHasBeenParsed_clean d log).log ∧
    reportError "URDFDocument" "documentHasBeenParsed"
      "Failed to add collision elements to model" ∈ (documentHasBeenParsed_clean d log).log := by
  unfold documentHasBeenParsed_clean at hr hf ⊢
  simp only [] at hr hf ⊢
  by_cases c : (!(removeFakeLinks d.m_model).1) = true
  · rw [if_pos c] at hr
    exact absurd hr (by simp)
  · rw [if_neg c] at hr hf ⊢
    exact sensors_failure_log _ _ g hr hf

/-- When `documentHasBeenParsed` returns true and the resolution of the
shapes fails on the model it leaves, both failures are in the log. -/
theorem documentHasBeenParsed_failure_log [One T] [Mul T] [Inv T] (d : URDFDocument T)
    (g : ModelSolidShapes T) (hr : d.documentHasBeenParsed.ret = true)
    (hf : (addVisualPropertiesToModel d.documentHasBeenParsed.doc.m_model
      d.m_buffers.visuals d.m_buffers.materials g).ok = false) :
    reportError "URDFDocument" "documentHasBeenParsed" "Failed to add visual elements to model" ∈
      d.documentHasBeenParsed.log ∧
    reportError "URDFDocument" "documentHasBeenParsed"
      "Failed to add collision elements to model" ∈ d.documentHasBeenParsed.log := by
  unfold URDFDocument.documentHasBeenParsed at hr hf ⊢
  simp only [] at hr hf ⊢
  by_cases c1 : (rootCandidates
      (processJoints d.m_model d.m_buffers.joints d.m_buffers.fixedJoints).model
      (processJoints d.m_model d.m_buffers.joints d.m_buffers.fixedJoints).childLinks).isEmpty =
      true
  · rw [if_pos c1] at hr
    exact absurd hr (by simp)
  · rw [if_neg c1] at hr hf ⊢
    by_cases c2 : (rootCandidates
        (processJoints d.m_model d.m_buffers.joints d.m_buffers.fixedJoints).model
        (processJoints d.m_model d.m_buffers.joints d.m_buffers.fixedJoints).childLinks).length
        ≥ 2
    · rw [if_pos c2] at hr
      exact absurd hr (by simp)
    · rw [if_neg c2] at hr hf ⊢
      exact clean_failure_log _ _ g hr hf

theorem documentHasBeenParsed_ret_visuals [One T] [Mul T] [Inv T] (d : URDFDocument T)
    (visuals : List (String × List (VisualInfo T))) (materials : List (String × MaterialInfo)) :
    ({ d with m_buffers := { d.m_buffers with visuals := visuals, materials := materials } } :
      URDFDocument T).documentHasBeenParsed.ret = d.documentHasBeenParsed.ret := by
  unfold URDFDocument.documentHasBeenParsed
  simp only []
  split_ifs
  · rfl
  · rfl
  · exact clean_ret_congr _ _ _ _ rfl rfl rfl rfl

/-- Claim C10, amended. The method `documentHasBeenParsed` returns `true` if
and only if exactly one link name `r` of the model is absent from the
child-link names of the pending joints, `removeFakeLinks` returns `true` on
the model with the pending joints attached and the link `r` as default base
link, `processSensors` returns `true` on the model that `removeFakeLinks`
gives and, when the publication of the sensor frames is enabled, the
publication returns `true`. No condition bears on the connectivity of the
joint graph nor on its cycles. -/
theorem documentHasBeenParsed_returns_true_iff [One T] [Mul T] [Inv T] (d : URDFDocument T) :
    d.documentHasBeenParsed.ret = true ↔
      ∃ r : String,
        d.m_model.linkNames.filter (fun n =>
          decide (n ∉ pendingChildLinks d.m_buffers.joints d.m_buffers.fixedJoints)) = [r] ∧
        (removeFakeLinks ((attachedModel d).setDefaultBaseLink
          ((attachedModel d).getLinkIndex r)).2).1 = true ∧
        (processSensors (normalizedModel d r) d.m_buffers.sensorHelpers d.m_sensors).1 = true ∧
        (d.m_options.addSensorFramesAsAdditionalFrames = true →
          (addSensorFramesAsAdditionalFramesToModel (normalizedModel d r)
            (processSensors (normalizedModel d r) d.m_buffers.sensorHelpers
              d.m_sensors).2).1 = true) :=
  documentHasBeenParsed_ret_iff d

/-- Witness of claim C10 (amended). The four links of `exDocDisconnected`,
one isolated and three in a cycle, meet the conditions and are accepted.
The five links of `exDocFakePair` have exactly one link that is no child
link, and are rejected: `removeFakeLinks` returns `false` on them, and the
failure is reported. -/
theorem documentHasBeenParsed_returns_true_iff_witness :
    exDocDisconnected.documentHasBeenParsed.ret = true ∧
    (exDocFakePair.m_model.linkNames.filter (fun n =>
      decide (n ∉ pendingChildLinks exDocFakePair.m_buffers.joints
        exDocFakePair.m_buffers.fixedJoints)) = ["A"] ∧
      (removeFakeLinks ((attachedModel exDocFakePair).setDefaultBaseLink
        ((attachedModel exDocFakePair).getLinkIndex "A")).2).1 = false ∧
      exDocFakePair.documentHasBeenParsed.log =
        [reportError "URDFDocument" "documentHasBeenParsed"
          "Failed to remove fake links from the model"] ∧
      ¬ exDocFakePair.documentHasBeenParsed.ret = true) :=
  ⟨(documentHasBeenParsed_returns_true_iff exDocDisconnected).mpr
      ⟨"A", by decide, by decide, by decide, by decide⟩,
    by decide, by decide, by decide,
    fun h => by
      obtain ⟨r, h1, h2, -⟩ := (documentHasBeenParsed_returns_true_iff exDocFakePair).mp h
      have hr : r = "A" := by
        have h0 : exDocFakePair.m_model.linkNames.filter (fun n =>
            decide (n ∉ pendingChildLinks exDocFakePair.m_buffers.joints
              exDocFakePair.m_buffers.fixedJoints)) = ["A"] := by decide
        rw [h0] at h1
        simpa using h1.symm
      subst hr
      exact absurd h2 (by decide)⟩

/-- Claim C4, the code on a shape failure. For a document with exactly one
link name `r` absent from the child-link names, on which `removeFakeLinks`,
`processSensors` and, if enabled, the publication of the sensor frames
return `true`: when the resolution of the shapes of the pending-visual
buffer fails on the resulting model, `documentHasBeenParsed` returns `true`,
and its log holds the report of the failure for the visual shapes and the
report of the failure for the collision shapes. The value returned by
`documentHasBeenParsed` is the same whatever the pending-visual buffer and
the materials table hold. -/
theorem documentHasBeenParsed_shape_failure_returns_true [One T] [Mul T] [Inv T]
    (d : URDFDocument T) (r : String)
    (hroot : d.m_model.linkNames.filter (fun n =>
      decide (n ∉ pendingChildLinks d.m_buffers.joints d.m_buffers.fixedJoints)) = [r])
    (hclean : (removeFakeLinks ((attachedModel d).setDefaultBaseLink
      ((attachedModel d).getLinkIndex r)).2).1 = true)
    (hs : (processSensors (normalizedModel d r) d.m_buffers.sensorHelpers d.m_sensors).1 = true)
    (hp : d.m_options.addSensorFramesAsAdditionalFrames = true →
      (addSensorFramesAsAdditionalFramesToModel (normalizedModel d r)
        (processSensors (normalizedModel d r) d.m_buffers.sensorHelpers d.m_sensors).2).1 = true)
    (hf : (addVisualPropertiesToModel d.documentHasBeenParsed.doc.m_model
      d.m_buffers.visuals d.m_buffers.materials ModelSolidShapes.empty).ok = false) :
    d.documentHasBeenParsed.ret = true ∧
    reportError "URDFDocument" "documentHasBeenParsed" "Failed to add visual elements to model" ∈
      d.documentHasBeenParsed.log ∧
    reportError "URDFDocument" "documentHasBeenParsed"
      "Failed to add collision elements to model" ∈ d.documentHasBeenParsed.log ∧
    ∀ (visuals : List (String × List (VisualInfo T))) (materials : List (String × MaterialInfo)),
      ({ d with m_buffers := { d.m_buffers with visuals := visuals, materials := materials } } :
        URDFDocument T).documentHasBeenParsed.ret = d.documentHasBeenParsed.ret := by
  have hr : d.documentHasBeenParsed.ret = true :=
    (documentHasBeenParsed_ret_iff d).mpr ⟨r, hroot, hclean, hs, hp⟩
  obtain ⟨h1, h2⟩ := documentHasBeenParsed_failure_log d _ hr hf
  exact ⟨hr, h1, h2, fun visuals materials => documentHasBeenParsed_ret_visuals d visuals materials⟩

/-- Witness of claim C4: one link `A` and a pending visual under the key
`nowhere`, which is neither a link nor a frame. -/
theorem documentHasBeenParsed_shape_failure_returns_true_witness :
    (addVisualPropertiesToModel exDocDanglingVisual.documentHasBeenParsed.doc.m_model
      exDocDanglingVisual.m_buffers.visuals exDocDanglingVisual.m_buffers.materials
      ModelSolidShapes.empty).ok = false ∧
    exDocDanglingVisual.documentHasBeenParsed.ret = true ∧
    reportError "URDFDocument" "documentHasBeenParsed" "Failed to add visual elements to model" ∈
      exDocDanglingVisual.documentHasBeenParsed.log ∧
    reportError "URDFDocument" "documentHasBeenParsed"
      "Failed to add collision elements to model" ∈ exDocDanglingVisual.documentHasBeenParsed.log :=
  ⟨by decide,
    (documentHasBeenParsed_shape_failure_returns_true exDocDanglingVisual "A" (by decide)
      (by decide) (by decide) (by decide) (by decide)).1,
    (documentHasBeenParsed_shape_failure_returns_true exDocDanglingVisual "A" (by decide)
      (by decide) (by decide) (by decide) (by decide)).2.1,
    (documentHasBeenParsed_shape_failure_returns_true exDocDanglingVisual "A" (by decide)
      (by decide) (by decide) (by decide) (by decide)).2.2.1⟩

/-- Claim C4, the failing input. One link `A` and a pending visual under a
key that is neither a link nor a frame: the resolution of the visual shapes
fails on the model without fake links, the log of `documentHasBeenParsed` is
the report of `addVisualPropertiesToModel` and the report of the failure,
once for the visual and once for the collision shapes, and
`documentHasBeenParsed` returns `true`. -/
theorem documentHasBeenParsed_dangling_visual_returns_true :
    (addVisualPropertiesToModel (removeFakeLinks exDocDanglingVisual.m_model).2
      exDocDanglingVisual.m_buffers.visuals exDocDanglingVisual.m_buffers.materials
      ModelSolidShapes.empty).ok = false ∧
    exDocDanglingVisual.documentHasBeenParsed.log =
      [reportError "URDFDocument" "addVisualPropertiesToModel"
          "Expecting nowhere to be a frame, but it was not found in the frame list",
        reportError "URDFDocument" "documentHasBeenParsed"
          "Failed to add visual elements to model",
        reportError "URDFDocument" "addVisualPropertiesToModel"
          "Expecting nowhere to be a frame, but it was not found in the frame list",
        reportError "URDFDocument" "documentHasBeenParsed"
          "Failed to add collision elements to model"] ∧
    exDocDanglingVisual.documentHasBeenParsed.ret = true := by
  decide

/-! ### The links that become fake -/

theorem eq_singleton_of_nodup {α : Type} (l : List α) (x : α) (hn : l.Nodup) (hx : x ∈ l)
    (hall : ∀ y ∈ l, y = x) : l = [x] := by
  match l, hn, hx, hall with
  | [a], _, _, hall => rw [hall a (by simp)]
  | a :: b :: rest, hn, _, hall =>
    have ha := hall a (by simp)
    have hb := hall b (by simp)
    simp only [List.nodup_cons, List.mem_cons, not_or] at hn
    exact absurd (ha.trans hb.symm) hn.1.1

theorem filter_range_eq_singleton (n : Nat) (Q : Nat → Bool) (k : Nat) :
    (List.range n).filter Q = [k] ↔
      k < n ∧ Q k = true ∧ ∀ k2, k2 < n → Q k2 = true → k2 = k := by
  constructor
  · intro h
    have hk : k ∈ (List.range n).filter Q := by rw [h]; simp
    rw [List.mem_filter, List.mem_range] at hk
    refine ⟨hk.1, hk.2, ?_⟩
    intro k2 h1 h2
    have : k2 ∈ (List.range n).filter Q := by
      rw [List.mem_filter, List.mem_range]; exact ⟨h1, h2⟩
    rw [h] at this
    simpa using this
  · rintro ⟨h1, h2, h3⟩
    apply eq_singleton_of_nodup
    · exact List.Nodup.filter _ (List.nodup_range n)
    · rw [List.mem_filter, List.mem_range]; exact ⟨h1, h2⟩
    · intro y hy
      rw [List.mem_filter, List.mem_range] at hy
      exact h3 y hy.1 hy.2

/-- A link that is not fake although it has no positive mass and is attached
to a fixed joint is attached to a second joint, in a model whose joints have
two different ends. -/
theorem exists_second_joint_of (m : Model T) (hv : ∀ p ∈ m.joints, p.2.link1 ≠ p.2.link2)
    (i : Int) (link : Link)
    (hl : m.getLink i = some link) (hmass : ¬ (0 < link.getInertia.getMass))
    (hnf : isFakeLink m i = false) (k : Nat) (hk : k < m.joints.length)
    (hinc : (m.joints[k]).2.link1 = i ∨ (m.joints[k]).2.link2 = i)
    (hd : (m.joints[k]).2.getNrOfDOFs = 0) :
    ∃ k2, ∃ hk2 : k2 < m.joints.length, k2 ≠ k ∧
      ((m.joints[k2]).2.link1 = i ∨ (m.joints[k2]).2.link2 = i) := by
  have hmem : ∃ o, (⟨o, (k : Int)⟩ : Neighbor) ∈ m.neighbors i := by
    rcases hinc with h | h
    · exact ⟨_, by simpa using neighborsFrom_mem_of_link1 i m.joints 0 k hk h⟩
    · exact ⟨_, by simpa using neighborsFrom_mem_of_link2 i m.joints 0 k hk h⟩
  obtain ⟨o, ho⟩ := hmem
  have hlen : (m.neighbors i).length ≠ 1 := by
    intro h1
    have hone := m.getNeighbor_zero_mem i h1
    rw [hone] at ho
    simp only [List.mem_singleton] at ho
    have hf : isFakeLink m i = true := by
      rw [isFakeLink_iff]
      refine ⟨link, hl, hmass, h1, (m.joints[k]).2, ?_, hd⟩
      rw [← ho]
      exact m.getJoint_natCast k hk
    rw [hf] at hnf
    exact absurd hnf (by simp)
  obtain ⟨y, hy, hne⟩ := exists_other_of_length_ne_one Neighbor.neighborJoint (m.neighbors i)
    (neighborsFrom_nodup i m.joints 0 hv) _ ho hlen
  obtain ⟨k2, hk2, h1, h2⟩ := mem_neighborsFrom i m.joints 0 y hy
  refine ⟨k2, hk2, ?_, ?_⟩
  · intro e
    apply hne
    rw [h1, e]; simp
  · rcases h2 with ⟨h2, -⟩ | ⟨h2, -⟩
    · exact Or.inl h2
    · exact Or.inr h2

/-- The classification in terms of the joints of the model: a link without
positive mass with exactly one joint, which has no degree of freedom. -/
theorem isFakeLink_iff_joints (m : Model T) (hv : ∀ p ∈ m.joints, p.2.link1 ≠ p.2.link2)
    (i : Int) :
    isFakeLink m i = true ↔
      ∃ link, m.getLink i = some link ∧ ¬ (0 < link.getInertia.getMass) ∧
        ∃ k, ∃ hk : k < m.joints.length,
          ((m.joints[k]).2.link1 = i ∨ (m.joints[k]).2.link2 = i) ∧
          (m.joints[k]).2.getNrOfDOFs = 0 ∧
          ∀ k2, ∀ hk2 : k2 < m.joints.length,
            ((m.joints[k2]).2.link1 = i ∨ (m.joints[k2]).2.link2 = i) → k2 = k := by
  constructor
  · intro h
    obtain ⟨link, hl, hmass, -, -⟩ := (isFakeLink_iff m i).mp h
    obtain ⟨k, hk, hnj, hd, hinc⟩ := isFakeLink_joint m i h
    refine ⟨link, hl, hmass, k, hk, ?_, hd, ?_⟩
    · rcases hinc with ⟨h1, -⟩ | ⟨h1, -⟩
      · exact Or.inl h1
      · exact Or.inr h1
    · intro k2 hk2 hinc2
      have := isFakeLink_incident m i h k2 hk2 hinc2
      rw [hnj] at this
      omega
  · rintro ⟨link, hl, hmass, k, hk, hinc, hd, huniq⟩
    cases hf : isFakeLink m i with
    | true => rfl
    | false =>
      obtain ⟨k2, hk2, hne, hinc2⟩ := exists_second_joint_of m hv i link hl hmass hf k hk hinc hd
      exact absurd (huniq k2 hk2 hinc2) hne

/-- The links that become fake, in terms of the joints of the model. -/
theorem becomesFakeLink_iff (m : Model T) (i : Int) :
    becomesFakeLink m i = true ↔
      ∃ link, m.getLink i = some link ∧ ¬ (0 < link.getInertia.getMass) ∧
        isFakeLink m i = false ∧
        ∃ k, ∃ hk : k < m.joints.length,
          (((m.joints[k]).2.link1 = i ∧ isFakeLink m (m.joints[k]).2.link2 = false) ∨
            ((m.joints[k]).2.link2 = i ∧ isFakeLink m (m.joints[k]).2.link1 = false)) ∧
          (m.joints[k]).2.getNrOfDOFs = 0 ∧
          ∀ k2, ∀ hk2 : k2 < m.joints.length,
            (((m.joints[k2]).2.link1 = i ∧ isFakeLink m (m.joints[k2]).2.link2 = false) ∨
              ((m.joints[k2]).2.link2 = i ∧ isFakeLink m (m.joints[k2]).2.link1 = false)) →
            k2 = k := by
  have hQ : ∀ k, ∀ hk : k < m.joints.length,
      ((match m.getJoint (k : Int) with
        | some j =>
          (decide (j.link1 = i) && !isFakeLink m j.link2) ||
            (decide (j.link2 = i) && !isFakeLink m j.link1)
        | none => false) = true) ↔
      (((m.joints[k]).2.link1 = i ∧ isFakeLink m (m.joints[k]).2.link2 = false) ∨
        ((m.joints[k]).2.link2 = i ∧ isFakeLink m (m.joints[k]).2.link1 = false)) := by
    intro k hk
    rw [m.getJoint_natCast k hk]
    simp
  have hkept : ∀ k, keptJointsOf m i = [k] ↔
      ∃ hk : k < m.joints.length,
        (((m.joints[k]).2.link1 = i ∧ isFakeLink m (m.joints[k]).2.link2 = false) ∨
          ((m.joints[k]).2.link2 = i ∧ isFakeLink m (m.joints[k]).2.link1 = false)) ∧
        ∀ k2, ∀ hk2 : k2 < m.joints.length,
          (((m.joints[k2]).2.link1 = i ∧ isFakeLink m (m.joints[k2]).2.link2 = false) ∨
            ((m.joints[k2]).2.link2 = i ∧ isFakeLink m (m.joints[k2]).2.link1 = false)) →
          k2 = k := by
    intro k
    unfold keptJointsOf
    rw [filter_range_eq_singleton]
    constructor
    · rintro ⟨h1, h2, h3⟩
      exact ⟨h1, (hQ k h1).mp h2, fun k2 hk2 h => h3 k2 hk2 ((hQ k2 hk2).mpr h)⟩
    · rintro ⟨h1, h2, h3⟩
      exact ⟨h1, (hQ k h1).mpr h2, fun k2 hk2 h => h3 k2 hk2 ((hQ k2 hk2).mp h)⟩
  unfold becomesFakeLink
  cases hl : m.getLink i with
  | none => simp
  | some link =>
    simp only [Option.some.injEq, exists_eq_left']
    by_cases hm : link.getInertia.getMass > 0
    · simp [hm]
    · cases hf : isFakeLink m i with
      | true => simp [hm]
      | false =>
        simp only [hm, if_false, Bool.false_eq_true, not_false_eq_true, true_and]
        constructor
        · intro h
          cases hk : keptJointsOf m i with
          | nil => rw [hk] at h; simp at h
          | cons k rest =>
            cases rest with
            | cons k' rest' => rw [hk] at h; simp at h
            | nil =>
              obtain ⟨hk1, hk2, hk3⟩ := (hkept k).mp hk
              refine ⟨k, hk1, hk2, ?_, hk3⟩
              rw [hk] at h
              simp only [] at h
              rw [m.getJoint_natCast k hk1] at h
              simpa using h
        · rintro ⟨k, hk1, hk2, hd, hk3⟩
          rw [(hkept k).mpr ⟨hk1, hk2, hk3⟩]
          simp only []
          rw [m.getJoint_natCast k hk1]
          simpa using hd

theorem getElem_inj_of_map_nodup {α β : Type} (f : α → β) (l : List α)
    (hn : (l.map f).Nodup) (a b : Nat) (ha : a < l.length) (hb : b < l.length)
    (h : f l[a] = f l[b]) : a = b := by
  have ha' : a < (l.map f).length := by simpa using ha
  have hb' : b < (l.map f).length := by simpa using hb
  have : (l.map f)[a] = (l.map f)[b] := by simpa using h
  exact (List.Nodup.getElem_inj_iff hn).mp this

/-- A joint both ends of which are not fake is kept. -/
theorem kept_of_ends (m : Model T) (wf : m.WellFormed) (k : Nat) (hk : k < m.joints.length)
    (h1 : isFakeLink m (m.joints[k]).2.link1 = false)
    (h2 : isFakeLink m (m.joints[k]).2.link2 = false) :
    (m.joints[k]).1 ∉ (removeFakeLinks_scan m).jointsToRemove := by
  rw [jointName_mem_jointsToRemove m wf.jointNames_nodup k hk]
  unfold jointTouchesFakeLink
  rw [m.getJoint_natCast k hk]
  simp [IJoint.getFirstAttachedLink, IJoint.getSecondAttachedLink, h1, h2]

/-- A kept joint is a joint of the output model. -/
theorem outJoint_of_kept [Inv T] (m : Model T) (wf : m.WellFormed) (k : Nat)
    (hk : k < m.joints.length)
    (hkeep : (m.joints[k]).1 ∉ (removeFakeLinks_scan m).jointsToRemove) :
    ∃ b, ∃ hb : b < (removeFakeLinks m).2.joints.length,
      (removeFakeLinks m).2.joints[b] =
        remapJoint m ((survivingLinks m).map Prod.fst) m.joints[k] := by
  obtain ⟨-, hj, -⟩ := removeFakeLinks_output m wf
  have hmem : m.joints[k] ∈ survivingJoints m := by
    unfold survivingJoints
    rw [List.mem_filter]
    exact ⟨List.getElem_mem _, by simpa using hkeep⟩
  obtain ⟨b, hb, heb⟩ := List.getElem_of_mem hmem
  have hb' : b < (removeFakeLinks m).2.joints.length := by rw [hj]; simpa using hb
  refine ⟨b, hb', ?_⟩
  simp only [hj, List.getElem_map, heb]

/-- A joint of the output model is a kept joint of the input model. -/
theorem outJoint_trace [Inv T] (m : Model T) (wf : m.WellFormed) (b : Nat)
    (hb : b < (removeFakeLinks m).2.joints.length) :
    ∃ k, ∃ hk : k < m.joints.length,
      (m.joints[k]).1 ∉ (removeFakeLinks_scan m).jointsToRemove ∧
      (removeFakeLinks m).2.joints[b] =
        remapJoint m ((survivingLinks m).map Prod.fst) m.joints[k] := by
  obtain ⟨-, hj, -⟩ := removeFakeLinks_output m wf
  have hb' : b < (survivingJoints m).length := by
    have := hb; rw [hj] at this; simpa using this
  obtain ⟨k, hk, hek, hkeep⟩ := survivingJoints_getElem m b hb'
  refine ⟨k, hk, hkeep, ?_⟩
  simp only [hj, List.getElem_map, hek]

/-- The joint names of the output model are pairwise different. -/
theorem removeFakeLinks_jointNames_nodup [Inv T] (m : Model T) (wf : m.WellFormed) :
    ((removeFakeLinks m).2.joints.map Prod.fst).Nodup := by
  obtain ⟨-, hj, -⟩ := removeFakeLinks_output m wf
  rw [hj, List.map_map]
  have : (Prod.fst ∘ remapJoint m ((survivingLinks m).map Prod.fst)) =
      (Prod.fst : String × IJoint T → String) := by
    funext p; rfl
  rw [this]
  unfold survivingJoints
  exact List.Nodup.sublist (List.Sublist.map _ (List.filter_sublist _)) wf.jointNames_nodup

/-- The two ends of a joint of the output model are different. -/
theorem removeFakeLinks_joints_ends [Inv T] (m : Model T) (wf : m.WellFormed) :
    ∀ p ∈ (removeFakeLinks m).2.joints, p.2.link1 ≠ p.2.link2 := by
  intro p hp
  obtain ⟨b, hb, rfl⟩ := List.getElem_of_mem hp
  obtain ⟨k, hk, hkeep, he⟩ := outJoint_trace m wf b hb
  rw [he]
  exact (remapJoint_valid m wf _ (List.getElem_mem hk) hkeep).2.2.2.2

/-- The position among the surviving links of a link that is not fake. -/
theorem link_position (m : Model T) (wf : m.WellFormed) (i : Nat) (hi : i < m.links.length)
    (hnf : isFakeLink m (i : Int) = false) :
    ∃ a, ∃ ha : a < (survivingLinks m).length, (survivingLinks m)[a] = m.links[i] ∧
      Model.indexOfName ((survivingLinks m).map Prod.fst) (m.getLinkName (i : Int)) = (a : Int) := by
  have hm := getLinkName_mem_survivingLinks m wf.linkNames_nodup (i : Int) (by omega) (by omega)
    (by simp [hnf])
  obtain ⟨a, ha, e1, e2⟩ := indexOfName_mem _ _ hm
  have ha' : a < (survivingLinks m).length := by simpa using ha
  obtain ⟨i', hi', he, -⟩ := survivingLinks_getElem m wf a ha'
  have hname : m.getLinkName (i' : Int) = m.getLinkName (i : Int) := by
    rw [← e2, m.getLinkName_natCast i' hi', ← he]; simp
  have := congrArg m.getLinkIndex hname
  rw [m.getLinkIndex_getLinkName wf.linkNames_nodup _ (by omega) (by omega),
    m.getLinkIndex_getLinkName wf.linkNames_nodup _ (by omega) (by omega)] at this
  have hii : i' = i := by omega
  subst hii
  exact ⟨a, ha', he, e1⟩

/-- A link that is not fake is fake in the output model exactly when it
becomes fake. -/
theorem removeFakeLinks_isFakeLink_eq [Inv T] (m : Model T) (wf : m.WellFormed) (i : Nat)
    (hi : i < m.links.length) (hnf : isFakeLink m (i : Int) = false) :
    isFakeLink (removeFakeLinks m).2
        ((removeFakeLinks m).2.getLinkIndex (m.getLinkName (i : Int))) =
      becomesFakeLink m (i : Int) := by
  obtain ⟨hl, hj, -⟩ := removeFakeLinks_output m wf
  obtain ⟨a, ha, hea, hia⟩ := link_position m wf i hi hnf
  have hidx : (removeFakeLinks m).2.getLinkIndex (m.getLinkName (i : Int)) = (a : Int) := by
    unfold Model.getLinkIndex Model.linkNames
    rw [hl]; exact hia
  rw [hidx]
  have ha' : a < (removeFakeLinks m).2.links.length := by rw [hl]; exact ha
  have hlink : (removeFakeLinks m).2.getLink (a : Int) = m.getLink (i : Int) := by
    rw [Model.getLink_natCast _ a ha', m.getLink_natCast i hi]
    have : (removeFakeLinks m).2.links[a] = (survivingLinks m)[a] := by simp only [hl]
    rw [this, hea]
  -- incidence of a kept joint, in the output and in the input model
  have hinc : ∀ k, ∀ hk : k < m.joints.length,
      (m.joints[k]).1 ∉ (removeFakeLinks_scan m).jointsToRemove →
      (isFakeLink m (m.joints[k]).2.link1 = false ∧ isFakeLink m (m.joints[k]).2.link2 = false) ∧
      ((remapJoint m ((survivingLinks m).map Prod.fst) m.joints[k]).2.link1 = (a : Int) ↔
        (m.joints[k]).2.link1 = (i : Int)) ∧
      ((remapJoint m ((survivingLinks m).map Prod.fst) m.joints[k]).2.link2 = (a : Int) ↔
        (m.joints[k]).2.link2 = (i : Int)) := by
    intro k hk hkeep
    obtain ⟨v1, v2, v3, v4, -⟩ := wf.joints_valid _ (List.getElem_mem hk)
    obtain ⟨f1, f2⟩ := kept_joint_not_fake m k hk hkeep
    have f1' : isFakeLink m (m.joints[k]).2.link1 = false := by simpa using f1
    have f2' : isFakeLink m (m.joints[k]).2.link2 = false := by simpa using f2
    exact ⟨⟨f1', f2'⟩, newIndex_eq_iff m wf a ha i hi hea _ v1 v2 f1',
      newIndex_eq_iff m wf a ha i hi hea _ v3 v4 f2'⟩
  rw [Bool.eq_iff_iff, isFakeLink_iff_joints _ (removeFakeLinks_joints_ends m wf),
    becomesFakeLink_iff, hlink]
  constructor
  · rintro ⟨link, hlk, hmass, b, hb, hincb, hd, huniq⟩
    obtain ⟨k, hk, hkeep, hjb⟩ := outJoint_trace m wf b hb
    obtain ⟨⟨f1, f2⟩, i1, i2⟩ := hinc k hk hkeep
    refine ⟨link, hlk, hmass, hnf, k, hk, ?_, ?_, ?_⟩
    · rw [hjb] at hincb
      rcases hincb with h | h
      · exact Or.inl ⟨i1.mp h, f2⟩
      · exact Or.inr ⟨i2.mp h, f1⟩
    · rw [hjb] at hd; exact hd
    · intro k2 hk2 hinc2
      have g : isFakeLink m (m.joints[k2]).2.link1 = false ∧
          isFakeLink m (m.joints[k2]).2.link2 = false := by
        rcases hinc2 with ⟨h, g⟩ | ⟨h, g⟩
        · exact ⟨by rw [h]; exact hnf, g⟩
        · exact ⟨g, by rw [h]; exact hnf⟩
      have hkeep2 := kept_of_ends m wf k2 hk2 g.1 g.2
      obtain ⟨b2, hb2, hjb2⟩ := outJoint_of_kept m wf k2 hk2 hkeep2
      obtain ⟨-, j1, j2⟩ := hinc k2 hk2 hkeep2
      have hincb2 : ((removeFakeLinks m).2.joints[b2]).2.link1 = (a : Int) ∨
          ((removeFakeLinks m).2.joints[b2]).2.link2 = (a : Int) := by
        rw [hjb2]
        rcases hinc2 with ⟨h, -⟩ | ⟨h, -⟩
        · exact Or.inl (j1.mpr h)
        · exact Or.inr (j2.mpr h)
      have hbb := huniq b2 hb2 hincb2
      subst hbb
      have hnames : (m.joints[k2]).1 = (m.joints[k]).1 := by
        have h3 := congrArg Prod.fst (hjb2.symm.trans hjb)
        exact h3
      exact getElem_inj_of_map_nodup Prod.fst m.joints wf.jointNames_nodup k2 k hk2 hk hnames
  · rintro ⟨link, hlk, hmass, -, k, hk, hinck, hd, huniq⟩
    have g : isFakeLink m (m.joints[k]).2.link1 = false ∧
        isFakeLink m (m.joints[k]).2.link2 = false := by
      rcases hinck with ⟨h, g⟩ | ⟨h, g⟩
      · exact ⟨by rw [h]; exact hnf, g⟩
      · exact ⟨g, by rw [h]; exact hnf⟩
    have hkeep := kept_of_ends m wf k hk g.1 g.2
    obtain ⟨b, hb, hjb⟩ := outJoint_of_kept m wf k hk hkeep
    obtain ⟨-, i1, i2⟩ := hinc k hk hkeep
    refine ⟨link, hlk, hmass, b, hb, ?_, ?_, ?_⟩
    · rw [hjb]
      rcases hinck with ⟨h, -⟩ | ⟨h, -⟩
      · exact Or.inl (i1.mpr h)
      · exact Or.inr (i2.mpr h)
    · rw [hjb]; exact hd
    · intro b2 hb2 hincb2
      obtain ⟨k2, hk2, hkeep2, hjb2⟩ := outJoint_trace m wf b2 hb2
      obtain ⟨⟨f1, f2⟩, j1, j2⟩ := hinc k2 hk2 hkeep2
      have hinc2 : ((m.joints[k2]).2.link1 = (i : Int) ∧
            isFakeLink m (m.joints[k2]).2.link2 = false) ∨
          ((m.joints[k2]).2.link2 = (i : Int) ∧
            isFakeLink m (m.joints[k2]).2.link1 = false) := by
        rw [hjb2] at hincb2
        rcases hincb2 with h | h
        · exact Or.inl ⟨j1.mp h, f2⟩
        · exact Or.inr ⟨j2.mp h, f1⟩
      have hkk := huniq k2 hk2 hinc2
      subst hkk
      have hnames : ((removeFakeLinks m).2.joints[b2]).1 = ((removeFakeLinks m).2.joints[b]).1 := by
        rw [hjb2, hjb]
      exact getElem_inj_of_map_nodup Prod.fst _ (removeFakeLinks_jointNames_nodup m wf) b2 b hb2 hb
        hnames

/-- A fake link of the output model is the image of a link of the input
model that is not fake. -/
theorem removeFakeLinks_link_trace [Inv T] (m : Model T) (wf : m.WellFormed) (i' : Int)
    (hf : isFakeLink (removeFakeLinks m).2 i' = true) :
    ∃ i : Nat, i < m.links.length ∧ isFakeLink m (i : Int) = false ∧
      i' = (removeFakeLinks m).2.getLinkIndex (m.getLinkName (i : Int)) := by
  obtain ⟨hl, -, -⟩ := removeFakeLinks_output m wf
  obtain ⟨h0, h1⟩ := isFakeLink_valid _ _ hf
  have ha : i'.toNat < (survivingLinks m).length := by rw [← hl]; omega
  obtain ⟨i, hi, hei, hnf⟩ := survivingLinks_getElem m wf i'.toNat ha
  refine ⟨i, hi, hnf, ?_⟩
  obtain ⟨a, ha2, hea, hia⟩ := link_position m wf i hi hnf
  unfold Model.getLinkIndex Model.linkNames
  rw [hl, hia]
  have hb1 : a < ((survivingLinks m).map Prod.fst).length := by simpa using ha2
  have hb2 : i'.toNat < ((survivingLinks m).map Prod.fst).length := by simpa using ha
  have hnames : ((survivingLinks m).map Prod.fst)[a] =
      ((survivingLinks m).map Prod.fst)[i'.toNat] := by
    simp [hea, hei]
  have := (List.Nodup.getElem_inj_iff (survivingLinks_nodup m wf.linkNames_nodup)).mp hnames
  omega

theorem exHub_wellFormed : exHub.WellFormed :=
  ⟨by decide, by decide, by decide, by decide⟩

/-- Claim C9, amended. For every (well-formed) input model, no link of the
model returned by `removeFakeLinks` satisfies `isFakeLink` if and only if no
link of the input model becomes fake, that is, is a link that is not fake,
has no positive mass and has exactly one joint that leads to a link that is
not fake, that joint having no degree of freedom. Link by link: a link of
the input model that is not fake satisfies `isFakeLink` in the output model,
at the index of its name, exactly when it becomes fake. -/
theorem removeFakeLinks_fake_left_iff [Inv T] (m : Model T) (wf : m.WellFormed) :
    ((∀ i' : Int, isFakeLink (removeFakeLinks m).2 i' = false) ↔
      ∀ i : Nat, i < m.links.length → becomesFakeLink m (i : Int) = false) ∧
    (∀ i : Nat, i < m.links.length → isFakeLink m (i : Int) = false →
      isFakeLink (removeFakeLinks m).2
          ((removeFakeLinks m).2.getLinkIndex (m.getLinkName (i : Int))) =
        becomesFakeLink m (i : Int)) := by
  refine ⟨⟨?_, ?_⟩, fun i hi hnf => removeFakeLinks_isFakeLink_eq m wf i hi hnf⟩
  · intro h i hi
    cases hnf : isFakeLink m (i : Int) with
    | false =>
      rw [← removeFakeLinks_isFakeLink_eq m wf i hi hnf]
      exact h _
    | true =>
      cases hb : becomesFakeLink m (i : Int) with
      | false => rfl
      | true =>
        obtain ⟨-, -, -, hx, -⟩ := (becomesFakeLink_iff m _).mp hb
        rw [hnf] at hx
        exact absurd hx (by simp)
  · intro h i'
    cases hf : isFakeLink (removeFakeLinks m).2 i' with
    | false => rfl
    | true =>
      obtain ⟨i, hi, hnf, rfl⟩ := removeFakeLinks_link_trace m wf i' hf
      rw [removeFakeLinks_isFakeLink_eq m wf i hi hnf, h i hi] at hf
      exact absurd hf (by simp)

/-- Witness of claim C9 (amended). In `exHub` the link `F` is fake and its
neighbour `H`, without mass, keeps two revolute joints: no link becomes
fake, and no link of the output model is fake. In `exChain` the link `B`
becomes fake, and it is fake in the output model. -/
theorem removeFakeLinks_fake_left_iff_witness :
    (exHub.WellFormed ∧ isFakeLink exHub 1 = true ∧
      (∀ i : Nat, i < exHub.links.length → becomesFakeLink exHub (i : Int) = false) ∧
      ∀ i' : Int, isFakeLink (removeFakeLinks exHub).2 i' = false) ∧
    (exChain.WellFormed ∧ becomesFakeLink exChain ((1 : Nat) : Int) = true ∧
      (removeFakeLinks exChain).2.getLinkIndex (exChain.getLinkName ((1 : Nat) : Int)) = 1 ∧
      isFakeLink (removeFakeLinks exChain).2
          ((removeFakeLinks exChain).2.getLinkIndex (exChain.getLinkName ((1 : Nat) : Int))) =
        becomesFakeLink exChain ((1 : Nat) : Int)) :=
  ⟨⟨exHub_wellFormed, by decide, by decide,
    (removeFakeLinks_fake_left_iff exHub exHub_wellFormed).1.mpr (by decide)⟩,
   ⟨exChain_wellFormed, by decide, by decide,
    (removeFakeLinks_fake_left_iff exChain exChain_wellFormed).2 1 (by decide) (by decide)⟩⟩

end iDynTree
